import Mathlib

/-!
# Semantic analyzer of the TINY compiler (`ANALYZE.C`)

A shallow embedding of `analyze.c`: the generic syntax-tree traversal
`traverse`, the symbol-table builder (`insertNode`, `buildSymtab`) and the type
checker (`checkNode`, `typeCheck`), followed by theorems about them.

Conventions of the embedding.

* A value of `TreeNode` is what a `TreeNode *` designates: `NULL`, or a node
  with its scalar fields, its `child` array and its `sibling` pointer.  Trees are
  finite and unshared because the type is inductive.
* The global variables `location`, `Error`, `TraceAnalyze`, the symbol table and
  the `listing` stream are the fields of `State`, threaded through every
  procedure.  `listing` records each `fprintf` as one `Output` value holding the
  arguments of the call.
* A procedure that dereferences a pointer returns `none` when the pointer is
  `NULL` (the behaviour of the C program is undefined there).
* `location` is a natural number. It is the value of the C variable, an `int`,
  as long as no `location++` overflows, that is as long as every slot handed
  out is below `INT_MAX`; a run in which the counter would pass `INT_MAX` is
  outside the embedding. The theorems about the values of slots and of the
  counter assume that bound and state that no increment overflowed.
-/

namespace TINY

/-! ## Declarations of `globals.h` -/

/-- Modelled from the spec: the node kinds of `globals.h` (statement,
expression, declaration), with the enumerator names used by `analyze.c`. -/
inductive NodeKind where
  | StmtK
  | ExpK
  | DeclK
  deriving DecidableEq, Repr

/-- Modelled from the spec: the statement kinds of `globals.h`. -/
inductive StmtKind where
  | IfK
  | RepeatK
  | AssignK
  | ReadK
  | WriteK
  deriving DecidableEq, Repr

/-- Modelled from the spec: the expression kinds of `globals.h`. -/
inductive ExpKind where
  | OpK
  | ConstK
  | IdK
  deriving DecidableEq, Repr

/-- Modelled from the spec: the primitive types of `globals.h`. -/
inductive ExpType where
  | Void
  | Integer
  | Boolean
  | Char
  deriving DecidableEq, Repr

/-- Modelled from the spec: the operator tags among the tokens of `globals.h`;
`analyze.c` distinguishes `EQ` and `LT` from all the others. -/
inductive TokenType where
  | EQ
  | LT
  | PLUS
  | MINUS
  | TIMES
  | OVER
  deriving DecidableEq, Repr

/-- Modelled from the spec: the union `kind` of a tree node; each member is
kept as a field of its own. -/
structure Kind where
  stmt : StmtKind
  exp : ExpKind
  deriving DecidableEq, Repr

/-- Modelled from the spec: the union `attr` of a tree node; each member is
kept as a field of its own. -/
structure Attr where
  op : TokenType
  val : Int
  name : String
  deriving DecidableEq, Repr

/-- Modelled from the spec: the scalar fields of `struct treeNode`. -/
structure NodeData where
  lineno : Int
  nodekind : NodeKind
  kind : Kind
  attr : Attr
  type : ExpType
  deriving DecidableEq, Repr

/-- Modelled from the spec: what a `TreeNode *` designates, `NULL` or a node
with its fields, its `child` array (slots `0..MAXCHILDREN-1`, in order) and its
`sibling` pointer. -/
inductive TreeNode where
  | NULL : TreeNode
  | node (t : NodeData) (child : List TreeNode) (sibling : TreeNode) : TreeNode

/-- The fields read through a pointer: `none` for `NULL`. -/
def TreeNode.deref : TreeNode → Option NodeData
  | .NULL => none
  | .node t _ _ => some t

/-- The fields of the node `t->child[i]`: `none` when that pointer is `NULL`
(or the slot does not exist). -/
def childAt (child : List TreeNode) (i : Nat) : Option NodeData :=
  match child.get? i with
  | none => none
  | some c => c.deref

/-! ## The symbol table (`symtab.h`) -/

/-- Modelled from the spec: one symbol table entry, with the name, the declared
type, the storage slot and the line numbers of the references in order. -/
structure Entry where
  name : String
  type : ExpType
  memloc : Nat
  lines : List Int
  deriving DecidableEq, Repr

/-- Modelled from the spec: `st_insert` of `symtab.c`. An absent name gets a new
entry, placed after the existing ones, with the given type and slot and `lineno`
as first reference; for a present name `lineno` is appended to its references
and `loc` and `type` are ignored. -/
def st_insert (name : String) (lineno : Int) (loc : Nat) (type : ExpType) :
    List Entry → List Entry
  | [] => [{ name := name, type := type, memloc := loc, lines := [lineno] }]
  | e :: es =>
    if e.name = name then { e with lines := e.lines ++ [lineno] } :: es
    else e :: st_insert name lineno loc type es

/-- Modelled from the spec: `st_lookup` of `symtab.c`, the stored slot of a
name, or `-1` when the name was never declared. -/
def st_lookup (name : String) : List Entry → Int
  | [] => -1
  | e :: es => if e.name = name then (e.memloc : Int) else st_lookup name es

/-- Modelled from the spec: `st_findExpType` of `symtab.c`, the declared type of
a name, or `Void` when the name is not in the table. -/
def st_findExpType (name : String) : List Entry → ExpType
  | [] => ExpType.Void
  | e :: es => if e.name = name then e.type else st_findExpType name es

/-- Modelled from the spec: `printSymTab` of `symtab.c`, the report of every
entry with its type, slot and reference lines, in insertion order. -/
def printSymTab (table : List Entry) : List Entry := table

/-! ## Global state -/

/-- One write to the `listing` stream. -/
inductive Output where
  | symbolError (lineno : Int) (name : String) (message : String)
  | typeError (lineno : Int) (message : String)
  | text (s : String)
  | symTab (report : List Entry)
  deriving DecidableEq, Repr

/-- The largest value of the C type `int`, 32 bits wide (`INT_MAX` of
`limits.h`): `location++` overflows exactly when `location` holds it. -/
def INT_MAX : Nat := 2147483647

/-- The global variables used by `analyze.c`. The counter `location` is kept as
a natural number, which is what the `int` holds while it is at most
`INT_MAX`. -/
structure State where
  location : Nat
  symtab : List Entry
  listing : List Output
  Error : Bool
  TraceAnalyze : Bool
  deriving DecidableEq, Repr

/-- The state at the start of an analysis: counter `location = 0`, empty symbol
table, nothing written, `Error = FALSE`. -/
def State.initial (TraceAnalyze : Bool) : State :=
  { location := 0, symtab := [], listing := [], Error := false,
    TraceAnalyze := TraceAnalyze }

/-! ## `analyze.c` -/

/-- A procedure passed to `traverse`: it receives a non-null node (fields, child
array, sibling) and the globals; it may update the fields of the node and the
globals. -/
abbrev Proc (σ : Type) := NodeData → List TreeNode → TreeNode → σ → Option (NodeData × σ)

mutual
/-- Procedure `traverse`: `preProc` on the node, then the children in slot
order, then `postProc` on the node, then the sibling. -/
def traverse {σ : Type} (preProc postProc : Proc σ) : TreeNode → σ → Option (TreeNode × σ)
  | .NULL, s => some (.NULL, s)
  | .node t child sibling, s =>
    match preProc t child sibling s with
    | none => none
    | some (t1, s1) =>
      match traverseChildren preProc postProc child s1 with
      | none => none
      | some (child1, s2) =>
        match postProc t1 child1 sibling s2 with
        | none => none
        | some (t2, s3) =>
          match traverse preProc postProc sibling s3 with
          | none => none
          | some (sibling1, s4) => some (.node t2 child1 sibling1, s4)
/-- The loop `for (i=0; i < MAXCHILDREN; i++) traverse(t->child[i],...)`. -/
def traverseChildren {σ : Type} (preProc postProc : Proc σ) :
    List TreeNode → σ → Option (List TreeNode × σ)
  | [], s => some ([], s)
  | c :: rest, s =>
    match traverse preProc postProc c s with
    | none => none
    | some (c1, s1) =>
      match traverseChildren preProc postProc rest s1 with
      | none => none
      | some (rest1, s2) => some (c1 :: rest1, s2)
end

/-- Procedure `nullProc`: does nothing. -/
def nullProc {σ : Type} : Proc σ :=
  fun t _ _ s => some (t, s)

/-- Procedure `symbolError`: one line on `listing`, and `Error = TRUE`. -/
def symbolError (t : NodeData) (message : String) (s : State) : State :=
  { s with listing := s.listing ++ [Output.symbolError t.lineno t.attr.name message],
           Error := true }

/-- Procedure `insertNode`. The increment `location++` of the declaration
branch is the successor of a natural number: it agrees with the C increment
when `location` is below `INT_MAX`. -/
def insertNode : Proc State :=
  fun t _ _ s =>
    match t.nodekind with
    | .StmtK =>
      match t.kind.stmt with
      | .AssignK | .ReadK =>
        if st_lookup t.attr.name s.symtab = -1 then
          some (t, symbolError t "not defined" s)
        else
          some (t, { s with symtab := st_insert t.attr.name t.lineno 0 ExpType.Void s.symtab })
      | _ => some (t, s)
    | .ExpK =>
      match t.kind.exp with
      | .IdK =>
        if st_lookup t.attr.name s.symtab = -1 then
          some (t, symbolError t "not defined" s)
        else
          some (t, { s with symtab := st_insert t.attr.name t.lineno 0 ExpType.Void s.symtab })
      | _ => some (t, s)
    | .DeclK =>
      if st_lookup t.attr.name s.symtab ≠ -1 then
        some (t, symbolError t "redefined" s)
      else
        some (t, { s with symtab := st_insert t.attr.name t.lineno s.location t.type s.symtab,
                          location := s.location + 1 })

/-- Function `buildSymtab`. -/
def buildSymtab (syntaxTree : TreeNode) (s : State) : Option (TreeNode × State) :=
  match traverse insertNode nullProc syntaxTree s with
  | none => none
  | some (tree, s1) =>
    if s1.TraceAnalyze then
      some (tree, { s1 with listing := s1.listing ++
        [Output.text "\nSymbol table:\n\n", Output.symTab (printSymTab s1.symtab)] })
    else some (tree, s1)

/-- Procedure `typeError`: one line on `listing`, and `Error = TRUE`. -/
def typeError (t : NodeData) (message : String) (s : State) : State :=
  { s with listing := s.listing ++ [Output.typeError t.lineno message], Error := true }

/-- Procedure `checkNode`. -/
def checkNode : Proc State :=
  fun t child _ s =>
    match t.nodekind with
    | .ExpK =>
      match t.kind.exp with
      | .OpK =>
        match childAt child 0, childAt child 1 with
        | some c0, some c1 =>
          let s1 :=
            if c0.type ≠ c1.type then typeError t "Op applied to different data type" s
            else if c0.type ≠ ExpType.Integer ∧ c0.type ≠ ExpType.Char then
              typeError t "Op applied to invalid type" s
            else s
          if t.attr.op = TokenType.EQ ∨ t.attr.op = TokenType.LT then
            some ({ t with type := ExpType.Boolean }, s1)
          else
            some ({ t with type := c0.type }, s1)
        | _, _ => none
      | .IdK => some ({ t with type := st_findExpType t.attr.name s.symtab }, s)
      | _ => some (t, s)
    | .StmtK =>
      match t.kind.stmt with
      | .ReadK =>
        if st_findExpType t.attr.name s.symtab ≠ ExpType.Integer then
          some (t, typeError t "read of non-integer type" s)
        else some (t, s)
      | .IfK =>
        match childAt child 0 with
        | some c0 =>
          if c0.type ≠ ExpType.Boolean then some (t, typeError c0 "if test is not Boolean" s)
          else some (t, s)
        | none => none
      | .AssignK =>
        match childAt child 0 with
        | some c0 =>
          if c0.type ≠ st_findExpType t.attr.name s.symtab then
            some (t, typeError c0 "assignment of different type" s)
          else some (t, s)
        | none => none
      | .WriteK =>
        match childAt child 0 with
        | some c0 =>
          if c0.type ≠ ExpType.Integer ∧ c0.type ≠ ExpType.Char then
            some (t, typeError c0 "write of non-integer and non-char type" s)
          else some (t, s)
        | none => none
      | .RepeatK =>
        match childAt child 1 with
        | some c1 =>
          if c1.type ≠ ExpType.Boolean then
            some (t, typeError c1 "repeat test is not Boolean" s)
          else some (t, s)
        | none => none
    | _ => some (t, s)

/-- Procedure `typeCheck`. -/
def typeCheck (syntaxTree : TreeNode) (s : State) : Option (TreeNode × State) :=
  traverse nullProc checkNode syntaxTree s

/-! ## Listings of a tree, used to state the theorems -/

mutual
/-- The preorder listing of the nodes of a tree: the node, then the nodes of
its children in slot order, then the nodes of its sibling chain. -/
def preorder : TreeNode → List TreeNode
  | .NULL => []
  | .node t child sibling =>
    TreeNode.node t child sibling :: (preorderList child ++ preorder sibling)
/-- The preorder listings of the trees of a child array, one after the other. -/
def preorderList : List TreeNode → List TreeNode
  | [] => []
  | c :: rest => preorder c ++ preorderList rest
end

mutual
/-- The postorder listing of the nodes of a tree: the nodes of the children in
slot order, then the node, then the nodes of its sibling chain. -/
def postorder : TreeNode → List TreeNode
  | .NULL => []
  | .node t child sibling =>
    postorderList child ++ (TreeNode.node t child sibling :: postorder sibling)
/-- The postorder listings of the trees of a child array, one after the other. -/
def postorderList : List TreeNode → List TreeNode
  | [] => []
  | c :: rest => postorder c ++ postorderList rest
end

mutual
/-- The number of nodes of a tree. -/
def size : TreeNode → Nat
  | .NULL => 0
  | .node _ child sibling => 1 + sizeList child + size sibling
/-- The number of nodes of the trees of a child array. -/
def sizeList : List TreeNode → Nat
  | [] => 0
  | c :: rest => size c + sizeList rest
end

/-- The fields of the nodes of a tree, in preorder. -/
def nodes (t : TreeNode) : List NodeData :=
  (preorder t).filterMap TreeNode.deref

/-- One application of an action of `traverse` to a node. -/
inductive Visit where
  | pre (n : TreeNode)
  | post (n : TreeNode)

/-- The node of a pre-visit. -/
def Visit.pre? : Visit → Option TreeNode
  | .pre n => some n
  | .post _ => none

/-- The node of a post-visit. -/
def Visit.post? : Visit → Option TreeNode
  | .pre _ => none
  | .post n => some n

/-- An action on the globals that leaves the node as it is, as a procedure for
`traverse`. -/
def act {σ : Type} (f : TreeNode → σ → σ) : Proc σ :=
  fun t child sibling s => some (t, f (TreeNode.node t child sibling) s)

/-- The effect of one visit when `f` is the pre-visit action and `g` the
post-visit action. -/
def Visit.run {σ : Type} (f g : TreeNode → σ → σ) (s : σ) : Visit → σ
  | .pre n => f n s
  | .post n => g n s

/-- The pre-visit action that records its own call. -/
def logPre : Proc (List Visit) := act (fun n log => log ++ [Visit.pre n])

/-- The post-visit action that records its own call. -/
def logPost : Proc (List Visit) := act (fun n log => log ++ [Visit.post n])

/-- The calls that `traverse` makes on a tree, in order, as recorded by running
it with the two recording actions. -/
def visits (t : TreeNode) : List Visit :=
  match traverse logPre logPost t [] with
  | some (_, log) => log
  | none => []

mutual
/-- The sequence of visits of a tree, by recursion on the tree; the lemma
`visits_eq_events` shows it is what `traverse` does. -/
def events : TreeNode → List Visit
  | .NULL => []
  | .node t child sibling =>
    Visit.pre (TreeNode.node t child sibling) ::
      (eventsList child ++ Visit.post (TreeNode.node t child sibling) :: events sibling)
/-- The sequences of visits of the trees of a child array, one after the other. -/
def eventsList : List TreeNode → List Visit
  | [] => []
  | c :: rest => events c ++ eventsList rest
end

/-! ## Sample inputs

Nodes used as concrete inputs of the examples. The members of the unions `kind`
and `attr` that a node kind does not use are filled with a fixed value. -/

/-- A constant expression node with the type fixed by the parser. -/
def sampleConst (lineno val : Int) (type : ExpType) : NodeData :=
  ⟨lineno, NodeKind.ExpK, ⟨StmtKind.IfK, ExpKind.ConstK⟩, ⟨TokenType.EQ, val, ""⟩, type⟩

/-- An operator expression node, its type not yet set. -/
def sampleOp (lineno : Int) (op : TokenType) : NodeData :=
  ⟨lineno, NodeKind.ExpK, ⟨StmtKind.IfK, ExpKind.OpK⟩, ⟨op, 0, ""⟩, ExpType.Void⟩

/-- An identifier expression node, its type not yet set. -/
def sampleId (lineno : Int) (name : String) : NodeData :=
  ⟨lineno, NodeKind.ExpK, ⟨StmtKind.IfK, ExpKind.IdK⟩, ⟨TokenType.EQ, 0, name⟩, ExpType.Void⟩

/-- A statement node of the given kind; `name` is used by assignments and reads. -/
def sampleStmt (lineno : Int) (stmt : StmtKind) (name : String) : NodeData :=
  ⟨lineno, NodeKind.StmtK, ⟨stmt, ExpKind.OpK⟩, ⟨TokenType.EQ, 0, name⟩, ExpType.Void⟩

/-- A declaration node of a name with its declared type. -/
def sampleDecl (lineno : Int) (name : String) (type : ExpType) : NodeData :=
  ⟨lineno, NodeKind.DeclK, ⟨StmtKind.IfK, ExpKind.OpK⟩, ⟨TokenType.EQ, 0, name⟩, type⟩

/-- A node without children and without sibling. -/
def leaf (t : NodeData) : TreeNode := TreeNode.node t [] TreeNode.NULL

/-- The program `declare x: Integer; declare x: Integer; y := x + 1; write y;`
as a tree, one statement per line: the statements form a sibling chain, the
assignment has the sum as `child[0]`, the write has the identifier as
`child[0]`. -/
def scenario : TreeNode :=
  TreeNode.node (sampleDecl 1 "x" ExpType.Integer) [TreeNode.NULL, TreeNode.NULL, TreeNode.NULL]
    (TreeNode.node (sampleDecl 2 "x" ExpType.Integer)
      [TreeNode.NULL, TreeNode.NULL, TreeNode.NULL]
      (TreeNode.node (sampleStmt 3 StmtKind.AssignK "y")
        [TreeNode.node (sampleOp 3 TokenType.PLUS)
            [leaf (sampleId 3 "x"), leaf (sampleConst 3 1 ExpType.Integer), TreeNode.NULL]
            TreeNode.NULL,
          TreeNode.NULL, TreeNode.NULL]
        (TreeNode.node (sampleStmt 4 StmtKind.WriteK "")
          [leaf (sampleId 4 "y"), TreeNode.NULL, TreeNode.NULL]
          TreeNode.NULL)))

/-- The program `declare x: Integer; x := x + 1; write x;` as a tree, one
statement per line. -/
def cleanProgram : TreeNode :=
  TreeNode.node (sampleDecl 1 "x" ExpType.Integer) [TreeNode.NULL, TreeNode.NULL, TreeNode.NULL]
    (TreeNode.node (sampleStmt 2 StmtKind.AssignK "x")
      [TreeNode.node (sampleOp 2 TokenType.PLUS)
          [leaf (sampleId 2 "x"), leaf (sampleConst 2 1 ExpType.Integer), TreeNode.NULL]
          TreeNode.NULL,
        TreeNode.NULL, TreeNode.NULL]
      (TreeNode.node (sampleStmt 3 StmtKind.WriteK "")
        [leaf (sampleId 3 "x"), TreeNode.NULL, TreeNode.NULL]
        TreeNode.NULL))

/-- The program `declare x: Integer; declare x: Char; declare y: Char;` as a
tree, one declaration per line: the second declaration is a redeclaration. -/
def threeDecls : TreeNode :=
  TreeNode.node (sampleDecl 1 "x" ExpType.Integer) [TreeNode.NULL, TreeNode.NULL, TreeNode.NULL]
    (TreeNode.node (sampleDecl 2 "x" ExpType.Char) [TreeNode.NULL, TreeNode.NULL, TreeNode.NULL]
      (TreeNode.node (sampleDecl 3 "y" ExpType.Char)
        [TreeNode.NULL, TreeNode.NULL, TreeNode.NULL] TreeNode.NULL))

/-! ## Notions used to state the theorems on `buildSymtab` -/

/-- The globals after `insertNode` has run on a node with fields `t`
(`insertNode` looks at neither the children nor the sibling). -/
def insertStep (t : NodeData) (s : State) : State :=
  match insertNode t [] TreeNode.NULL s with
  | some (_, s1) => s1
  | none => s

/-- The successful declarations of a sequence of nodes, in order, in the words
of the specification: the declaration nodes whose name is not yet declared when
they are met, that is neither in `seen` nor the name of a declaration earlier
in the sequence. -/
def successfulFrom (seen : List String) : List NodeData → List NodeData
  | [] => []
  | d :: rest =>
    if d.nodekind = NodeKind.DeclK then
      if d.attr.name ∈ seen then successfulFrom seen rest
      else d :: successfulFrom (d.attr.name :: seen) rest
    else successfulFrom seen rest

/-- The successful declarations of a sequence of nodes visited from an empty
symbol table: the declarations whose name no earlier declaration has. -/
def successfulDecls (l : List NodeData) : List NodeData := successfulFrom [] l

/-- The error lines among the writes to `listing`. -/
def diagnostics (listing : List Output) : List Output :=
  listing.filter (fun o =>
    match o with
    | Output.symbolError _ _ _ => true
    | Output.typeError _ _ => true
    | _ => false)

/-- The node is a use of a name: an assignment or read statement, or an
identifier expression. -/
def isUse (d : NodeData) : Bool :=
  decide ((d.nodekind = NodeKind.StmtK ∧
      (d.kind.stmt = StmtKind.AssignK ∨ d.kind.stmt = StmtKind.ReadK))
    ∨ (d.nodekind = NodeKind.ExpK ∧ d.kind.exp = ExpKind.IdK))

/-- What the symbol table records of a declaration: name, declared type and
slot (the reference lines left out). -/
def Entry.key (e : Entry) : String × ExpType × Nat := (e.name, e.type, e.memloc)

/-- An action that looks only at the fields of the node, as an action on a
node pointer (nothing is done through `NULL`). -/
def onFields {σ : Type} (f : NodeData → σ → σ) : TreeNode → σ → σ
  | .NULL, s => s
  | .node t _ _, s => f t s

/-- What `buildSymtab` adds to `listing` after the traversal when
`TraceAnalyze` is set. -/
def traceSymtab (s : State) : State :=
  if s.TraceAnalyze then
    { s with listing := s.listing ++
        [Output.text "\nSymbol table:\n\n", Output.symTab (printSymTab s.symtab)] }
  else s

/-! ## Well-formed trees -/

/-- The children that `checkNode` reads at a node are there: `child[0]` and
`child[1]` of an operator, `child[0]` of an `if`, an assignment and a write,
`child[1]` of a `repeat`. -/
def childrenPresent (t : NodeData) (child : List TreeNode) : Bool :=
  match t.nodekind with
  | .ExpK =>
    match t.kind.exp with
    | .OpK => (childAt child 0).isSome && (childAt child 1).isSome
    | _ => true
  | .StmtK =>
    match t.kind.stmt with
    | .IfK | .AssignK | .WriteK => (childAt child 0).isSome
    | .RepeatK => (childAt child 1).isSome
    | .ReadK => true
  | .DeclK => true

mutual
/-- Every node of the tree has the children that `checkNode` reads. -/
def wellFormed : TreeNode → Bool
  | .NULL => true
  | .node t child sibling =>
    childrenPresent t child && wellFormedList child && wellFormed sibling
/-- Every node of the trees of a child array has the children that `checkNode`
reads. -/
def wellFormedList : List TreeNode → Bool
  | [] => true
  | c :: rest => wellFormed c && wellFormedList rest
end

mutual
/-- The fields of the nodes of the trees of a child array, in preorder. -/
def nodesList : List TreeNode → List NodeData
  | [] => []
  | c :: rest => nodesTree c ++ nodesList rest
/-- The fields of the nodes of a tree in preorder, by recursion on the tree;
the lemma `nodes_eq_nodesTree` shows it is `nodes`. -/
def nodesTree : TreeNode → List NodeData
  | .NULL => []
  | .node t child sibling => t :: (nodesList child ++ nodesTree sibling)
end

/-! ## Positions in a tree -/

/-- One pointer followed from a node: the child in slot `i`, or the sibling. -/
inductive Link where
  | child (i : Nat)
  | sibling
  deriving DecidableEq, Repr

/-- The pointer reached from `t` by following the links of a path; `NULL` when
the path leads through `NULL` or through a slot that does not exist. -/
def follow : TreeNode → List Link → TreeNode
  | t, [] => t
  | .NULL, _ :: _ => .NULL
  | .node _ child _, Link.child i :: p => follow (child.getD i .NULL) p
  | .node _ _ sibling, Link.sibling :: p => follow sibling p

mutual
/-- The paths to the nodes of a tree, in preorder. -/
def positions : TreeNode → List (List Link)
  | .NULL => []
  | .node _ child sibling =>
    [] :: (positionsList child 0 ++ (positions sibling).map (fun p => Link.sibling :: p))
/-- The paths to the nodes below the slots `i, i+1, ...` holding the given
trees, in preorder. -/
def positionsList : List TreeNode → Nat → List (List Link)
  | [], _ => []
  | c :: rest, i =>
    (positions c).map (fun p => Link.child i :: p) ++ positionsList rest (i + 1)
end

mutual
/-- The paths to the nodes of a tree, in postorder. -/
def postPositions : TreeNode → List (List Link)
  | .NULL => []
  | .node _ child sibling =>
    postPositionsList child 0 ++
      ([] :: (postPositions sibling).map (fun p => Link.sibling :: p))
/-- The paths to the nodes below the slots `i, i+1, ...` holding the given
trees, in postorder. -/
def postPositionsList : List TreeNode → Nat → List (List Link)
  | [], _ => []
  | c :: rest, i =>
    (postPositions c).map (fun p => Link.child i :: p) ++ postPositionsList rest (i + 1)
end

/-- The tree `t` with the pointer at the end of a path replaced by `x`; a path
that leaves the tree changes nothing. -/
def replaceAt : TreeNode → List Link → TreeNode → TreeNode
  | _, [], x => x
  | .NULL, _ :: _, _ => .NULL
  | .node t child sibling, Link.child i :: p, x =>
    .node t (child.set i (replaceAt (child.getD i .NULL) p x)) sibling
  | .node t child sibling, Link.sibling :: p, x =>
    .node t child (replaceAt sibling p x)

/-- One call made by `traverse`: which of the two procedures, and the path from
the root to the node it is applied to. -/
inductive Call where
  | pre (pos : List Link)
  | post (pos : List Link)
  deriving DecidableEq, Repr

/-- The path of a call. -/
def Call.pos : Call → List Link
  | .pre pos => pos
  | .post pos => pos

/-- The same call seen from a node above: the path is extended at the front. -/
def Call.below (front : List Link) : Call → Call
  | .pre pos => .pre (front ++ pos)
  | .post pos => .post (front ++ pos)

/-- The path of a call of the first procedure. -/
def Call.pre? : Call → Option (List Link)
  | .pre pos => some pos
  | .post _ => none

/-- The path of a call of the second procedure. -/
def Call.post? : Call → Option (List Link)
  | .pre _ => none
  | .post pos => some pos

/-- The visit a call stands for in the tree `t`. -/
def Call.visit (t : TreeNode) : Call → Visit
  | .pre pos => Visit.pre (follow t pos)
  | .post pos => Visit.post (follow t pos)

mutual
/-- The calls of a traversal of a tree, in order: the first procedure at the
node, the calls for the children in slot order, the second procedure at the
node, the calls for the sibling. -/
def schedule : TreeNode → List Call
  | .NULL => []
  | .node _ child sibling =>
    Call.pre [] ::
      (scheduleList child 0 ++
        Call.post [] :: (schedule sibling).map (Call.below [Link.sibling]))
/-- The calls for the trees in the slots `i, i+1, ...`, in order. -/
def scheduleList : List TreeNode → Nat → List Call
  | [], _ => []
  | c :: rest, i =>
    (schedule c).map (Call.below [Link.child i]) ++ scheduleList rest (i + 1)
end

/-- One call carried out on a tree and globals: the procedure is applied to the
node at the path, as it is then, and the fields it returns are stored there. -/
def callAt {σ : Type} (preProc postProc : Proc σ) (c : Call) (st : TreeNode × σ) :
    Option (TreeNode × σ) :=
  match follow st.1 c.pos with
  | .NULL => none
  | .node t child sibling =>
    match (match c with
           | .pre _ => preProc t child sibling st.2
           | .post _ => postProc t child sibling st.2) with
    | none => none
    | some (t1, s1) => some (replaceAt st.1 c.pos (.node t1 child sibling), s1)

/-- A sequence of calls carried out one after the other. -/
def runCalls {σ : Type} (preProc postProc : Proc σ) :
    List Call → TreeNode × σ → Option (TreeNode × σ)
  | [], st => some st
  | c :: rest, st =>
    match callAt preProc postProc c st with
    | none => none
    | some st1 => runCalls preProc postProc rest st1

/-! ## Trees after `typeCheck` -/

/-- The fields `d2` are the fields `d` except, when `d` is an operator or an
identifier expression node, possibly for the type. -/
def onlyTypeChanged (d d2 : NodeData) : Bool :=
  decide (d2.lineno = d.lineno ∧ d2.nodekind = d.nodekind ∧ d2.kind = d.kind
    ∧ d2.attr = d.attr
    ∧ (d2.type = d.type
        ∨ (d.nodekind = NodeKind.ExpK
            ∧ (d.kind.exp = ExpKind.OpK ∨ d.kind.exp = ExpKind.IdK))))

mutual
/-- The two trees have the same nodes with the same children and sibling links,
and node by node the same fields except for the type of operator and identifier
expression nodes. -/
def sameButTypes : TreeNode → TreeNode → Bool
  | .NULL, .NULL => true
  | .NULL, .node _ _ _ => false
  | .node _ _ _, .NULL => false
  | .node d child sibling, .node d2 child2 sibling2 =>
    onlyTypeChanged d d2 && sameButTypesList child child2 && sameButTypes sibling sibling2
/-- The two child arrays have the same length and slot by slot trees that are
the same but for those types. -/
def sameButTypesList : List TreeNode → List TreeNode → Bool
  | [], [] => true
  | [], _ :: _ => false
  | _ :: _, [] => false
  | c :: rest, c2 :: rest2 => sameButTypes c c2 && sameButTypesList rest rest2
end

/-- The operands of the node are in order, when it is an operator expression
node: `child[0]` and `child[1]` are nodes of one type, `Integer` or `Char`,
and the type of the node is `Boolean` or that type. Nothing is asked of other
nodes. -/
def operandsAgree : TreeNode → Bool
  | .NULL => true
  | .node d child _ =>
    if d.nodekind = NodeKind.ExpK ∧ d.kind.exp = ExpKind.OpK then
      match childAt child 0, childAt child 1 with
      | some c0, some c1 =>
        decide (c0.type = c1.type ∧ (c0.type = ExpType.Integer ∨ c0.type = ExpType.Char)
          ∧ (d.type = ExpType.Boolean ∨ d.type = c0.type))
      | _, _ => false
    else true

/-! ## Theorems -/

/-! ### The symbol table -/

theorem st_lookup_eq_neg_one_iff (x : String) (tab : List Entry) :
    st_lookup x tab = -1 ↔ x ∉ tab.map Entry.name := by
  induction tab with
  | nil => simp [st_lookup]
  | cons e es ih =>
    by_cases h : e.name = x
    · simp only [st_lookup, h, if_true, List.map_cons, List.mem_cons, true_or, not_true,
        iff_false]
      omega
    · have h2 : ¬ x = e.name := fun h3 => h h3.symm
      simp [st_lookup, h, h2, ih]

theorem st_insert_key_present (x : String) (l : Int) (loc : Nat) (ty : ExpType)
    (tab : List Entry) (hx : x ∈ tab.map Entry.name) :
    (st_insert x l loc ty tab).map Entry.key = tab.map Entry.key := by
  induction tab with
  | nil => simp at hx
  | cons e es ih =>
    by_cases h : e.name = x
    · simp [st_insert, h, Entry.key]
    · have h2 : ¬ x = e.name := fun h3 => h h3.symm
      simp only [List.map_cons, List.mem_cons, h2, false_or] at hx
      simp [st_insert, h, ih hx]

theorem st_insert_key_absent (x : String) (l : Int) (loc : Nat) (ty : ExpType)
    (tab : List Entry) (hx : x ∉ tab.map Entry.name) :
    (st_insert x l loc ty tab).map Entry.key = tab.map Entry.key ++ [(x, ty, loc)] := by
  induction tab with
  | nil => simp [st_insert, Entry.key]
  | cons e es ih =>
    simp only [List.map_cons, List.mem_cons, not_or] at hx
    have h : ¬ e.name = x := fun h3 => hx.1 h3.symm
    simp [st_insert, h, ih hx.2]

theorem map_name_eq_map_key (tab : List Entry) :
    tab.map Entry.name = (tab.map Entry.key).map Prod.fst := by
  simp [Entry.key, Function.comp_def]

/-! ### The traversal -/

mutual
theorem traverse_act {σ : Type} (f g : TreeNode → σ → σ) : ∀ (t : TreeNode) (s : σ),
    traverse (act f) (act g) t s = some (t, (events t).foldl (Visit.run f g) s)
  | .NULL, s => by simp [traverse, events]
  | .node t child sibling, s => by
    simp only [traverse, events, act]
    rw [traverseChildren_act f g child]
    simp only [List.foldl_cons, List.foldl_append, Visit.run]
    rw [traverse_act f g sibling]
theorem traverseChildren_act {σ : Type} (f g : TreeNode → σ → σ) :
    ∀ (child : List TreeNode) (s : σ),
    traverseChildren (act f) (act g) child s
      = some (child, (eventsList child).foldl (Visit.run f g) s)
  | [], s => by simp [traverseChildren, eventsList]
  | c :: rest, s => by
    simp only [traverseChildren, eventsList]
    rw [traverse_act f g c]
    simp only
    rw [traverseChildren_act f g rest]
    simp
end

theorem foldl_log (l : List Visit) : ∀ (acc : List Visit),
    l.foldl (Visit.run (fun n log => log ++ [Visit.pre n])
      (fun n log => log ++ [Visit.post n])) acc = acc ++ l := by
  induction l with
  | nil => intro acc; simp
  | cons v l ih =>
    intro acc
    cases v <;> simp [Visit.run, ih]

theorem visits_eq_events (t : TreeNode) : visits t = events t := by
  unfold visits logPre logPost
  rw [traverse_act, foldl_log]
  simp

theorem eventsList_eq_flatMap : ∀ (child : List TreeNode),
    eventsList child = child.flatMap events
  | [] => by simp [eventsList]
  | c :: rest => by simp [eventsList, eventsList_eq_flatMap rest]

mutual
theorem events_pre : ∀ (t : TreeNode), (events t).filterMap Visit.pre? = preorder t
  | .NULL => by simp [events, preorder]
  | .node t child sibling => by
    simp [events, preorder, Visit.pre?, List.filterMap_append, events_pre sibling,
      eventsList_pre child]
theorem eventsList_pre : ∀ (child : List TreeNode),
    (eventsList child).filterMap Visit.pre? = preorderList child
  | [] => by simp [eventsList, preorderList]
  | c :: rest => by
    simp [eventsList, preorderList, List.filterMap_append, events_pre c, eventsList_pre rest]
end

mutual
theorem events_post : ∀ (t : TreeNode), (events t).filterMap Visit.post? = postorder t
  | .NULL => by simp [events, postorder]
  | .node t child sibling => by
    simp [events, postorder, Visit.post?, List.filterMap_append, events_post sibling,
      eventsList_post child]
theorem eventsList_post : ∀ (child : List TreeNode),
    (eventsList child).filterMap Visit.post? = postorderList child
  | [] => by simp [eventsList, postorderList]
  | c :: rest => by
    simp [eventsList, postorderList, List.filterMap_append, events_post c,
      eventsList_post rest]
end

mutual
theorem length_preorder : ∀ (t : TreeNode), (preorder t).length = size t
  | .NULL => by simp [preorder, size]
  | .node t child sibling => by
    simp [preorder, size, length_preorder sibling, length_preorderList child]; omega
theorem length_preorderList : ∀ (child : List TreeNode),
    (preorderList child).length = sizeList child
  | [] => by simp [preorderList, sizeList]
  | c :: rest => by
    simp [preorderList, sizeList, length_preorder c, length_preorderList rest]
end

mutual
theorem length_postorder : ∀ (t : TreeNode), (postorder t).length = size t
  | .NULL => by simp [postorder, size]
  | .node t child sibling => by
    simp [postorder, size, length_postorder sibling, length_postorderList child]; omega
theorem length_postorderList : ∀ (child : List TreeNode),
    (postorderList child).length = sizeList child
  | [] => by simp [postorderList, sizeList]
  | c :: rest => by
    simp [postorderList, sizeList, length_postorder c, length_postorderList rest]
end

/-! ### Single nodes: `insertNode` -/

/-- C2 (redefinition). For a declaration node whose name is already in the
symbol table, `insertNode` writes exactly one line, the "redefined" error with
the line and the name of that node, sets `Error`, and leaves the node, the symbol
table and the counter `location` as they were, so that the name keeps its slot
and its type. In particular two declarations `x: Integer` in a row, analysed by
`buildSymtab` from the initial state, give exactly one error line, the
redefinition at the second declaration, and `x` has slot `0` and type
`Integer`, with the line of the first declaration as only reference. -/
theorem insertNode_redefined (t : NodeData) (child : List TreeNode) (sibling : TreeNode)
    (s : State) (hk : t.nodekind = NodeKind.DeclK)
    (hp : t.attr.name ∈ s.symtab.map Entry.name) :
    (∃ s1, insertNode t child sibling s = some (t, s1)
      ∧ s1.listing = s.listing ++ [Output.symbolError t.lineno t.attr.name "redefined"]
      ∧ s1.Error = true
      ∧ s1.symtab = s.symtab ∧ s1.location = s.location
      ∧ s1.TraceAnalyze = s.TraceAnalyze
      ∧ st_lookup t.attr.name s1.symtab = st_lookup t.attr.name s.symtab
      ∧ st_findExpType t.attr.name s1.symtab = st_findExpType t.attr.name s.symtab)
    ∧ (∀ (l1 l2 : Int) (k1 k2 : Kind) (o1 o2 : TokenType) (v1 v2 : Int) (tr : Bool),
        ∃ s2, buildSymtab
            (TreeNode.node ⟨l1, NodeKind.DeclK, k1, ⟨o1, v1, "x"⟩, ExpType.Integer⟩ []
              (TreeNode.node ⟨l2, NodeKind.DeclK, k2, ⟨o2, v2, "x"⟩, ExpType.Integer⟩ []
                TreeNode.NULL))
            (State.initial tr)
          = some (TreeNode.node ⟨l1, NodeKind.DeclK, k1, ⟨o1, v1, "x"⟩, ExpType.Integer⟩ []
              (TreeNode.node ⟨l2, NodeKind.DeclK, k2, ⟨o2, v2, "x"⟩, ExpType.Integer⟩ []
                TreeNode.NULL), s2)
          ∧ diagnostics s2.listing = [Output.symbolError l2 "x" "redefined"]
          ∧ st_lookup "x" s2.symtab = 0
          ∧ st_findExpType "x" s2.symtab = ExpType.Integer
          ∧ s2.symtab = [⟨"x", ExpType.Integer, 0, [l1]⟩]
          ∧ s2.location = 1) := by
  constructor
  · refine ⟨symbolError t "redefined" s, ?_, rfl, rfl, rfl, rfl, rfl, rfl, rfl⟩
    have hl : st_lookup t.attr.name s.symtab ≠ -1 := fun h =>
      (st_lookup_eq_neg_one_iff _ _).mp h hp
    simp [insertNode, hk, hl]
  · intro l1 l2 k1 k2 o1 o2 v1 v2 tr
    cases tr <;>
      simp [buildSymtab, traverse, traverseChildren, insertNode, nullProc, State.initial,
        st_lookup, st_insert, st_findExpType, symbolError, diagnostics]

/-- Witness for C2: a declaration of `x` at line 2 when the table already holds
`x` with slot 0. -/
theorem insertNode_redefined_witness :
    ∃ s1, insertNode (sampleDecl 2 "x" ExpType.Char) [] TreeNode.NULL
          ⟨1, [⟨"x", ExpType.Integer, 0, [1]⟩], [], false, false⟩
        = some (sampleDecl 2 "x" ExpType.Char, s1)
      ∧ s1.listing = [Output.symbolError 2 "x" "redefined"]
      ∧ s1.symtab = [⟨"x", ExpType.Integer, 0, [1]⟩] ∧ s1.location = 1 := by
  obtain ⟨s1, h1, h2, _, h4, h5, _⟩ :=
    (insertNode_redefined (sampleDecl 2 "x" ExpType.Char) [] TreeNode.NULL
      ⟨1, [⟨"x", ExpType.Integer, 0, [1]⟩], [], false, false⟩ rfl (by decide)).1
  exact ⟨s1, h1, by simpa [sampleDecl] using h2, h4, h5⟩

/-- C3 (undefined use). For an assignment or read statement node, or an
identifier expression node, whose name is not in the symbol table, `insertNode`
writes exactly one line, the "not defined" error with the line and the name of
that node, sets `Error`, and inserts nothing: the node, the symbol table and the
counter `location` are as they were and the name is still not found. -/
theorem insertNode_undefined (t : NodeData) (child : List TreeNode) (sibling : TreeNode)
    (s : State)
    (hk : (t.nodekind = NodeKind.StmtK ∧
            (t.kind.stmt = StmtKind.AssignK ∨ t.kind.stmt = StmtKind.ReadK))
          ∨ (t.nodekind = NodeKind.ExpK ∧ t.kind.exp = ExpKind.IdK))
    (ha : t.attr.name ∉ s.symtab.map Entry.name) :
    ∃ s1, insertNode t child sibling s = some (t, s1)
      ∧ s1.listing = s.listing ++ [Output.symbolError t.lineno t.attr.name "not defined"]
      ∧ s1.Error = true
      ∧ s1.symtab = s.symtab ∧ s1.location = s.location
      ∧ s1.TraceAnalyze = s.TraceAnalyze
      ∧ t.attr.name ∉ s1.symtab.map Entry.name
      ∧ st_lookup t.attr.name s1.symtab = -1 := by
  have hl : st_lookup t.attr.name s.symtab = -1 := (st_lookup_eq_neg_one_iff _ _).mpr ha
  refine ⟨symbolError t "not defined" s, ?_, rfl, rfl, rfl, rfl, rfl, ha, hl⟩
  rcases hk with ⟨h1, h2 | h2⟩ | ⟨h1, h2⟩ <;> simp [insertNode, h1, h2, hl]

/-- Witness for C3: the assignment `y := ...` at line 3 on the empty table. -/
theorem insertNode_undefined_witness :
    ∃ s1, insertNode (sampleStmt 3 StmtKind.AssignK "y") [] TreeNode.NULL
          (State.initial false)
        = some (sampleStmt 3 StmtKind.AssignK "y", s1)
      ∧ s1.listing = [Output.symbolError 3 "y" "not defined"]
      ∧ s1.symtab = [] ∧ st_lookup "y" s1.symtab = -1 := by
  obtain ⟨s1, h1, h2, _, h4, _, _, _, h7⟩ :=
    insertNode_undefined (sampleStmt 3 StmtKind.AssignK "y") [] TreeNode.NULL
      (State.initial false) (Or.inl ⟨rfl, Or.inl rfl⟩) (by simp [State.initial])
  exact ⟨s1, h1, by simpa [State.initial, sampleStmt] using h2, h4, h7⟩

/-! ### Single nodes: `checkNode` -/

theorem checkNode_op (t : NodeData) (child : List TreeNode) (sibling : TreeNode)
    (s : State) (c0 c1 : NodeData)
    (hk : t.nodekind = NodeKind.ExpK) (he : t.kind.exp = ExpKind.OpK)
    (h0 : childAt child 0 = some c0) (h1 : childAt child 1 = some c1) :
    checkNode t child sibling s =
      some ({ t with type := if t.attr.op = TokenType.EQ ∨ t.attr.op = TokenType.LT
                             then ExpType.Boolean else c0.type },
            if c0.type ≠ c1.type then typeError t "Op applied to different data type" s
            else if c0.type ≠ ExpType.Integer ∧ c0.type ≠ ExpType.Char then
              typeError t "Op applied to invalid type" s
            else s) := by
  by_cases hop : t.attr.op = TokenType.EQ ∨ t.attr.op = TokenType.LT
  · simp only [checkNode, hk, he, h0, h1, if_pos hop]
  · simp only [checkNode, hk, he, h0, h1, if_neg hop]

/-- C4 (operator result type). For an operator expression node whose operands
`child[0]` and `child[1]` are nodes, `checkNode` returns, and the type of the
node afterwards is `Boolean` when the operator is `EQ` or `LT` and the type of
`child[0]` otherwise, whatever the operand types are (so also when an error is
reported); no other field of the node changes. Hence `Integer + Integer` is
`Integer`, `Char + Char` is `Char` and `Integer = Integer` is `Boolean`. -/
theorem checkNode_op_type (t : NodeData) (child : List TreeNode) (sibling : TreeNode)
    (s : State) (c0 c1 : NodeData)
    (hk : t.nodekind = NodeKind.ExpK) (he : t.kind.exp = ExpKind.OpK)
    (h0 : childAt child 0 = some c0) (h1 : childAt child 1 = some c1) :
    ∃ t1 s1, checkNode t child sibling s = some (t1, s1)
      ∧ t1.lineno = t.lineno ∧ t1.nodekind = t.nodekind ∧ t1.kind = t.kind
      ∧ t1.attr = t.attr
      ∧ ((t.attr.op = TokenType.EQ ∨ t.attr.op = TokenType.LT) → t1.type = ExpType.Boolean)
      ∧ (t.attr.op ≠ TokenType.EQ → t.attr.op ≠ TokenType.LT → t1.type = c0.type) := by
  refine ⟨_, _, checkNode_op t child sibling s c0 c1 hk he h0 h1, rfl, rfl, rfl, rfl, ?_, ?_⟩
  · intro hop
    simp [hop]
  · intro n1 n2
    simp [n1, n2]

/-- Witness for C4: `Integer + Integer`, `Char + Char` and `Integer = Integer`
with operands that are constants. -/
theorem checkNode_op_type_witness :
    (∃ t1 s1, checkNode (sampleOp 1 TokenType.PLUS)
          [leaf (sampleConst 1 1 ExpType.Integer), leaf (sampleConst 1 2 ExpType.Integer)]
          TreeNode.NULL (State.initial false) = some (t1, s1)
        ∧ t1.type = ExpType.Integer)
    ∧ (∃ t1 s1, checkNode (sampleOp 1 TokenType.PLUS)
          [leaf (sampleConst 1 97 ExpType.Char), leaf (sampleConst 1 98 ExpType.Char)]
          TreeNode.NULL (State.initial false) = some (t1, s1)
        ∧ t1.type = ExpType.Char)
    ∧ (∃ t1 s1, checkNode (sampleOp 1 TokenType.EQ)
          [leaf (sampleConst 1 1 ExpType.Integer), leaf (sampleConst 1 2 ExpType.Integer)]
          TreeNode.NULL (State.initial false) = some (t1, s1)
        ∧ t1.type = ExpType.Boolean) := by
  refine ⟨?_, ?_, ?_⟩
  · obtain ⟨t1, s1, h, _, _, _, _, _, h3⟩ := checkNode_op_type (sampleOp 1 TokenType.PLUS)
      [leaf (sampleConst 1 1 ExpType.Integer), leaf (sampleConst 1 2 ExpType.Integer)]
      TreeNode.NULL (State.initial false) _ _ rfl rfl rfl rfl
    exact ⟨t1, s1, h, h3 (by decide) (by decide)⟩
  · obtain ⟨t1, s1, h, _, _, _, _, _, h3⟩ := checkNode_op_type (sampleOp 1 TokenType.PLUS)
      [leaf (sampleConst 1 97 ExpType.Char), leaf (sampleConst 1 98 ExpType.Char)]
      TreeNode.NULL (State.initial false) _ _ rfl rfl rfl rfl
    exact ⟨t1, s1, h, h3 (by decide) (by decide)⟩
  · obtain ⟨t1, s1, h, _, _, _, _, h2, _⟩ := checkNode_op_type (sampleOp 1 TokenType.EQ)
      [leaf (sampleConst 1 1 ExpType.Integer), leaf (sampleConst 1 2 ExpType.Integer)]
      TreeNode.NULL (State.initial false) _ _ rfl rfl rfl rfl
    exact ⟨t1, s1, h, h2 (Or.inl rfl)⟩

/-- C5 (operator operand errors). For an operator expression node whose
operands `child[0]` and `child[1]` are nodes of types `L` and `R`, `checkNode`
returns and writes to `listing`: exactly one line, the "Op applied to different
data type" error, when `L` differs from `R`; exactly one line, the "Op applied to
invalid type" error, when `L = R` and `L` is neither `Integer` nor `Char`; and
nothing (the globals are unchanged) when `L = R` and `L` is `Integer` or `Char`.
This holds for every operator tag, `EQ` and `LT` included; in particular
`Integer + Boolean` is a mismatch and `Boolean + Boolean` an invalid type. -/
theorem checkNode_op_errors (t : NodeData) (child : List TreeNode) (sibling : TreeNode)
    (s : State) (c0 c1 : NodeData)
    (hk : t.nodekind = NodeKind.ExpK) (he : t.kind.exp = ExpKind.OpK)
    (h0 : childAt child 0 = some c0) (h1 : childAt child 1 = some c1) :
    ∃ t1 s1, checkNode t child sibling s = some (t1, s1)
      ∧ s1.symtab = s.symtab ∧ s1.location = s.location
      ∧ (c0.type ≠ c1.type →
          s1.listing = s.listing ++
            [Output.typeError t.lineno "Op applied to different data type"]
          ∧ s1.Error = true)
      ∧ (c0.type = c1.type → c0.type ≠ ExpType.Integer → c0.type ≠ ExpType.Char →
          s1.listing = s.listing ++ [Output.typeError t.lineno "Op applied to invalid type"]
          ∧ s1.Error = true)
      ∧ (c0.type = c1.type → (c0.type = ExpType.Integer ∨ c0.type = ExpType.Char) →
          s1 = s) := by
  refine ⟨_, _, checkNode_op t child sibling s c0 c1 hk he h0 h1, ?_, ?_, ?_, ?_, ?_⟩
  · split_ifs <;> rfl
  · split_ifs <;> rfl
  · intro hne
    simp [hne, typeError]
  · intro heq hi hc
    rw [if_neg (not_not.mpr heq), if_pos ⟨hi, hc⟩]
    exact ⟨rfl, rfl⟩
  · intro heq hv
    rw [if_neg (not_not.mpr heq), if_neg (by rcases hv with hv | hv <;> simp [hv])]

/-- Witness for C5: `Integer + Boolean` at line 4 is a mismatch, `Boolean <
Boolean` at line 5 an invalid type, and `Char + Char` writes nothing. -/
theorem checkNode_op_errors_witness :
    (∃ t1 s1, checkNode (sampleOp 4 TokenType.PLUS)
          [leaf (sampleConst 4 1 ExpType.Integer), leaf (sampleConst 4 0 ExpType.Boolean)]
          TreeNode.NULL (State.initial false) = some (t1, s1)
        ∧ s1.listing = [Output.typeError 4 "Op applied to different data type"])
    ∧ (∃ t1 s1, checkNode (sampleOp 5 TokenType.LT)
          [leaf (sampleConst 5 1 ExpType.Boolean), leaf (sampleConst 5 0 ExpType.Boolean)]
          TreeNode.NULL (State.initial false) = some (t1, s1)
        ∧ s1.listing = [Output.typeError 5 "Op applied to invalid type"])
    ∧ (∃ t1 s1, checkNode (sampleOp 6 TokenType.PLUS)
          [leaf (sampleConst 6 97 ExpType.Char), leaf (sampleConst 6 98 ExpType.Char)]
          TreeNode.NULL (State.initial false) = some (t1, s1)
        ∧ s1 = State.initial false) := by
  refine ⟨?_, ?_, ?_⟩
  · obtain ⟨t1, s1, h, _, _, h3, _, _⟩ := checkNode_op_errors (sampleOp 4 TokenType.PLUS)
      [leaf (sampleConst 4 1 ExpType.Integer), leaf (sampleConst 4 0 ExpType.Boolean)]
      TreeNode.NULL (State.initial false) _ _ rfl rfl rfl rfl
    exact ⟨t1, s1, h, (h3 (by decide)).1⟩
  · obtain ⟨t1, s1, h, _, _, _, h4, _⟩ := checkNode_op_errors (sampleOp 5 TokenType.LT)
      [leaf (sampleConst 5 1 ExpType.Boolean), leaf (sampleConst 5 0 ExpType.Boolean)]
      TreeNode.NULL (State.initial false) _ _ rfl rfl rfl rfl
    exact ⟨t1, s1, h, (h4 rfl (by decide) (by decide)).1⟩
  · obtain ⟨t1, s1, h, _, _, _, _, h5⟩ := checkNode_op_errors (sampleOp 6 TokenType.PLUS)
      [leaf (sampleConst 6 97 ExpType.Char), leaf (sampleConst 6 98 ExpType.Char)]
      TreeNode.NULL (State.initial false) _ _ rfl rfl rfl rfl
    exact ⟨t1, s1, h, h5 rfl (Or.inr rfl)⟩

/-- C6 (assignment gating). For an assignment statement node with name `n`
whose expression `child[0]` is a node `e`, `checkNode` returns with the node
unchanged and writes exactly one line, the "assignment of different type" error
(at the line of `e`), when the type of `e` differs from the type the symbol
table gives for `n`, and nothing (the globals are unchanged) when the two types
are equal. -/
theorem checkNode_assign (t : NodeData) (child : List TreeNode) (sibling : TreeNode)
    (s : State) (e : NodeData)
    (hk : t.nodekind = NodeKind.StmtK) (hs : t.kind.stmt = StmtKind.AssignK)
    (h0 : childAt child 0 = some e) :
    ∃ s1, checkNode t child sibling s = some (t, s1)
      ∧ (e.type ≠ st_findExpType t.attr.name s.symtab →
          s1.listing = s.listing ++ [Output.typeError e.lineno "assignment of different type"]
          ∧ s1.Error = true ∧ s1.symtab = s.symtab ∧ s1.location = s.location)
      ∧ (e.type = st_findExpType t.attr.name s.symtab → s1 = s) := by
  by_cases h : e.type = st_findExpType t.attr.name s.symtab
  · exact ⟨s, by simp [checkNode, hk, hs, h0, h], fun n => absurd h n, fun _ => rfl⟩
  · exact ⟨typeError e "assignment of different type" s, by simp [checkNode, hk, hs, h0, h],
      fun _ => ⟨rfl, rfl, rfl, rfl⟩, fun n => absurd n h⟩

/-- Witness for C6: a `Boolean` expression at line 7 assigned to `x`, declared
`Integer`, is reported. -/
theorem checkNode_assign_witness :
    ∃ s1, checkNode (sampleStmt 6 StmtKind.AssignK "x")
          [leaf (sampleConst 7 1 ExpType.Boolean)] TreeNode.NULL
          ⟨1, [⟨"x", ExpType.Integer, 0, [1]⟩], [], false, false⟩
        = some (sampleStmt 6 StmtKind.AssignK "x", s1)
      ∧ s1.listing = [Output.typeError 7 "assignment of different type"] := by
  obtain ⟨s1, h, h2, _⟩ := checkNode_assign (sampleStmt 6 StmtKind.AssignK "x")
    [leaf (sampleConst 7 1 ExpType.Boolean)] TreeNode.NULL
    ⟨1, [⟨"x", ExpType.Integer, 0, [1]⟩], [], false, false⟩ _ rfl rfl rfl
  exact ⟨s1, h, (h2 (by decide)).1⟩

/-- C7 (condition gating). For an `if` statement node whose first child
`child[0]` is a node `c`, and for a `repeat` statement node whose second child
`child[1]` is a node `c`, `checkNode` returns with the node unchanged and writes
exactly one line, "if test is not Boolean" respectively "repeat test is not
Boolean" (at the line of `c`), when the type of `c` is not `Boolean`, and
nothing at all (the globals are unchanged) when it is `Boolean`. -/
theorem checkNode_condition (t : NodeData) (child : List TreeNode) (sibling : TreeNode)
    (s : State) (c : NodeData) (hk : t.nodekind = NodeKind.StmtK) :
    (t.kind.stmt = StmtKind.IfK → childAt child 0 = some c →
      ∃ s1, checkNode t child sibling s = some (t, s1)
        ∧ (c.type ≠ ExpType.Boolean →
            s1.listing = s.listing ++ [Output.typeError c.lineno "if test is not Boolean"]
            ∧ s1.Error = true ∧ s1.symtab = s.symtab ∧ s1.location = s.location)
        ∧ (c.type = ExpType.Boolean → s1 = s))
    ∧ (t.kind.stmt = StmtKind.RepeatK → childAt child 1 = some c →
      ∃ s1, checkNode t child sibling s = some (t, s1)
        ∧ (c.type ≠ ExpType.Boolean →
            s1.listing = s.listing ++ [Output.typeError c.lineno "repeat test is not Boolean"]
            ∧ s1.Error = true ∧ s1.symtab = s.symtab ∧ s1.location = s.location)
        ∧ (c.type = ExpType.Boolean → s1 = s)) := by
  constructor
  · intro hs h0
    by_cases h : c.type = ExpType.Boolean
    · exact ⟨s, by simp [checkNode, hk, hs, h0, h], fun n => absurd h n, fun _ => rfl⟩
    · exact ⟨typeError c "if test is not Boolean" s, by simp [checkNode, hk, hs, h0, h],
        fun _ => ⟨rfl, rfl, rfl, rfl⟩, fun n => absurd n h⟩
  · intro hs h1
    by_cases h : c.type = ExpType.Boolean
    · exact ⟨s, by simp [checkNode, hk, hs, h1, h], fun n => absurd h n, fun _ => rfl⟩
    · exact ⟨typeError c "repeat test is not Boolean" s, by simp [checkNode, hk, hs, h1, h],
        fun _ => ⟨rfl, rfl, rfl, rfl⟩, fun n => absurd n h⟩

/-- Witness for C7: an `if` whose test is an `Integer` constant at line 9, and
a `repeat` whose test, the second child, is a `Boolean` constant. -/
theorem checkNode_condition_witness :
    (∃ s1, checkNode (sampleStmt 8 StmtKind.IfK "")
          [leaf (sampleConst 9 1 ExpType.Integer), TreeNode.NULL, TreeNode.NULL]
          TreeNode.NULL (State.initial false)
        = some (sampleStmt 8 StmtKind.IfK "", s1)
      ∧ s1.listing = [Output.typeError 9 "if test is not Boolean"])
    ∧ (∃ s1, checkNode (sampleStmt 8 StmtKind.RepeatK "")
          [TreeNode.NULL, leaf (sampleConst 9 1 ExpType.Boolean), TreeNode.NULL]
          TreeNode.NULL (State.initial false)
        = some (sampleStmt 8 StmtKind.RepeatK "", s1)
      ∧ s1 = State.initial false) := by
  constructor
  · obtain ⟨s1, h, h2, _⟩ := (checkNode_condition (sampleStmt 8 StmtKind.IfK "")
      [leaf (sampleConst 9 1 ExpType.Integer), TreeNode.NULL, TreeNode.NULL]
      TreeNode.NULL (State.initial false) _ rfl).1 rfl rfl
    exact ⟨s1, h, (h2 (by decide)).1⟩
  · obtain ⟨s1, h, _, h3⟩ := (checkNode_condition (sampleStmt 8 StmtKind.RepeatK "")
      [TreeNode.NULL, leaf (sampleConst 9 1 ExpType.Boolean), TreeNode.NULL]
      TreeNode.NULL (State.initial false) _ rfl).2 rfl rfl
    exact ⟨s1, h, h3 rfl⟩

/-- C8 (read and write gating). For a read statement node with name `n`,
`checkNode` returns with the node unchanged and writes exactly one line, the
"read of non-integer type" error (at the line of the read), when the type the
symbol table gives for `n` is not `Integer`, and nothing when it is `Integer`.
For a write statement node whose expression `child[0]` is a node `e`,
`checkNode` returns with the node unchanged and writes exactly one line, the
"write of non-integer and non-char type" error (at the line of `e`), when the
type of `e` is neither `Integer` nor `Char`, and nothing when it is one of the
two. -/
theorem checkNode_read_write (t : NodeData) (child : List TreeNode) (sibling : TreeNode)
    (s : State) (hk : t.nodekind = NodeKind.StmtK) :
    (t.kind.stmt = StmtKind.ReadK →
      ∃ s1, checkNode t child sibling s = some (t, s1)
        ∧ (st_findExpType t.attr.name s.symtab ≠ ExpType.Integer →
            s1.listing = s.listing ++ [Output.typeError t.lineno "read of non-integer type"]
            ∧ s1.Error = true ∧ s1.symtab = s.symtab ∧ s1.location = s.location)
        ∧ (st_findExpType t.attr.name s.symtab = ExpType.Integer → s1 = s))
    ∧ (∀ e : NodeData, t.kind.stmt = StmtKind.WriteK → childAt child 0 = some e →
      ∃ s1, checkNode t child sibling s = some (t, s1)
        ∧ (e.type ≠ ExpType.Integer → e.type ≠ ExpType.Char →
            s1.listing = s.listing ++
              [Output.typeError e.lineno "write of non-integer and non-char type"]
            ∧ s1.Error = true ∧ s1.symtab = s.symtab ∧ s1.location = s.location)
        ∧ ((e.type = ExpType.Integer ∨ e.type = ExpType.Char) → s1 = s)) := by
  constructor
  · intro hs
    by_cases h : st_findExpType t.attr.name s.symtab = ExpType.Integer
    · exact ⟨s, by simp [checkNode, hk, hs, h], fun n => absurd h n, fun _ => rfl⟩
    · exact ⟨typeError t "read of non-integer type" s, by simp [checkNode, hk, hs, h],
        fun _ => ⟨rfl, rfl, rfl, rfl⟩, fun n => absurd n h⟩
  · intro e hs h0
    by_cases h : e.type ≠ ExpType.Integer ∧ e.type ≠ ExpType.Char
    · refine ⟨typeError e "write of non-integer and non-char type" s, ?_,
        fun _ _ => ⟨rfl, rfl, rfl, rfl⟩, ?_⟩
      · simp only [checkNode, hk, hs, h0, if_pos h]
      · intro hv
        rcases hv with hv | hv
        · exact absurd hv h.1
        · exact absurd hv h.2
    · refine ⟨s, ?_, fun n1 n2 => absurd ⟨n1, n2⟩ h, fun _ => rfl⟩
      simp only [checkNode, hk, hs, h0, if_neg h]

/-- Witness for C8: a read into `c`, declared `Char`, at line 10 and a write of
a `Boolean` constant at line 12 are both rejected. -/
theorem checkNode_read_write_witness :
    (∃ s1, checkNode (sampleStmt 10 StmtKind.ReadK "c") [] TreeNode.NULL
          ⟨1, [⟨"c", ExpType.Char, 0, [1]⟩], [], false, false⟩
        = some (sampleStmt 10 StmtKind.ReadK "c", s1)
      ∧ s1.listing = [Output.typeError 10 "read of non-integer type"])
    ∧ (∃ s1, checkNode (sampleStmt 11 StmtKind.WriteK "")
          [leaf (sampleConst 12 1 ExpType.Boolean)] TreeNode.NULL (State.initial false)
        = some (sampleStmt 11 StmtKind.WriteK "", s1)
      ∧ s1.listing = [Output.typeError 12 "write of non-integer and non-char type"]) := by
  constructor
  · obtain ⟨s1, h, h2, _⟩ := (checkNode_read_write (sampleStmt 10 StmtKind.ReadK "c") []
      TreeNode.NULL ⟨1, [⟨"c", ExpType.Char, 0, [1]⟩], [], false, false⟩ rfl).1 rfl
    exact ⟨s1, h, (h2 (by decide)).1⟩
  · obtain ⟨s1, h, h2, _⟩ := (checkNode_read_write (sampleStmt 11 StmtKind.WriteK "")
      [leaf (sampleConst 12 1 ExpType.Boolean)] TreeNode.NULL (State.initial false) rfl).2
      _ rfl rfl
    exact ⟨s1, h, (h2 (by decide) (by decide)).1⟩

/-! ### `insertNode` as a step on the globals -/

theorem insertNode_eq (t : NodeData) (child : List TreeNode) (sibling : TreeNode) (s : State) :
    insertNode t child sibling s = some (t, insertStep t s) := by
  unfold insertStep
  simp only [insertNode]
  cases t.nodekind
  · cases t.kind.stmt <;> simp only <;> split_ifs <;> rfl
  · cases t.kind.exp
    · rfl
    · rfl
    · simp only; split_ifs <;> rfl
  · simp only; split_ifs <;> rfl

theorem insertStep_decl_fresh (d : NodeData) (s : State)
    (hk : d.nodekind = NodeKind.DeclK) (hx : d.attr.name ∉ s.symtab.map Entry.name) :
    (insertStep d s).symtab.map Entry.key
        = s.symtab.map Entry.key ++ [(d.attr.name, d.type, s.location)]
      ∧ (insertStep d s).location = s.location + 1 := by
  have h := (st_lookup_eq_neg_one_iff d.attr.name s.symtab).mpr hx
  simp [insertStep, insertNode, hk, h, st_insert_key_absent _ _ _ _ _ hx]

theorem insertStep_other (d : NodeData) (s : State)
    (h : ¬ (d.nodekind = NodeKind.DeclK ∧ d.attr.name ∉ s.symtab.map Entry.name)) :
    (insertStep d s).symtab.map Entry.key = s.symtab.map Entry.key
      ∧ (insertStep d s).location = s.location := by
  by_cases hx : d.attr.name ∈ s.symtab.map Entry.name
  · have hl : st_lookup d.attr.name s.symtab ≠ -1 := fun h1 =>
      (st_lookup_eq_neg_one_iff _ _).mp h1 hx
    have hi := st_insert_key_present d.attr.name d.lineno 0 ExpType.Void s.symtab hx
    unfold insertStep
    simp only [insertNode]
    cases d.nodekind
    · cases d.kind.stmt <;> simp [hl, hi]
    · cases d.kind.exp <;> simp [hl, hi]
    · simp [hl, symbolError]
  · have hl : st_lookup d.attr.name s.symtab = -1 := (st_lookup_eq_neg_one_iff _ _).mpr hx
    have hk : d.nodekind ≠ NodeKind.DeclK := fun h1 => h ⟨h1, hx⟩
    unfold insertStep
    simp only [insertNode]
    revert hk
    cases d.nodekind
    · intro _; cases d.kind.stmt <;> simp [hl, symbolError]
    · intro _; cases d.kind.exp <;> simp [hl, symbolError]
    · intro hk; exact absurd rfl hk

theorem insertStep_location_le (d : NodeData) (s : State) :
    s.location ≤ (insertStep d s).location := by
  by_cases h : d.nodekind = NodeKind.DeclK ∧ d.attr.name ∉ s.symtab.map Entry.name
  · rw [(insertStep_decl_fresh d s h.1 h.2).2]
    exact Nat.le_succ _
  · rw [(insertStep_other d s h).2]

theorem foldl_insertStep_location_le (l : List NodeData) : ∀ s : State,
    s.location ≤ (l.foldl (fun s d => insertStep d s) s).location := by
  induction l with
  | nil => intro s; exact Nat.le_refl _
  | cons d rest ih =>
    intro s
    simp only [List.foldl_cons]
    exact Nat.le_trans (insertStep_location_le d s) (ih _)

theorem foldl_insertStep_key (l : List NodeData) : ∀ (s : State) (seen : List String),
    (∀ x, x ∈ seen ↔ x ∈ s.symtab.map Entry.name) →
    (l.foldl (fun s d => insertStep d s) s).symtab.map Entry.key
        = s.symtab.map Entry.key ++
          ((successfulFrom seen l).enumFrom s.location).map
            (fun p => (p.2.attr.name, p.2.type, p.1))
      ∧ (l.foldl (fun s d => insertStep d s) s).location
        = s.location + (successfulFrom seen l).length := by
  induction l with
  | nil => intro s seen _; simp [successfulFrom]
  | cons d rest ih =>
    intro s seen hseen
    simp only [List.foldl_cons]
    by_cases hk : d.nodekind = NodeKind.DeclK
    · by_cases hx : d.attr.name ∈ seen
      · have hn : ¬ (d.nodekind = NodeKind.DeclK ∧ d.attr.name ∉ s.symtab.map Entry.name) :=
          fun h => h.2 ((hseen _).mp hx)
        obtain ⟨h1, h2⟩ := insertStep_other d s hn
        have hseen1 : ∀ x, x ∈ seen ↔ x ∈ (insertStep d s).symtab.map Entry.name := by
          intro x
          rw [map_name_eq_map_key, h1, ← map_name_eq_map_key]
          exact hseen x
        obtain ⟨h3, h4⟩ := ih (insertStep d s) seen hseen1
        simp only [successfulFrom, hk, hx, if_true]
        rw [h3, h4, h1, h2]
        exact ⟨rfl, rfl⟩
      · have hx1 : d.attr.name ∉ s.symtab.map Entry.name := fun h => hx ((hseen _).mpr h)
        obtain ⟨h1, h2⟩ := insertStep_decl_fresh d s hk hx1
        have hseen1 : ∀ x, x ∈ d.attr.name :: seen
            ↔ x ∈ (insertStep d s).symtab.map Entry.name := by
          intro x
          rw [map_name_eq_map_key, h1]
          simp only [List.map_append, List.map_cons, List.map_nil, List.mem_append,
            List.mem_singleton, List.mem_cons, ← map_name_eq_map_key]
          rw [hseen x]
          tauto
        obtain ⟨h3, h4⟩ := ih (insertStep d s) (d.attr.name :: seen) hseen1
        simp only [successfulFrom, hk, hx, if_true, if_false]
        rw [h3, h4, h1, h2]
        constructor
        · simp [List.enumFrom]
        · simp; omega
    · have hn : ¬ (d.nodekind = NodeKind.DeclK ∧ d.attr.name ∉ s.symtab.map Entry.name) :=
        fun h => hk h.1
      obtain ⟨h1, h2⟩ := insertStep_other d s hn
      have hseen1 : ∀ x, x ∈ seen ↔ x ∈ (insertStep d s).symtab.map Entry.name := by
        intro x
        rw [map_name_eq_map_key, h1, ← map_name_eq_map_key]
        exact hseen x
      obtain ⟨h3, h4⟩ := ih (insertStep d s) seen hseen1
      simp only [successfulFrom, hk, if_false]
      rw [h3, h4, h1, h2]
      exact ⟨rfl, rfl⟩

/-! ### `buildSymtab` as a fold over the preorder listing -/

theorem foldl_run_pre {σ : Type} (f : TreeNode → σ → σ) (l : List Visit) : ∀ (s : σ),
    l.foldl (Visit.run f (fun _ s => s)) s
      = (l.filterMap Visit.pre?).foldl (fun s n => f n s) s := by
  induction l with
  | nil => intro s; rfl
  | cons v l ih => intro s; cases v <;> simp [Visit.run, Visit.pre?, ih]

theorem foldl_run_post {σ : Type} (g : TreeNode → σ → σ) (l : List Visit) : ∀ (s : σ),
    l.foldl (Visit.run (fun _ s => s) g) s
      = (l.filterMap Visit.post?).foldl (fun s n => g n s) s := by
  induction l with
  | nil => intro s; rfl
  | cons v l ih => intro s; cases v <;> simp [Visit.run, Visit.post?, ih]

theorem foldl_onFields {σ : Type} (f : NodeData → σ → σ) (l : List TreeNode) : ∀ (s : σ),
    l.foldl (fun s n => onFields f n s) s
      = (l.filterMap TreeNode.deref).foldl (fun s d => f d s) s := by
  induction l with
  | nil => intro s; rfl
  | cons n l ih =>
    intro s
    cases n with
    | NULL =>
      simp only [List.foldl_cons, List.filterMap_cons, TreeNode.deref]
      exact ih s
    | node t child sibling =>
      simp only [List.foldl_cons, List.filterMap_cons, TreeNode.deref]
      exact ih (f t s)

theorem insertNode_eq_act : insertNode = act (onFields insertStep) := by
  funext t child sibling s
  rw [insertNode_eq]
  rfl

theorem nullProc_eq_act {σ : Type} : (nullProc : Proc σ) = act (fun _ s => s) := rfl

theorem traverse_insertNode (t : TreeNode) (s : State) :
    traverse insertNode nullProc t s
      = some (t, (nodes t).foldl (fun s d => insertStep d s) s) := by
  rw [insertNode_eq_act, nullProc_eq_act, traverse_act, foldl_run_pre, events_pre,
    foldl_onFields]
  rfl

theorem buildSymtab_eq (t : TreeNode) (s : State) :
    buildSymtab t s
      = some (t, traceSymtab ((nodes t).foldl (fun s d => insertStep d s) s)) := by
  unfold buildSymtab traceSymtab
  rw [traverse_insertNode]
  simp only
  split_ifs <;> rfl

theorem successfulFrom_nodup (l : List NodeData) : ∀ (seen : List String),
    ((successfulFrom seen l).map (fun d => d.attr.name)).Nodup
      ∧ ∀ d ∈ successfulFrom seen l, d.attr.name ∉ seen := by
  induction l with
  | nil => intro seen; simp [successfulFrom]
  | cons d rest ih =>
    intro seen
    by_cases hk : d.nodekind = NodeKind.DeclK
    · by_cases hx : d.attr.name ∈ seen
      · simp only [successfulFrom, hk, hx, if_true]
        exact ih seen
      · simp only [successfulFrom, hk, hx, if_true, if_false]
        obtain ⟨h1, h2⟩ := ih (d.attr.name :: seen)
        constructor
        · rw [List.map_cons, List.nodup_cons]
          refine ⟨?_, h1⟩
          intro hmem
          obtain ⟨e, he, hname⟩ := List.mem_map.mp hmem
          exact h2 e he (by simp [hname])
        · intro e he
          rcases List.mem_cons.mp he with h | h
          · rw [h]; exact hx
          · exact fun hm => h2 e h (List.mem_cons_of_mem _ hm)
    · simp only [successfulFrom, hk, if_false]
      exact ih seen

theorem successfulFrom_find (x : String) (l : List NodeData) : ∀ (seen : List String),
    x ∉ seen →
    (successfulFrom seen l).find? (fun d => decide (d.attr.name = x))
      = l.find? (fun d => decide (d.nodekind = NodeKind.DeclK ∧ d.attr.name = x)) := by
  induction l with
  | nil => intro seen _; simp [successfulFrom]
  | cons d rest ih =>
    intro seen hx
    by_cases hk : d.nodekind = NodeKind.DeclK
    · by_cases hd : d.attr.name ∈ seen
      · have hne : ¬ d.attr.name = x := fun h => hx (h ▸ hd)
        simp only [successfulFrom, hk, hd, if_true, List.find?, hne, and_false, decide_False]
        exact ih seen hx
      · by_cases hdx : d.attr.name = x
        · simp only [successfulFrom, hk, hx, if_true, if_false, List.find?, hdx, and_self,
            decide_True]
        · have hx1 : x ∉ d.attr.name :: seen := by
            simp only [List.mem_cons, not_or]
            exact ⟨fun h => hdx h.symm, hx⟩
          simp only [successfulFrom, hk, hd, if_true, if_false, List.find?, hdx, and_false,
            decide_False]
          exact ih _ hx1
    · simp only [successfulFrom, hk, if_false, List.find?, false_and, decide_False]
      exact ih seen hx

theorem successfulFrom_sublist (l : List NodeData) : ∀ (seen : List String),
    (successfulFrom seen l).Sublist l
      ∧ ∀ d ∈ successfulFrom seen l, d.nodekind = NodeKind.DeclK := by
  induction l with
  | nil => intro seen; simp [successfulFrom]
  | cons d rest ih =>
    intro seen
    by_cases hk : d.nodekind = NodeKind.DeclK
    · by_cases hx : d.attr.name ∈ seen
      · simp only [successfulFrom, hk, hx, if_true]
        exact ⟨List.Sublist.cons _ (ih seen).1, (ih seen).2⟩
      · simp only [successfulFrom, hk, hx, if_true, if_false]
        refine ⟨List.Sublist.cons₂ _ (ih _).1, ?_⟩
        intro e he
        rcases List.mem_cons.mp he with h | h
        · rw [h]; exact hk
        · exact (ih _).2 e h
    · simp only [successfulFrom, hk, if_false]
      exact ⟨List.Sublist.cons _ (ih seen).1, (ih seen).2⟩

theorem st_lookup_getElem (tab : List Entry) : ∀ (k : Nat) (h : k < tab.length),
    (tab.map Entry.name).Nodup → st_lookup (tab[k]).name tab = ((tab[k]).memloc : Int) := by
  induction tab with
  | nil => intro k h; simp at h
  | cons e es ih =>
    intro k h hn
    cases k with
    | zero => simp [st_lookup]
    | succ k =>
      rw [List.map_cons, List.nodup_cons] at hn
      have hk : k < es.length := by simpa using h
      have hne : ¬ e.name = (es[k]).name := by
        intro heq
        apply hn.1
        rw [heq]
        exact List.mem_map.mpr ⟨es[k], List.getElem_mem _, rfl⟩
      simp only [List.getElem_cons_succ, st_lookup, hne, if_false]
      exact ih k hk hn.2

/-! ### Slots -/

theorem buildSymtab_key (t : TreeNode) (tr : Bool) :
    ∃ s1, buildSymtab t (State.initial tr) = some (t, s1)
      ∧ s1.location = (successfulDecls (nodes t)).length
      ∧ s1.symtab.map Entry.key
          = (successfulDecls (nodes t)).enum.map
              (fun p => (p.2.attr.name, p.2.type, p.1)) := by
  obtain ⟨hkey, hloc⟩ := foldl_insertStep_key (nodes t) (State.initial tr) []
    (by intro x; simp [State.initial])
  refine ⟨_, buildSymtab_eq t _, ?_, ?_⟩
  · have : (traceSymtab ((nodes t).foldl (fun s d => insertStep d s)
        (State.initial tr))).location
        = ((nodes t).foldl (fun s d => insertStep d s) (State.initial tr)).location := by
      unfold traceSymtab; split_ifs <;> rfl
    rw [this, hloc]
    simp [State.initial, successfulDecls]
  · have : (traceSymtab ((nodes t).foldl (fun s d => insertStep d s)
        (State.initial tr))).symtab
        = ((nodes t).foldl (fun s d => insertStep d s) (State.initial tr)).symtab := by
      unfold traceSymtab; split_ifs <;> rfl
    rw [this, hkey]
    simp [State.initial, successfulDecls, List.enum]

/-- C1 (slot monotonicity). For every tree whose number `N` of successful
declarations is at most `INT_MAX`, so that the `int` counter can count them,
`buildSymtab` run from the initial state (empty symbol table, `location = 0`)
returns, and the symbol table then holds, in insertion order, exactly the
successful declarations met in preorder, the `k`-th of them (from 0) with its
own name and type and with slot `k`; `location` ends as their number `N`, so
the slots handed out are `0..N-1` in that order, a rejected redeclaration takes
none, and `st_lookup` of the name of the `k`-th successful declaration is `k`.
The successful declarations are declaration nodes of the tree in preorder
order, with distinct names, and for each name the one kept is the first
declaration of that name in preorder. No `location++` of the run overflowed:
every slot handed out is below `INT_MAX`, and the counter is at most `INT_MAX`
after every node of the traversal. -/
theorem buildSymtab_slots (t : TreeNode) (tr : Bool)
    (hN : (successfulDecls (nodes t)).length ≤ INT_MAX) :
    ∃ s1, buildSymtab t (State.initial tr) = some (t, s1)
      ∧ s1.location = (successfulDecls (nodes t)).length
      ∧ s1.symtab.map Entry.key
          = (successfulDecls (nodes t)).enum.map (fun p => (p.2.attr.name, p.2.type, p.1))
      ∧ s1.symtab.map Entry.memloc = List.range (successfulDecls (nodes t)).length
      ∧ (∀ (k : Nat) (h : k < (successfulDecls (nodes t)).length),
          st_lookup ((successfulDecls (nodes t))[k]).attr.name s1.symtab = (k : Int))
      ∧ (successfulDecls (nodes t)).Sublist (nodes t)
      ∧ (∀ d ∈ successfulDecls (nodes t), d.nodekind = NodeKind.DeclK)
      ∧ ((successfulDecls (nodes t)).map (fun d => d.attr.name)).Nodup
      ∧ (∀ x : String,
          (successfulDecls (nodes t)).find? (fun d => decide (d.attr.name = x))
            = (nodes t).find?
                (fun d => decide (d.nodekind = NodeKind.DeclK ∧ d.attr.name = x)))
      ∧ (∀ e ∈ s1.symtab, e.memloc < INT_MAX)
      ∧ ∀ L1 L2 : List NodeData, nodes t = L1 ++ L2 →
          (L1.foldl (fun s d => insertStep d s) (State.initial tr)).location ≤ INT_MAX := by
  obtain ⟨s1, hb, hloc, hkey⟩ := buildSymtab_key t tr
  have hmem : s1.symtab.map Entry.memloc = List.range (successfulDecls (nodes t)).length := by
    have h : s1.symtab.map Entry.memloc
        = (s1.symtab.map Entry.key).map (fun p => p.2.2) := by
      simp [Entry.key, Function.comp_def]
    rw [h, hkey, List.map_map, ← List.enum_map_fst]
    rfl
  refine ⟨s1, hb, hloc, hkey, hmem, ?_, (successfulFrom_sublist (nodes t) []).1,
    (successfulFrom_sublist (nodes t) []).2, (successfulFrom_nodup (nodes t) []).1,
    fun x => successfulFrom_find x (nodes t) [] (by simp), ?_, ?_⟩
  rotate_left
  · intro e he
    have h1 : e.memloc ∈ s1.symtab.map Entry.memloc := List.mem_map.mpr ⟨e, he, rfl⟩
    rw [hmem, List.mem_range] at h1
    omega
  · intro L1 L2 hsplit
    have h1 := foldl_insertStep_location_le L2
      (L1.foldl (fun s d => insertStep d s) (State.initial tr))
    rw [← List.foldl_append, ← hsplit] at h1
    have h2 := (foldl_insertStep_key (nodes t) (State.initial tr) []
      (by intro x; simp [State.initial])).2
    rw [h2] at h1
    have h3 : (State.initial tr).location = 0 := rfl
    have h4 : successfulFrom [] (nodes t) = successfulDecls (nodes t) := rfl
    rw [h3, h4] at h1
    omega
  · intro k h
    have hlen : s1.symtab.length = (successfulDecls (nodes t)).length := by
      have := congrArg List.length hkey
      simpa using this
    have hk : k < s1.symtab.length := by omega
    have hnames : s1.symtab.map Entry.name
        = (successfulDecls (nodes t)).map (fun d => d.attr.name) := by
      rw [map_name_eq_map_key, hkey, List.map_map]
      have : (Prod.fst ∘ fun (p : Nat × NodeData) => (p.2.attr.name, p.2.type, p.1))
          = (fun d : NodeData => d.attr.name) ∘ Prod.snd := rfl
      rw [this, ← List.map_map, List.enum_map_snd]
    have hnodup : (s1.symtab.map Entry.name).Nodup := by
      rw [hnames]
      exact (successfulFrom_nodup (nodes t) []).1
    have hget : (s1.symtab[k]).key
        = (((successfulDecls (nodes t))[k]).attr.name,
            ((successfulDecls (nodes t))[k]).type, k) := by
      have h1 := List.getElem_of_eq hkey (by simpa using hk)
      simpa using h1
    have h2 := st_lookup_getElem s1.symtab k hk hnodup
    simp only [Entry.key, Prod.mk.injEq] at hget
    rw [← hget.1, h2, hget.2.2]

/-- Witness for C1: the three declarations `x`, `x` again, `y`. There are two
successful declarations; `x` gets slot 0, the redeclaration of `x` takes no
slot, `y` gets slot 1, and `location` ends as 2. -/
theorem buildSymtab_slots_witness :
    (successfulDecls (nodes threeDecls)).length ≤ INT_MAX
      ∧ ∃ s1, buildSymtab threeDecls (State.initial false) = some (threeDecls, s1)
          ∧ s1.location = 2
          ∧ s1.symtab.map Entry.memloc = [0, 1]
          ∧ st_lookup "x" s1.symtab = 0 ∧ st_lookup "y" s1.symtab = 1
          ∧ s1.listing = [Output.symbolError 2 "x" "redefined"] := by
  have hN : (successfulDecls (nodes threeDecls)).length ≤ INT_MAX := by decide
  obtain ⟨s1, hb, hloc, _, hmem, hlook, _⟩ := buildSymtab_slots threeDecls false hN
  have hrun : buildSymtab threeDecls (State.initial false)
      = some (threeDecls,
          ⟨2, [⟨"x", ExpType.Integer, 0, [1]⟩, ⟨"y", ExpType.Char, 1, [3]⟩],
            [Output.symbolError 2 "x" "redefined"], true, false⟩) := rfl
  rw [hrun] at hb
  have hs : s1 = ⟨2, [⟨"x", ExpType.Integer, 0, [1]⟩, ⟨"y", ExpType.Char, 1, [3]⟩],
      [Output.symbolError 2 "x" "redefined"], true, false⟩ := by
    injection hb with h1
    injection h1 with _ h2
    exact h2.symm
  have hlen : (successfulDecls (nodes threeDecls)).length = 2 := by decide
  refine ⟨hN, s1, by rw [hrun, hs], by rw [hloc, hlen], ?_, ?_, ?_, by rw [hs]⟩
  · rw [hmem, hlen]
    rfl
  · exact hlook 0 (by rw [hlen]; decide)
  · exact hlook 1 (by rw [hlen]; decide)

/-! ### Inversion of `traverse` -/

theorem traverse_node_some {σ : Type} (p q : Proc σ) (t : NodeData) (child : List TreeNode)
    (sibling r : TreeNode) (s s4 : σ) :
    traverse p q (TreeNode.node t child sibling) s = some (r, s4) ↔
      ∃ t1 s1 child1 s2 t2 s3 sibling1,
        p t child sibling s = some (t1, s1)
        ∧ traverseChildren p q child s1 = some (child1, s2)
        ∧ q t1 child1 sibling s2 = some (t2, s3)
        ∧ traverse p q sibling s3 = some (sibling1, s4)
        ∧ r = TreeNode.node t2 child1 sibling1 := by
  constructor
  · intro h
    simp only [traverse] at h
    split at h
    · cases h
    · rename_i t1 s1 hp
      split at h
      · cases h
      · rename_i child1 s2 hc
        split at h
        · cases h
        · rename_i t2 s3 hq
          split at h
          · cases h
          · rename_i sibling1 s5 hs
            simp only [Option.some.injEq, Prod.mk.injEq] at h
            obtain ⟨h1, h2⟩ := h
            subst h2
            exact ⟨t1, s1, child1, s2, t2, s3, sibling1, hp, hc, hq, hs, h1.symm⟩
  · rintro ⟨t1, s1, child1, s2, t2, s3, sibling1, hp, hc, hq, hs, hr⟩
    simp only [traverse, hp, hc, hq, hs, hr]

theorem traverseChildren_cons_some {σ : Type} (p q : Proc σ) (c : TreeNode)
    (rest r : List TreeNode) (s s2 : σ) :
    traverseChildren p q (c :: rest) s = some (r, s2) ↔
      ∃ c1 s1 rest1,
        traverse p q c s = some (c1, s1)
        ∧ traverseChildren p q rest s1 = some (rest1, s2)
        ∧ r = c1 :: rest1 := by
  constructor
  · intro h
    simp only [traverseChildren] at h
    split at h
    · cases h
    · rename_i c1 s1 hc
      split at h
      · cases h
      · rename_i rest1 s3 hr
        simp only [Option.some.injEq, Prod.mk.injEq] at h
        obtain ⟨h1, h2⟩ := h
        subst h2
        exact ⟨c1, s1, rest1, hc, hr, h1.symm⟩
  · rintro ⟨c1, s1, rest1, hc, hr, h⟩
    simp only [traverseChildren, hc, hr, h]

mutual
theorem nodes_eq_nodesTree_aux : ∀ (t : TreeNode),
    (preorder t).filterMap TreeNode.deref = nodesTree t
  | .NULL => by simp [preorder, nodesTree]
  | .node t child sibling => by
    simp [preorder, nodesTree, TreeNode.deref, List.filterMap_append,
      nodes_eq_nodesTree_aux sibling, nodesList_eq_aux child]
theorem nodesList_eq_aux : ∀ (child : List TreeNode),
    (preorderList child).filterMap TreeNode.deref = nodesList child
  | [] => by simp [preorderList, nodesList]
  | c :: rest => by
    simp [preorderList, nodesList, List.filterMap_append, nodes_eq_nodesTree_aux c,
      nodesList_eq_aux rest]
end

theorem nodes_eq_nodesTree (t : TreeNode) : nodes t = nodesTree t :=
  nodes_eq_nodesTree_aux t

/-! ### `typeCheck`: frame, identifiers, totality -/

theorem checkNode_frame (t : NodeData) (child : List TreeNode) (sibling : TreeNode)
    (s : State) (t2 : NodeData) (s2 : State)
    (h : checkNode t child sibling s = some (t2, s2)) :
    s2.symtab = s.symtab ∧ s2.location = s.location ∧ s2.TraceAnalyze = s.TraceAnalyze
      ∧ t2.lineno = t.lineno ∧ t2.nodekind = t.nodekind ∧ t2.kind = t.kind
      ∧ t2.attr = t.attr
      ∧ (t.nodekind = NodeKind.ExpK → t.kind.exp = ExpKind.IdK →
          t2.type = st_findExpType t.attr.name s.symtab) := by
  simp only [checkNode] at h
  repeat' split at h
  all_goals try simp only [Option.some.injEq, Prod.mk.injEq, reduceCtorEq] at h
  all_goals
    obtain ⟨h1, h2⟩ := h
    subst h1 h2
    refine ⟨?_, ?_, ?_, rfl, rfl, rfl, rfl, ?_⟩
    iterate 3 rfl
    intro a b
    simp_all

theorem traverse_deref_isSome {σ : Type} (p q : Proc σ) (t t1 : TreeNode) (s s1 : σ)
    (h : traverse p q t s = some (t1, s1)) : t1.deref.isSome = t.deref.isSome := by
  cases t with
  | NULL =>
    simp only [traverse, Option.some.injEq, Prod.mk.injEq] at h
    rw [← h.1]
  | node t child sibling =>
    obtain ⟨_, _, _, _, _, _, _, _, _, _, _, hr⟩ := (traverse_node_some _ _ _ _ _ _ _ _).mp h
    rw [hr]
    rfl

theorem traverseChildren_childAt {σ : Type} (p q : Proc σ) (child : List TreeNode) :
    ∀ (child1 : List TreeNode) (s s1 : σ),
      traverseChildren p q child s = some (child1, s1) →
      ∀ i, (childAt child1 i).isSome = (childAt child i).isSome := by
  induction child with
  | nil =>
    intro child1 s s1 h i
    simp only [traverseChildren, Option.some.injEq, Prod.mk.injEq] at h
    rw [← h.1]
  | cons c rest ih =>
    intro child1 s s1 h i
    obtain ⟨c1, s2, rest1, hc, hr, he⟩ := (traverseChildren_cons_some _ _ _ _ _ _ _).mp h
    subst he
    cases i with
    | zero =>
      simpa [childAt] using traverse_deref_isSome p q c c1 s s2 hc
    | succ i =>
      have := ih rest1 s2 s1 hr i
      simpa [childAt] using this

theorem childrenPresent_congr (t : NodeData) (child child1 : List TreeNode)
    (h : ∀ i, (childAt child1 i).isSome = (childAt child i).isSome) :
    childrenPresent t child1 = childrenPresent t child := by
  simp only [childrenPresent, h]

theorem checkNode_total (t : NodeData) (child : List TreeNode) (sibling : TreeNode)
    (s : State) (h : childrenPresent t child = true) :
    ∃ r, checkNode t child sibling s = some r := by
  cases hk : t.nodekind with
  | StmtK =>
    cases hs : t.kind.stmt with
    | ReadK =>
      simp only [checkNode, hk, hs]
      split_ifs <;> exact ⟨_, rfl⟩
    | IfK =>
      simp only [childrenPresent, hk, hs, Option.isSome_iff_exists] at h
      obtain ⟨c, hc⟩ := h
      simp only [checkNode, hk, hs, hc]
      split_ifs <;> exact ⟨_, rfl⟩
    | AssignK =>
      simp only [childrenPresent, hk, hs, Option.isSome_iff_exists] at h
      obtain ⟨c, hc⟩ := h
      simp only [checkNode, hk, hs, hc]
      split_ifs <;> exact ⟨_, rfl⟩
    | WriteK =>
      simp only [childrenPresent, hk, hs, Option.isSome_iff_exists] at h
      obtain ⟨c, hc⟩ := h
      simp only [checkNode, hk, hs, hc]
      split_ifs <;> exact ⟨_, rfl⟩
    | RepeatK =>
      simp only [childrenPresent, hk, hs, Option.isSome_iff_exists] at h
      obtain ⟨c, hc⟩ := h
      simp only [checkNode, hk, hs, hc]
      split_ifs <;> exact ⟨_, rfl⟩
  | ExpK =>
    cases he : t.kind.exp with
    | OpK =>
      simp only [childrenPresent, hk, he, Bool.and_eq_true, Option.isSome_iff_exists] at h
      obtain ⟨⟨c0, h0⟩, ⟨c1, h1⟩⟩ := h
      exact ⟨_, checkNode_op t child sibling s c0 c1 hk he h0 h1⟩
    | ConstK => exact ⟨(t, s), by simp only [checkNode, hk, he]⟩
    | IdK => exact ⟨_, by simp only [checkNode, hk, he]; rfl⟩
  | DeclK => exact ⟨(t, s), by simp only [checkNode, hk]⟩

mutual
theorem typeCheck_total : ∀ (t : TreeNode) (s : State), wellFormed t = true →
    ∃ r, traverse nullProc checkNode t s = some r
  | .NULL, s, _ => ⟨(TreeNode.NULL, s), by simp only [traverse]⟩
  | .node t child sibling, s, h => by
    simp only [wellFormed, Bool.and_eq_true] at h
    obtain ⟨⟨child1, s2⟩, hc⟩ := typeCheckChildren_total child s h.1.2
    have hp : childrenPresent t child1 = true := by
      rw [childrenPresent_congr t child child1
        (traverseChildren_childAt _ _ child child1 s s2 hc)]
      exact h.1.1
    obtain ⟨⟨t2, s3⟩, hq⟩ := checkNode_total t child1 sibling s2 hp
    obtain ⟨⟨sibling1, s4⟩, hs⟩ := typeCheck_total sibling s3 h.2
    exact ⟨_, (traverse_node_some _ _ _ _ _ _ _ _).mpr
      ⟨t, s, child1, s2, t2, s3, sibling1, rfl, hc, hq, hs, rfl⟩⟩
theorem typeCheckChildren_total : ∀ (child : List TreeNode) (s : State),
    wellFormedList child = true →
    ∃ r, traverseChildren nullProc checkNode child s = some r
  | [], s, _ => ⟨([], s), by simp only [traverseChildren]⟩
  | c :: rest, s, h => by
    simp only [wellFormedList, Bool.and_eq_true] at h
    obtain ⟨⟨c1, s1⟩, hc⟩ := typeCheck_total c s h.1
    obtain ⟨⟨rest1, s2⟩, hr⟩ := typeCheckChildren_total rest s1 h.2
    exact ⟨_, (traverseChildren_cons_some _ _ _ _ _ _ _).mpr ⟨c1, s1, rest1, hc, hr, rfl⟩⟩
end

mutual
theorem typeCheck_ids : ∀ (t t2 : TreeNode) (s s2 : State),
    traverse nullProc checkNode t s = some (t2, s2) →
    s2.symtab = s.symtab ∧
      ∀ d ∈ nodesTree t2, d.nodekind = NodeKind.ExpK → d.kind.exp = ExpKind.IdK →
        d.type = st_findExpType d.attr.name s.symtab
  | .NULL, t2, s, s2, h => by
    simp only [traverse, Option.some.injEq, Prod.mk.injEq] at h
    rw [← h.1, ← h.2]
    simp [nodesTree]
  | .node t child sibling, t2, s, s2, h => by
    obtain ⟨t1, s1, child1, s3, t3, s4, sibling1, hp, hc, hq, hs, hr⟩ :=
      (traverse_node_some _ _ _ _ _ _ _ _).mp h
    simp only [nullProc, Option.some.injEq, Prod.mk.injEq] at hp
    obtain ⟨e1, e2⟩ := hp
    subst e1 e2 hr
    obtain ⟨c1, c2⟩ := typeCheckChildren_ids child child1 s s3 hc
    obtain ⟨f1, _, _, _, f5, f6, f7, f8⟩ := checkNode_frame t child1 sibling s3 t3 s4 hq
    obtain ⟨g1, g2⟩ := typeCheck_ids sibling sibling1 s4 s2 hs
    refine ⟨by rw [g1, f1, c1], ?_⟩
    intro d hd hk he
    simp only [nodesTree, List.mem_cons, List.mem_append] at hd
    rcases hd with hd | hd | hd
    · subst hd
      rw [f5] at hk
      rw [f6] at he
      rw [f8 hk he, f7, c1]
    · exact c2 d hd hk he
    · rw [← c1, ← f1]
      exact g2 d hd hk he
theorem typeCheckChildren_ids : ∀ (child child1 : List TreeNode) (s s2 : State),
    traverseChildren nullProc checkNode child s = some (child1, s2) →
    s2.symtab = s.symtab ∧
      ∀ d ∈ nodesList child1, d.nodekind = NodeKind.ExpK → d.kind.exp = ExpKind.IdK →
        d.type = st_findExpType d.attr.name s.symtab
  | [], child1, s, s2, h => by
    simp only [traverseChildren, Option.some.injEq, Prod.mk.injEq] at h
    rw [← h.1, ← h.2]
    simp [nodesList]
  | c :: rest, child1, s, s2, h => by
    obtain ⟨c1, s1, rest1, hc, hr, he⟩ := (traverseChildren_cons_some _ _ _ _ _ _ _).mp h
    subst he
    obtain ⟨a1, a2⟩ := typeCheck_ids c c1 s s1 hc
    obtain ⟨b1, b2⟩ := typeCheckChildren_ids rest rest1 s1 s2 hr
    refine ⟨by rw [b1, a1], ?_⟩
    intro d hd hk he
    simp only [nodesList, List.mem_append] at hd
    rcases hd with hd | hd
    · exact a2 d hd hk he
    · rw [← a1]
      exact b2 d hd hk he
end

theorem st_findExpType_of_map (x : String) : ∀ (tab : List Entry) (l : List NodeData),
    tab.map (fun e => (e.name, e.type)) = l.map (fun d => (d.attr.name, d.type)) →
    st_findExpType x tab
      = match l.find? (fun d => decide (d.attr.name = x)) with
        | some d => d.type
        | none => ExpType.Void := by
  intro tab
  induction tab with
  | nil =>
    intro l h
    cases l with
    | nil => simp [st_findExpType]
    | cons d l => simp at h
  | cons e es ih =>
    intro l h
    cases l with
    | nil => simp at h
    | cons d l =>
      simp only [List.map_cons, List.cons.injEq, Prod.mk.injEq] at h
      obtain ⟨⟨h1, h2⟩, h3⟩ := h
      by_cases hx : d.attr.name = x
      · simp [st_findExpType, List.find?, h1, h2, hx]
      · simp only [st_findExpType, h1, hx, if_false, List.find?, decide_False]
        exact ih l h3

/-! ### Identifiers -/

/-- C9 (identifier resolution). For every tree, `buildSymtab` run from the
initial state returns; on a tree where the children read by `checkNode` are
present `typeCheck` run after it returns too; and whenever `typeCheck` returns,
the symbol table is the one `buildSymtab` left and every identifier expression
node of the resulting tree has as type what `st_findExpType` gives for its
name; when some declaration node of the tree declares that name, this is the
type of the first declaration of the name in preorder. -/
theorem typeCheck_identifier (t : TreeNode) (tr : Bool) :
    ∃ s1, buildSymtab t (State.initial tr) = some (t, s1)
      ∧ (wellFormed t = true → ∃ t2 s2, typeCheck t s1 = some (t2, s2))
      ∧ ∀ t2 s2, typeCheck t s1 = some (t2, s2) →
          s2.symtab = s1.symtab
          ∧ ∀ d ∈ nodes t2, d.nodekind = NodeKind.ExpK → d.kind.exp = ExpKind.IdK →
              d.type = st_findExpType d.attr.name s2.symtab
              ∧ ((∃ decl ∈ nodes t, decl.nodekind = NodeKind.DeclK
                    ∧ decl.attr.name = d.attr.name) →
                  ∃ first, (nodes t).find? (fun n =>
                        decide (n.nodekind = NodeKind.DeclK ∧ n.attr.name = d.attr.name))
                      = some first
                    ∧ d.type = first.type) := by
  obtain ⟨s1, hb, _, hkey⟩ := buildSymtab_key t tr
  refine ⟨s1, hb, ?_, ?_⟩
  · intro hwf
    obtain ⟨⟨t2, s2⟩, h⟩ := typeCheck_total t s1 hwf
    exact ⟨t2, s2, h⟩
  · intro t2 s2 h
    obtain ⟨h1, h2⟩ := typeCheck_ids t t2 s1 s2 h
    refine ⟨h1, ?_⟩
    intro d hd hk he
    rw [nodes_eq_nodesTree] at hd
    have hty := h2 d hd hk he
    refine ⟨by rw [h1]; exact hty, ?_⟩
    rintro ⟨decl, hdecl, hdk, hdn⟩
    have hpairs : s1.symtab.map (fun e => (e.name, e.type))
        = (successfulDecls (nodes t)).map (fun d => (d.attr.name, d.type)) := by
      have e1 : s1.symtab.map (fun e => (e.name, e.type))
          = (s1.symtab.map Entry.key).map (fun p => (p.1, p.2.1)) := by
        simp [Entry.key, Function.comp_def]
      rw [e1, hkey, List.map_map]
      have : ((fun (p : String × ExpType × Nat) => (p.1, p.2.1)) ∘
            fun (p : Nat × NodeData) => (p.2.attr.name, p.2.type, p.1))
          = (fun d : NodeData => (d.attr.name, d.type)) ∘ Prod.snd := rfl
      rw [this, ← List.map_map, List.enum_map_snd]
    have hfind := st_findExpType_of_map d.attr.name s1.symtab _ hpairs
    rw [successfulDecls, successfulFrom_find d.attr.name (nodes t) [] (by simp)] at hfind
    cases hf : (nodes t).find? (fun n =>
        decide (n.nodekind = NodeKind.DeclK ∧ n.attr.name = d.attr.name)) with
    | none =>
      have := List.find?_eq_none.mp hf decl hdecl
      simp [hdk, hdn] at this
    | some first =>
      rw [hf] at hfind
      exact ⟨first, rfl, by rw [hty, hfind]⟩

/-! ### Positions -/

theorem mem_positionsList (j : Nat) (p : List Link) : ∀ (cs : List TreeNode) (i : Nat),
    Link.child j :: p ∈ positionsList cs i
      ↔ i ≤ j ∧ p ∈ positions (cs.getD (j - i) TreeNode.NULL) := by
  intro cs
  induction cs with
  | nil => intro i; simp [positionsList, positions]
  | cons c rest ih =>
    intro i
    simp only [positionsList, List.mem_append, List.mem_map, List.cons.injEq, Link.child.injEq,
      ih (i + 1)]
    constructor
    · rintro (⟨q, hq, h1, h2⟩ | ⟨h1, h2⟩)
      · subst h1 h2
        simpa using hq
      · refine ⟨by omega, ?_⟩
        have : j - i = (j - (i + 1)) + 1 := by omega
        rw [this]
        simpa using h2
    · rintro ⟨h1, h2⟩
      by_cases hij : i = j
      · subst hij
        left
        exact ⟨p, by simpa using h2, rfl, rfl⟩
      · right
        refine ⟨by omega, ?_⟩
        have : j - i = (j - (i + 1)) + 1 := by omega
        rw [this] at h2
        simpa using h2

theorem sibling_not_mem_positionsList (p : List Link) : ∀ (cs : List TreeNode) (i : Nat),
    Link.sibling :: p ∉ positionsList cs i := by
  intro cs
  induction cs with
  | nil => intro i; simp [positionsList]
  | cons c rest ih =>
    intro i
    simp [positionsList, ih (i + 1)]

theorem nil_not_mem_positionsList : ∀ (cs : List TreeNode) (i : Nat),
    [] ∉ positionsList cs i := by
  intro cs
  induction cs with
  | nil => intro i; simp [positionsList]
  | cons c rest ih =>
    intro i
    simp [positionsList, ih (i + 1)]

theorem mem_positions_iff (p : List Link) : ∀ (t : TreeNode),
    p ∈ positions t ↔ follow t p ≠ TreeNode.NULL := by
  induction p with
  | nil =>
    intro t
    cases t <;> simp [positions, follow]
  | cons l p ih =>
    intro t
    cases t with
    | NULL => simp [positions, follow]
    | node t child sibling =>
      cases l with
      | child j =>
        simp only [positions, List.mem_cons, reduceCtorEq, List.mem_append, List.mem_map,
          List.cons.injEq, false_and, and_false, exists_false, or_false, false_or, follow,
          mem_positionsList, Nat.zero_le, true_and, Nat.sub_zero]
        exact ih _
      | sibling =>
        simp only [positions, List.mem_cons, reduceCtorEq, List.mem_append, List.mem_map,
          List.cons.injEq, true_and, exists_eq_right, false_or, follow,
          sibling_not_mem_positionsList]
        exact ih _

mutual
theorem map_follow_positions : ∀ (t : TreeNode),
    (positions t).map (follow t) = preorder t
  | .NULL => by simp [positions, preorder]
  | .node t child sibling => by
    simp only [positions, preorder, List.map_cons, List.map_append, List.map_map, follow]
    rw [map_follow_positionsList child 0 t child sibling (fun j => by simp)]
    have : (follow (TreeNode.node t child sibling) ∘ fun p => Link.sibling :: p)
        = follow sibling := rfl
    rw [this, map_follow_positions sibling]
theorem map_follow_positionsList : ∀ (cs : List TreeNode) (i : Nat) (t : NodeData)
    (child : List TreeNode) (sibling : TreeNode),
    (∀ j, child.getD (i + j) TreeNode.NULL = cs.getD j TreeNode.NULL) →
    (positionsList cs i).map (follow (TreeNode.node t child sibling)) = preorderList cs
  | [], i, t, child, sibling, _ => by simp [positionsList, preorderList]
  | c :: rest, i, t, child, sibling, h => by
    simp only [positionsList, preorderList, List.map_append, List.map_map]
    have h0 : child.getD i TreeNode.NULL = c := by simpa using h 0
    have : (follow (TreeNode.node t child sibling) ∘ fun p => Link.child i :: p)
        = follow c := by
      funext p
      simp only [Function.comp, follow, h0]
    rw [this, map_follow_positions c,
      map_follow_positionsList rest (i + 1) t child sibling (fun j => by
        have := h (j + 1)
        simpa [Nat.add_assoc, Nat.add_comm 1 j] using this)]
end

mutual
theorem map_follow_postPositions : ∀ (t : TreeNode),
    (postPositions t).map (follow t) = postorder t
  | .NULL => by simp [postPositions, postorder]
  | .node t child sibling => by
    simp only [postPositions, postorder, List.map_cons, List.map_append, List.map_map, follow]
    rw [map_follow_postPositionsList child 0 t child sibling (fun j => by simp)]
    have : (follow (TreeNode.node t child sibling) ∘ fun p => Link.sibling :: p)
        = follow sibling := rfl
    rw [this, map_follow_postPositions sibling]
theorem map_follow_postPositionsList : ∀ (cs : List TreeNode) (i : Nat) (t : NodeData)
    (child : List TreeNode) (sibling : TreeNode),
    (∀ j, child.getD (i + j) TreeNode.NULL = cs.getD j TreeNode.NULL) →
    (postPositionsList cs i).map (follow (TreeNode.node t child sibling)) = postorderList cs
  | [], i, t, child, sibling, _ => by simp [postPositionsList, postorderList]
  | c :: rest, i, t, child, sibling, h => by
    simp only [postPositionsList, postorderList, List.map_append, List.map_map]
    have h0 : child.getD i TreeNode.NULL = c := by simpa using h 0
    have : (follow (TreeNode.node t child sibling) ∘ fun p => Link.child i :: p)
        = follow c := by
      funext p
      simp only [Function.comp, follow, h0]
    rw [this, map_follow_postPositions c,
      map_follow_postPositionsList rest (i + 1) t child sibling (fun j => by
        have := h (j + 1)
        simpa [Nat.add_assoc, Nat.add_comm 1 j] using this)]
end

mutual
theorem postPositions_perm : ∀ (t : TreeNode), (postPositions t).Perm (positions t)
  | .NULL => by simp [postPositions, positions]
  | .node t child sibling => by
    simp only [postPositions, positions]
    refine List.perm_middle.trans (List.Perm.cons _ ?_)
    exact List.Perm.append (postPositionsList_perm child 0)
      (List.Perm.map _ (postPositions_perm sibling))
theorem postPositionsList_perm : ∀ (cs : List TreeNode) (i : Nat),
    (postPositionsList cs i).Perm (positionsList cs i)
  | [], i => by simp [postPositionsList, positionsList]
  | c :: rest, i => by
    simp only [postPositionsList, positionsList]
    exact List.Perm.append (List.Perm.map _ (postPositions_perm c))
      (postPositionsList_perm rest (i + 1))
end

theorem cons_injective (l : Link) : Function.Injective (fun p : List Link => l :: p) :=
  fun _ _ h => (List.cons.inj h).2

mutual
theorem positions_nodup : ∀ (t : TreeNode), (positions t).Nodup
  | .NULL => by simp [positions]
  | .node t child sibling => by
    simp only [positions]
    rw [List.nodup_cons]
    refine ⟨?_, ?_⟩
    · simp [nil_not_mem_positionsList]
    · rw [List.nodup_append]
      refine ⟨positionsList_nodup child 0,
        (positions_nodup sibling).map (cons_injective Link.sibling), ?_⟩
      intro p hp hq
      obtain ⟨q, _, rfl⟩ := List.mem_map.mp hq
      exact sibling_not_mem_positionsList q child 0 hp
theorem positionsList_nodup : ∀ (cs : List TreeNode) (i : Nat), (positionsList cs i).Nodup
  | [], i => by simp [positionsList]
  | c :: rest, i => by
    simp only [positionsList]
    rw [List.nodup_append]
    refine ⟨(positions_nodup c).map (cons_injective (Link.child i)),
      positionsList_nodup rest (i + 1), ?_⟩
    intro p hp hq
    obtain ⟨q, _, rfl⟩ := List.mem_map.mp hp
    have := (mem_positionsList i q rest (i + 1)).mp hq
    omega
end

/-! ### Paths: `follow` and `replaceAt` -/

theorem follow_nil (t : TreeNode) : follow t [] = t := by
  cases t <;> rfl

theorem replaceAt_nil (t x : TreeNode) : replaceAt t [] x = x := by
  cases t <;> rfl

theorem follow_NULL (p : List Link) : follow TreeNode.NULL p = TreeNode.NULL := by
  cases p <;> rfl

theorem follow_append (a b : List Link) : ∀ (t : TreeNode),
    follow t (a ++ b) = follow (follow t a) b := by
  induction a with
  | nil => intro t; rw [follow_nil]; rfl
  | cons l a ih =>
    intro t
    cases t with
    | NULL => simp [follow, follow_NULL]
    | node t child sibling =>
      cases l with
      | child i => exact ih _
      | sibling => exact ih _

theorem set_getD_self : ∀ (child : List TreeNode) (i : Nat),
    child.set i (child.getD i TreeNode.NULL) = child
  | [], _ => rfl
  | _ :: _, 0 => rfl
  | c :: rest, i + 1 => by
    have := set_getD_self rest i
    simp only [List.getD_eq_getElem?_getD, List.set_cons_succ, List.getElem?_cons_succ] at *
    rw [this]

theorem getD_set_self (x : TreeNode) : ∀ (child : List TreeNode) (i : Nat),
    i < child.length → (child.set i x).getD i TreeNode.NULL = x
  | [], _, h => by simp at h
  | _ :: _, 0, _ => rfl
  | c :: rest, i + 1, h => by
    have := getD_set_self x rest i (by simpa using h)
    simp only [List.getD_eq_getElem?_getD, List.set_cons_succ, List.getElem?_cons_succ] at *
    exact this

theorem getD_of_length_le (child : List TreeNode) (i : Nat) (h : child.length ≤ i) :
    child.getD i TreeNode.NULL = TreeNode.NULL := by
  simp [List.getElem?_eq_none h]

theorem replaceAt_follow (p : List Link) : ∀ (t : TreeNode),
    replaceAt t p (follow t p) = t := by
  induction p with
  | nil => intro t; rw [follow_nil, replaceAt_nil]
  | cons l p ih =>
    intro t
    cases t with
    | NULL => rfl
    | node t child sibling =>
      cases l with
      | child i => simp only [follow, replaceAt, ih, set_getD_self]
      | sibling => simp only [follow, replaceAt, ih]

theorem follow_replaceAt (p : List Link) (x : TreeNode) : ∀ (t : TreeNode),
    follow t p ≠ TreeNode.NULL → follow (replaceAt t p x) p = x := by
  induction p with
  | nil => intro t _; rw [replaceAt_nil, follow_nil]
  | cons l p ih =>
    intro t h
    cases t with
    | NULL => exact absurd rfl h
    | node t child sibling =>
      cases l with
      | child i =>
        simp only [follow] at h
        have hi : i < child.length := by
          by_contra hn
          rw [getD_of_length_le _ _ (by omega)] at h
          exact h (follow_NULL p)
        simp only [replaceAt, follow]
        rw [getD_set_self _ _ _ hi]
        exact ih _ h
      | sibling =>
        simp only [follow] at h
        simp only [replaceAt, follow]
        exact ih _ h

theorem replaceAt_replaceAt (p : List Link) (x y : TreeNode) : ∀ (t : TreeNode),
    replaceAt (replaceAt t p x) p y = replaceAt t p y := by
  induction p with
  | nil => intro t; simp only [replaceAt_nil]
  | cons l p ih =>
    intro t
    cases t with
    | NULL => rfl
    | node t child sibling =>
      cases l with
      | child i =>
        simp only [replaceAt]
        by_cases hi : i < child.length
        · rw [getD_set_self _ _ _ hi, List.set_set, ih]
        · have h1 : ∀ z, child.set i z = child := fun z =>
            List.set_eq_of_length_le (by omega)
          rw [h1, h1]
      | sibling => simp only [replaceAt, ih]

theorem replaceAt_append (a b : List Link) (x : TreeNode) : ∀ (t : TreeNode),
    replaceAt t (a ++ b) x = replaceAt t a (replaceAt (follow t a) b x) := by
  induction a with
  | nil => intro t; rw [follow_nil, replaceAt_nil]; rfl
  | cons l a ih =>
    intro t
    cases t with
    | NULL => rfl
    | node t child sibling =>
      cases l with
      | child i =>
        show TreeNode.node t (child.set i (replaceAt _ (a ++ b) x)) sibling = _
        rw [ih]
        rfl
      | sibling =>
        show TreeNode.node t child (replaceAt sibling (a ++ b) x) = _
        rw [ih]
        rfl

/-! ### `traverse` as a sequence of calls at positions -/

theorem runCalls_append {σ : Type} (p q : Proc σ) (l1 l2 : List Call) :
    ∀ (st : TreeNode × σ),
    runCalls p q (l1 ++ l2) st
      = match runCalls p q l1 st with
        | none => none
        | some st1 => runCalls p q l2 st1 := by
  induction l1 with
  | nil => intro st; rfl
  | cons c l1 ih =>
    intro st
    simp only [List.cons_append, runCalls]
    cases callAt p q c st with
    | none => rfl
    | some st1 => exact ih st1

theorem below_below (a b : List Link) (c : Call) :
    Call.below a (Call.below b c) = Call.below (a ++ b) c := by
  cases c <;> simp [Call.below]

theorem map_below_below (a b : List Link) (l : List Call) :
    (l.map (Call.below b)).map (Call.below a) = l.map (Call.below (a ++ b)) := by
  rw [List.map_map]
  congr 1
  funext c
  exact below_below a b c

theorem callAt_pre {σ : Type} (p q : Proc σ) (big : TreeNode) (front : List Link) (s : σ)
    (t : NodeData) (child : List TreeNode) (sibling : TreeNode)
    (h : follow big front = TreeNode.node t child sibling) :
    callAt p q (Call.pre front) (big, s)
      = match p t child sibling s with
        | none => none
        | some (t1, s1) => some (replaceAt big front (TreeNode.node t1 child sibling), s1) := by
  simp only [callAt, Call.pos, h]

theorem callAt_post {σ : Type} (p q : Proc σ) (big : TreeNode) (front : List Link) (s : σ)
    (t : NodeData) (child : List TreeNode) (sibling : TreeNode)
    (h : follow big front = TreeNode.node t child sibling) :
    callAt p q (Call.post front) (big, s)
      = match q t child sibling s with
        | none => none
        | some (t1, s1) => some (replaceAt big front (TreeNode.node t1 child sibling), s1) := by
  simp only [callAt, Call.pos, h]

theorem getD_append_length (done rest : List TreeNode) (c : TreeNode) :
    (done ++ c :: rest).getD done.length TreeNode.NULL = c := by
  induction done with
  | nil => rfl
  | cons d done ih => simpa using ih

theorem set_append_length (done rest : List TreeNode) (c c1 : TreeNode) :
    (done ++ c :: rest).set done.length c1 = done ++ c1 :: rest := by
  induction done with
  | nil => rfl
  | cons d done ih => simp [ih]

mutual
theorem runCalls_schedule {σ : Type} (p q : Proc σ) : ∀ (sub big : TreeNode)
    (front : List Link) (s : σ), follow big front = sub →
    runCalls p q ((schedule sub).map (Call.below front)) (big, s)
      = match traverse p q sub s with
        | none => none
        | some (r, s1) => some (replaceAt big front r, s1)
  | .NULL, big, front, s, h => by
    simp only [schedule, List.map_nil, runCalls, traverse]
    rw [← h, replaceAt_follow]
  | .node t child sibling, big, front, s, h => by
    simp only [schedule, List.map_cons, List.map_append, Call.below, List.append_nil,
      runCalls, traverse]
    rw [callAt_pre p q big front s t child sibling h]
    cases hp : p t child sibling s with
    | none => rfl
    | some a =>
      obtain ⟨t1, s1⟩ := a
      simp only
      have hne : follow big front ≠ TreeNode.NULL := by rw [h]; exact fun e => by cases e
      have hb1 : follow (replaceAt big front (TreeNode.node t1 child sibling)) front
          = TreeNode.node t1 ([] ++ child) sibling := follow_replaceAt _ _ _ hne
      rw [runCalls_append]
      have hl := runCalls_scheduleList p q child []
        (replaceAt big front (TreeNode.node t1 child sibling)) front t1 sibling s1 hb1
      simp only [List.length_nil, List.nil_append] at hl
      rw [hl]
      cases hc : traverseChildren p q child s1 with
      | none => rfl
      | some b =>
        obtain ⟨child1, s2⟩ := b
        simp only [runCalls]
        rw [replaceAt_replaceAt]
        have hb2 : follow (replaceAt big front (TreeNode.node t1 child1 sibling)) front
            = TreeNode.node t1 child1 sibling := follow_replaceAt _ _ _ hne
        rw [callAt_post p q _ front s2 t1 child1 sibling hb2]
        cases hq : q t1 child1 sibling s2 with
        | none => rfl
        | some c =>
          obtain ⟨t2, s3⟩ := c
          simp only
          rw [replaceAt_replaceAt, map_below_below]
          have hb3 : follow (replaceAt big front (TreeNode.node t2 child1 sibling)) front
              = TreeNode.node t2 child1 sibling := follow_replaceAt _ _ _ hne
          have hb4 : follow (replaceAt big front (TreeNode.node t2 child1 sibling))
              (front ++ [Link.sibling]) = sibling := by
            rw [follow_append, hb3]
            simp only [follow, follow_nil]
          rw [runCalls_schedule p q sibling _ (front ++ [Link.sibling]) s3 hb4]
          cases hs : traverse p q sibling s3 with
          | none => rfl
          | some d =>
            obtain ⟨sibling1, s4⟩ := d
            simp only
            rw [replaceAt_append, hb3]
            simp only [replaceAt, replaceAt_nil]
            rw [replaceAt_replaceAt]
theorem runCalls_scheduleList {σ : Type} (p q : Proc σ) : ∀ (cs done : List TreeNode)
    (big : TreeNode) (front : List Link) (t : NodeData) (sibling : TreeNode) (s : σ),
    follow big front = TreeNode.node t (done ++ cs) sibling →
    runCalls p q ((scheduleList cs done.length).map (Call.below front)) (big, s)
      = match traverseChildren p q cs s with
        | none => none
        | some (cs1, s1) =>
          some (replaceAt big front (TreeNode.node t (done ++ cs1) sibling), s1)
  | [], done, big, front, t, sibling, s, h => by
    simp only [scheduleList, List.map_nil, runCalls, traverseChildren]
    rw [← h, replaceAt_follow]
  | c :: rest, done, big, front, t, sibling, s, h => by
    simp only [scheduleList, List.map_append, traverseChildren]
    rw [runCalls_append, map_below_below]
    have hc0 : follow big (front ++ [Link.child done.length]) = c := by
      rw [follow_append, h]
      simp only [follow, follow_nil, getD_append_length]
    rw [runCalls_schedule p q c big (front ++ [Link.child done.length]) s hc0]
    cases hc : traverse p q c s with
    | none => rfl
    | some a =>
      obtain ⟨c1, s1⟩ := a
      simp only
      have hne : follow big front ≠ TreeNode.NULL := by rw [h]; exact fun e => by cases e
      have e1 : replaceAt big (front ++ [Link.child done.length]) c1
          = replaceAt big front (TreeNode.node t ((done ++ [c1]) ++ rest) sibling) := by
        rw [replaceAt_append, h]
        simp only [replaceAt, replaceAt_nil, set_append_length, List.append_assoc,
          List.singleton_append]
      rw [e1]
      have hb1 : follow (replaceAt big front
          (TreeNode.node t ((done ++ [c1]) ++ rest) sibling)) front
          = TreeNode.node t ((done ++ [c1]) ++ rest) sibling := follow_replaceAt _ _ _ hne
      have hl := runCalls_scheduleList p q rest (done ++ [c1]) _ front t sibling s1 hb1
      simp only [List.length_append, List.length_singleton] at hl
      rw [hl]
      cases hr : traverseChildren p q rest s1 with
      | none => rfl
      | some b =>
        obtain ⟨rest1, s2⟩ := b
        simp only
        rw [replaceAt_replaceAt]
        simp only [List.append_assoc, List.singleton_append]
end

theorem traverse_eq_runCalls {σ : Type} (p q : Proc σ) (t : TreeNode) (s : σ) :
    traverse p q t s = runCalls p q (schedule t) (t, s) := by
  have h := runCalls_schedule p q t t [] s (follow_nil t)
  have hm : (schedule t).map (Call.below []) = schedule t := by
    have : Call.below [] = id := by
      funext c
      cases c <;> rfl
    rw [this, List.map_id]
  rw [hm] at h
  rw [h]
  cases traverse p q t s with
  | none => rfl
  | some a =>
    obtain ⟨r, s1⟩ := a
    simp only [replaceAt_nil]

mutual
theorem map_visit_schedule : ∀ (sub big : TreeNode) (front : List Link),
    follow big front = sub →
    ((schedule sub).map (Call.below front)).map (Call.visit big) = events sub
  | .NULL, big, front, _ => by simp only [schedule, events, List.map_nil]
  | .node t child sibling, big, front, h => by
    simp only [schedule, events, List.map_cons, List.map_append, Call.below, Call.visit,
      List.append_nil, h]
    have hl := map_visit_scheduleList child [] big front t sibling h
    simp only [List.length_nil] at hl
    rw [hl, map_below_below,
      map_visit_schedule sibling big (front ++ [Link.sibling]) (by
        rw [follow_append, h]
        simp only [follow, follow_nil])]
theorem map_visit_scheduleList : ∀ (cs done : List TreeNode) (big : TreeNode)
    (front : List Link) (t : NodeData) (sibling : TreeNode),
    follow big front = TreeNode.node t (done ++ cs) sibling →
    ((scheduleList cs done.length).map (Call.below front)).map (Call.visit big)
      = eventsList cs
  | [], done, big, front, t, sibling, _ => by
    simp only [scheduleList, eventsList, List.map_nil]
  | c :: rest, done, big, front, t, sibling, h => by
    simp only [scheduleList, eventsList, List.map_append]
    rw [map_below_below,
      map_visit_schedule c big (front ++ [Link.child done.length]) (by
        rw [follow_append, h]
        simp only [follow, follow_nil, getD_append_length])]
    have hl := map_visit_scheduleList rest (done ++ [c]) big front t sibling (by
      rw [h]
      simp only [List.append_assoc, List.singleton_append])
    simp only [List.length_append, List.length_singleton] at hl
    rw [hl]
end

theorem map_visit_schedule_self (t : TreeNode) :
    (schedule t).map (Call.visit t) = visits t := by
  have h := map_visit_schedule t t [] (follow_nil t)
  have hm : (schedule t).map (Call.below []) = schedule t := by
    have : Call.below [] = id := by
      funext c
      cases c <;> rfl
    rw [this, List.map_id]
  rw [hm] at h
  rw [h, visits_eq_events]

theorem filterMap_pre_below (a : List Link) (l : List Call) :
    (l.map (Call.below a)).filterMap Call.pre?
      = (l.filterMap Call.pre?).map (fun p => a ++ p) := by
  induction l with
  | nil => rfl
  | cons c l ih => cases c <;> simp [Call.below, Call.pre?, ih]

theorem filterMap_post_below (a : List Link) (l : List Call) :
    (l.map (Call.below a)).filterMap Call.post?
      = (l.filterMap Call.post?).map (fun p => a ++ p) := by
  induction l with
  | nil => rfl
  | cons c l ih => cases c <;> simp [Call.below, Call.post?, ih]

mutual
theorem schedule_pre : ∀ (t : TreeNode), (schedule t).filterMap Call.pre? = positions t
  | .NULL => by simp only [schedule, positions, List.filterMap_nil]
  | .node t child sibling => by
    simp only [schedule, positions, List.filterMap_cons, Call.pre?, List.filterMap_append,
      filterMap_pre_below, schedule_pre sibling, scheduleList_pre child 0, List.singleton_append]
theorem scheduleList_pre : ∀ (cs : List TreeNode) (i : Nat),
    (scheduleList cs i).filterMap Call.pre? = positionsList cs i
  | [], i => by simp only [scheduleList, positionsList, List.filterMap_nil]
  | c :: rest, i => by
    simp only [scheduleList, positionsList, List.filterMap_append, filterMap_pre_below,
      schedule_pre c, scheduleList_pre rest (i + 1), List.singleton_append]
end

mutual
theorem schedule_post : ∀ (t : TreeNode), (schedule t).filterMap Call.post? = postPositions t
  | .NULL => by simp only [schedule, postPositions, List.filterMap_nil]
  | .node t child sibling => by
    simp only [schedule, postPositions, List.filterMap_cons, Call.post?,
      List.filterMap_append, filterMap_post_below, schedule_post sibling,
      scheduleList_post child 0, List.singleton_append]
theorem scheduleList_post : ∀ (cs : List TreeNode) (i : Nat),
    (scheduleList cs i).filterMap Call.post? = postPositionsList cs i
  | [], i => by simp only [scheduleList, postPositionsList, List.filterMap_nil]
  | c :: rest, i => by
    simp only [scheduleList, postPositionsList, List.filterMap_append, filterMap_post_below,
      schedule_post c, scheduleList_post rest (i + 1), List.singleton_append]
end

/-! ### Traversal order -/

/-- C10 (traversal order). `traverse` on `NULL` calls neither procedure and
changes nothing. For every tree and every pair of procedures, `traverse` is the
sequence of calls of `schedule` carried out one after the other, each on the
node at its path as that node is at that moment: at a node first the pre-visit
procedure on the node, then the calls for the children in slot order, then the
post-visit procedure on the node, then the calls for the sibling. For actions
that only change the globals the result is the tree itself and the globals
obtained by applying the actions along `visits`, the calls recorded when the
two procedures log themselves, which are the calls of `schedule` and have the
same nesting. The pre-visits are the preorder listing and the post-visits the
postorder listing (children, node, sibling), each with as many entries as the
tree has nodes. The paths pre-visited, `positions`, have no repetition and are
exactly the paths that lead from the root through child and sibling links to a
node, and the paths post-visited are a rearrangement of them, so each reachable
node is pre-visited exactly once and post-visited exactly once. -/
theorem traverse_order :
    (∀ (σ : Type) (p q : Proc σ) (s : σ),
        traverse p q TreeNode.NULL s = some (TreeNode.NULL, s))
    ∧ (∀ (σ : Type) (p q : Proc σ) (t : TreeNode) (s : σ),
        traverse p q t s = runCalls p q (schedule t) (t, s))
    ∧ (∀ (σ : Type) (f g : TreeNode → σ → σ) (t : TreeNode) (s : σ),
        traverse (act f) (act g) t s = some (t, (visits t).foldl (Visit.run f g) s))
    ∧ visits TreeNode.NULL = []
    ∧ (∀ (t : NodeData) (child : List TreeNode) (sibling : TreeNode),
        visits (TreeNode.node t child sibling)
          = Visit.pre (TreeNode.node t child sibling) ::
              (child.flatMap visits ++
                Visit.post (TreeNode.node t child sibling) :: visits sibling))
    ∧ (∀ t : TreeNode, (schedule t).map (Call.visit t) = visits t
        ∧ (schedule t).filterMap Call.pre? = positions t
        ∧ (schedule t).filterMap Call.post? = postPositions t)
    ∧ (∀ t : TreeNode, (visits t).filterMap Visit.pre? = preorder t
        ∧ (visits t).filterMap Visit.post? = postorder t
        ∧ (preorder t).length = size t ∧ (postorder t).length = size t)
    ∧ (∀ t : TreeNode, preorder t = (positions t).map (follow t)
        ∧ postorder t = (postPositions t).map (follow t)
        ∧ (positions t).Nodup
        ∧ (postPositions t).Perm (positions t)
        ∧ ∀ p : List Link, p ∈ positions t ↔ follow t p ≠ TreeNode.NULL) := by
  have hv : visits = events := funext visits_eq_events
  refine ⟨?_, ?_, ?_, ?_, ?_, ?_, ?_, ?_⟩
  · intro σ p q s
    simp only [traverse]
  · intro σ p q t s
    exact traverse_eq_runCalls p q t s
  · intro σ f g t s
    rw [hv]
    exact traverse_act f g t s
  · rw [hv]
    simp only [events]
  · intro t child sibling
    rw [hv]
    simp only [events, eventsList_eq_flatMap]
  · intro t
    exact ⟨map_visit_schedule_self t, schedule_pre t, schedule_post t⟩
  · intro t
    rw [hv]
    exact ⟨events_pre t, events_post t, length_preorder t, length_postorder t⟩
  · intro t
    exact ⟨(map_follow_positions t).symm, (map_follow_postPositions t).symm,
      positions_nodup t, postPositions_perm t, fun p => mem_positions_iff p t⟩

/-! ### Line numbers of the type errors -/

theorem checkNode_stmt_out (t : NodeData) (child : List TreeNode) (sibling : TreeNode)
    (s : State) (t1 : NodeData) (s1 : State) (hk : t.nodekind = NodeKind.StmtK)
    (h : checkNode t child sibling s = some (t1, s1)) :
    ∃ out, s1.listing = s.listing ++ out ∧ out.length ≤ 1
      ∧ ((t.kind.stmt = StmtKind.IfK ∨ t.kind.stmt = StmtKind.AssignK
            ∨ t.kind.stmt = StmtKind.WriteK) →
          ∃ c, childAt child 0 = some c ∧ ∀ o ∈ out, ∃ msg, o = Output.typeError c.lineno msg)
      ∧ (t.kind.stmt = StmtKind.RepeatK →
          ∃ c, childAt child 1 = some c ∧ ∀ o ∈ out, ∃ msg, o = Output.typeError c.lineno msg)
      ∧ (t.kind.stmt = StmtKind.ReadK →
          ∀ o ∈ out, ∃ msg, o = Output.typeError t.lineno msg) := by
  simp only [checkNode, hk] at h
  cases hs : t.kind.stmt <;> simp only [hs] at h
  · -- IfK
    cases hc : childAt child 0 with
    | none => simp [hc] at h
    | some c =>
      simp only [hc] at h
      split_ifs at h <;> simp only [Option.some.injEq, Prod.mk.injEq] at h <;>
        obtain ⟨_, h2⟩ := h <;> subst h2
      · exact ⟨[_], rfl, by simp, fun _ => ⟨c, rfl, by simp⟩, by simp, by simp⟩
      · exact ⟨[], by simp, by simp, fun _ => ⟨c, rfl, by simp⟩, by simp, by simp⟩
  · -- RepeatK
    cases hc : childAt child 1 with
    | none => simp [hc] at h
    | some c =>
      simp only [hc] at h
      split_ifs at h <;> simp only [Option.some.injEq, Prod.mk.injEq] at h <;>
        obtain ⟨_, h2⟩ := h <;> subst h2
      · exact ⟨[_], rfl, by simp, by simp, fun _ => ⟨c, rfl, by simp⟩, by simp⟩
      · exact ⟨[], by simp, by simp, by simp, fun _ => ⟨c, rfl, by simp⟩, by simp⟩
  · -- AssignK
    cases hc : childAt child 0 with
    | none => simp [hc] at h
    | some c =>
      simp only [hc] at h
      split_ifs at h <;> simp only [Option.some.injEq, Prod.mk.injEq] at h <;>
        obtain ⟨_, h2⟩ := h <;> subst h2
      · exact ⟨[_], rfl, by simp, fun _ => ⟨c, rfl, by simp⟩, by simp, by simp⟩
      · exact ⟨[], by simp, by simp, fun _ => ⟨c, rfl, by simp⟩, by simp, by simp⟩
  · -- ReadK
    split_ifs at h <;> simp only [Option.some.injEq, Prod.mk.injEq] at h <;>
      obtain ⟨_, h2⟩ := h <;> subst h2
    · exact ⟨[_], rfl, by simp, by simp, by simp, fun _ => by simp⟩
    · exact ⟨[], by simp, by simp, by simp, by simp, fun _ => by simp⟩
  · -- WriteK
    cases hc : childAt child 0 with
    | none => simp [hc] at h
    | some c =>
      simp only [hc] at h
      split_ifs at h <;> simp only [Option.some.injEq, Prod.mk.injEq] at h <;>
        obtain ⟨_, h2⟩ := h <;> subst h2
      · exact ⟨[_], rfl, by simp, fun _ => ⟨c, rfl, by simp⟩, by simp, by simp⟩
      · exact ⟨[], by simp, by simp, fun _ => ⟨c, rfl, by simp⟩, by simp, by simp⟩

/-- C19 (statement errors cite the expression). For a statement node whose
children read by `checkNode` are present, `checkNode` returns and writes at most
one line; a line written for an `if`, an assignment or a write carries the line
number of the expression node `child[0]`, one written for a `repeat` carries the
line number of the condition node `child[1]`, and one written for a read
carries the line number of the read node itself. -/
theorem checkNode_stmt_error_line (t : NodeData) (child : List TreeNode)
    (sibling : TreeNode) (s : State) (hk : t.nodekind = NodeKind.StmtK)
    (hc : childrenPresent t child = true) :
    ∃ t1 s1 out, checkNode t child sibling s = some (t1, s1)
      ∧ s1.listing = s.listing ++ out ∧ out.length ≤ 1
      ∧ ((t.kind.stmt = StmtKind.IfK ∨ t.kind.stmt = StmtKind.AssignK
            ∨ t.kind.stmt = StmtKind.WriteK) →
          ∃ c, childAt child 0 = some c ∧ ∀ o ∈ out, ∃ msg, o = Output.typeError c.lineno msg)
      ∧ (t.kind.stmt = StmtKind.RepeatK →
          ∃ c, childAt child 1 = some c ∧ ∀ o ∈ out, ∃ msg, o = Output.typeError c.lineno msg)
      ∧ (t.kind.stmt = StmtKind.ReadK →
          ∀ o ∈ out, ∃ msg, o = Output.typeError t.lineno msg) := by
  obtain ⟨⟨t1, s1⟩, h⟩ := checkNode_total t child sibling s hc
  obtain ⟨out, h1, h2, h3, h4, h5⟩ := checkNode_stmt_out t child sibling s t1 s1 hk h
  exact ⟨t1, s1, out, h, h1, h2, h3, h4, h5⟩

/-- Witness for C19: an `if` at line 8 whose test, at line 9, is an `Integer`
constant; the line written cites line 9. -/
theorem checkNode_stmt_error_line_witness :
    ∃ t1 s1, checkNode (sampleStmt 8 StmtKind.IfK "")
          [leaf (sampleConst 9 1 ExpType.Integer), TreeNode.NULL, TreeNode.NULL]
          TreeNode.NULL (State.initial false) = some (t1, s1)
      ∧ s1.listing = [Output.typeError 9 "if test is not Boolean"]
      ∧ ∀ o ∈ s1.listing, ∃ msg, o = Output.typeError 9 msg := by
  obtain ⟨t1, s1, out, h, h1, _, h3, _, _⟩ :=
    checkNode_stmt_error_line (sampleStmt 8 StmtKind.IfK "")
      [leaf (sampleConst 9 1 ExpType.Integer), TreeNode.NULL, TreeNode.NULL]
      TreeNode.NULL (State.initial false) rfl rfl
  have e : checkNode (sampleStmt 8 StmtKind.IfK "")
      [leaf (sampleConst 9 1 ExpType.Integer), TreeNode.NULL, TreeNode.NULL]
      TreeNode.NULL (State.initial false)
      = some (sampleStmt 8 StmtKind.IfK "",
          typeError (sampleConst 9 1 ExpType.Integer) "if test is not Boolean"
            (State.initial false)) := by
    simp [checkNode, sampleStmt, sampleConst, childAt, leaf, TreeNode.deref]
  rw [e] at h
  simp only [Option.some.injEq, Prod.mk.injEq] at h
  obtain ⟨_, h2⟩ := h
  subst h2
  refine ⟨_, _, e, rfl, ?_⟩
  intro o ho
  simp only [typeError, State.initial, sampleConst, List.nil_append, List.mem_singleton]
    at ho
  exact ⟨_, ho⟩

/-- C17 as amended (operator errors cite the operator). For an operator
expression node whose operands `child[0]` and `child[1]` are nodes, `checkNode`
returns and writes at most one line, and a line it writes carries the line
number of the operator node itself. -/
theorem checkNode_op_error_line (t : NodeData) (child : List TreeNode) (sibling : TreeNode)
    (s : State) (c0 c1 : NodeData)
    (hk : t.nodekind = NodeKind.ExpK) (he : t.kind.exp = ExpKind.OpK)
    (h0 : childAt child 0 = some c0) (h1 : childAt child 1 = some c1) :
    ∃ t1 s1 out, checkNode t child sibling s = some (t1, s1)
      ∧ s1.listing = s.listing ++ out ∧ out.length ≤ 1
      ∧ (out = [] ↔ c0.type = c1.type ∧ (c0.type = ExpType.Integer ∨ c0.type = ExpType.Char))
      ∧ ∀ o ∈ out, ∃ msg, o = Output.typeError t.lineno msg := by
  refine ⟨_, _,
    (if c0.type ≠ c1.type then [Output.typeError t.lineno "Op applied to different data type"]
     else if c0.type ≠ ExpType.Integer ∧ c0.type ≠ ExpType.Char then
       [Output.typeError t.lineno "Op applied to invalid type"]
     else []),
    checkNode_op t child sibling s c0 c1 hk he h0 h1, ?_, ?_, ?_, ?_⟩
  · split_ifs <;> simp [typeError]
  · split_ifs <;> simp
  · by_cases hne : c0.type = c1.type
    · by_cases hv : c0.type = ExpType.Integer ∨ c0.type = ExpType.Char
      · rw [if_neg (not_not.mpr hne), if_neg (by rcases hv with hv | hv <;> simp [hv])]
        exact ⟨fun _ => ⟨hne, hv⟩, fun _ => rfl⟩
      · have hv1 : c0.type ≠ ExpType.Integer ∧ c0.type ≠ ExpType.Char :=
          ⟨fun h => hv (Or.inl h), fun h => hv (Or.inr h)⟩
        rw [if_neg (not_not.mpr hne), if_pos hv1]
        simp only [List.cons_ne_nil, false_iff, not_and]
        exact fun _ => hv
    · rw [if_pos hne]
      simp only [List.cons_ne_nil, false_iff, not_and]
      exact fun h => absurd h hne
  · intro o ho
    split_ifs at ho <;> simp at ho <;> exact ⟨_, ho⟩

/-- Witness for C17 as amended: `Integer + Boolean` with the operator at line
4 and the operands at lines 5 and 6 is reported at line 4. -/
theorem checkNode_op_error_line_witness :
    ∃ t1 s1 out, checkNode (sampleOp 4 TokenType.PLUS)
          [leaf (sampleConst 5 1 ExpType.Integer), leaf (sampleConst 6 0 ExpType.Boolean)]
          TreeNode.NULL (State.initial false) = some (t1, s1)
      ∧ s1.listing = (State.initial false).listing ++ out
      ∧ ∀ o ∈ out, ∃ msg, o = Output.typeError 4 msg := by
  obtain ⟨t1, s1, out, h, h1, _, _, h4⟩ := checkNode_op_error_line (sampleOp 4 TokenType.PLUS)
    [leaf (sampleConst 5 1 ExpType.Integer), leaf (sampleConst 6 0 ExpType.Boolean)]
    TreeNode.NULL (State.initial false) _ _ rfl rfl rfl rfl
  exact ⟨t1, s1, out, h, h1, h4⟩

/-- Counterexample to C17: for `Integer + Boolean` with the operator at line 4
and the operands at lines 5 and 6, the one line written cites line 4, the line
of the operator, and no line written cites line 5 or line 6. -/
theorem checkNode_op_error_line_counterexample :
    ∃ t1 s1, checkNode (sampleOp 4 TokenType.PLUS)
          [leaf (sampleConst 5 1 ExpType.Integer), leaf (sampleConst 6 0 ExpType.Boolean)]
          TreeNode.NULL (State.initial false) = some (t1, s1)
      ∧ s1.listing = [Output.typeError 4 "Op applied to different data type"]
      ∧ ¬ ∃ msg, Output.typeError 5 msg ∈ s1.listing ∨ Output.typeError 6 msg ∈ s1.listing := by
  refine ⟨_, _, checkNode_op (sampleOp 4 TokenType.PLUS)
    [leaf (sampleConst 5 1 ExpType.Integer), leaf (sampleConst 6 0 ExpType.Boolean)]
    TreeNode.NULL (State.initial false) _ _ rfl rfl rfl rfl, ?_, ?_⟩
  · simp [sampleConst, sampleOp, typeError, State.initial]
  · simp [sampleConst, sampleOp, typeError, State.initial]

/-! ### The end-to-end scenario -/

/-- C11 as amended (end-to-end scenario). On the program `declare x: Integer;
declare x: Integer; y := x + 1; write y;`, from the initial state, `buildSymtab`
writes three error lines, the redefinition of `x`, `y` not defined at the
assignment and `y` not defined at the identifier of the write; `typeCheck` then
adds "assignment of different type" and "write of non-integer and non-char
type", the undeclared `y` having type `Void`; and `Error` is true at the end. -/
theorem scenario_diagnostics (tr : Bool) :
    ∃ s1 t2 s2, buildSymtab scenario (State.initial tr) = some (scenario, s1)
      ∧ typeCheck scenario s1 = some (t2, s2)
      ∧ diagnostics s1.listing
          = [Output.symbolError 2 "x" "redefined", Output.symbolError 3 "y" "not defined",
             Output.symbolError 4 "y" "not defined"]
      ∧ diagnostics s2.listing
          = [Output.symbolError 2 "x" "redefined", Output.symbolError 3 "y" "not defined",
             Output.symbolError 4 "y" "not defined",
             Output.typeError 3 "assignment of different type",
             Output.typeError 4 "write of non-integer and non-char type"]
      ∧ s2.Error = true := by
  cases tr <;> exact ⟨_, _, _, rfl, rfl, rfl, rfl, rfl⟩

/-- Counterexample to C11: on that program the error lines after both passes
are not the two-element sequence redefinition of `x`, `y` not defined; already
`buildSymtab` alone writes a third line. -/
theorem scenario_diagnostics_counterexample :
    ∃ t1 s1 t2 s2, buildSymtab scenario (State.initial false) = some (t1, s1)
      ∧ typeCheck t1 s1 = some (t2, s2)
      ∧ diagnostics s1.listing
          ≠ [Output.symbolError 2 "x" "redefined", Output.symbolError 3 "y" "not defined"]
      ∧ diagnostics s2.listing
          ≠ [Output.symbolError 2 "x" "redefined", Output.symbolError 3 "y" "not defined"]
      ∧ (diagnostics s2.listing).length = 5 := by
  refine ⟨_, _, _, _, rfl, rfl, ?_, ?_, rfl⟩
  · decide
  · decide

/-! ### The counter `location` across runs -/

theorem traceSymtab_symtab (s : State) :
    (traceSymtab s).symtab = s.symtab ∧ (traceSymtab s).location = s.location
      ∧ (traceSymtab s).Error = s.Error
      ∧ (traceSymtab s).TraceAnalyze = s.TraceAnalyze := by
  unfold traceSymtab
  split_ifs <;> exact ⟨rfl, rfl, rfl, rfl⟩

theorem buildSymtab_key_from (t : TreeNode) (s : State) (h : s.symtab = []) :
    ∃ s1, buildSymtab t s = some (t, s1)
      ∧ s1.location = s.location + (successfulDecls (nodes t)).length
      ∧ s1.symtab.map Entry.key
          = ((successfulDecls (nodes t)).enumFrom s.location).map
              (fun p => (p.2.attr.name, p.2.type, p.1)) := by
  obtain ⟨hkey, hloc⟩ := foldl_insertStep_key (nodes t) s [] (by intro x; simp [h])
  refine ⟨_, buildSymtab_eq t _, ?_, ?_⟩
  · rw [(traceSymtab_symtab _).2.1, hloc]
    rfl
  · rw [(traceSymtab_symtab _).1, hkey, h]
    rfl

/-- C15 as amended (the counter is not reset). `location` is a variable of the
whole program that `buildSymtab` never resets. Take a tree with `N` successful
declarations and a start with an empty symbol table and `location = c`, where
`c + 2 * N` is at most `INT_MAX`, so that the `int` counter can count two runs.
A run of `buildSymtab` returns, gives the `k`-th successful declaration
(from 0) the slot `c + k`, and ends with `location = c + N`. Hence a second run
on the same tree, again from an empty table, gives every name its slot of the
first run plus `N` and ends with `location = c + 2 * N`. No `location++` of
the two runs overflowed: every slot handed out is below `INT_MAX`. -/
theorem location_not_reset (t : TreeNode) (s : State) (h : s.symtab = [])
    (hN : s.location + 2 * (successfulDecls (nodes t)).length ≤ INT_MAX) :
    ∃ s1, buildSymtab t s = some (t, s1)
      ∧ s1.location = s.location + (successfulDecls (nodes t)).length
      ∧ s1.symtab.map Entry.key
          = ((successfulDecls (nodes t)).enumFrom s.location).map
              (fun p => (p.2.attr.name, p.2.type, p.1))
      ∧ (∀ (k : Nat) (hk : k < (successfulDecls (nodes t)).length),
          st_lookup ((successfulDecls (nodes t))[k]).attr.name s1.symtab
            = ((s.location + k : Nat) : Int))
      ∧ (∀ e ∈ s1.symtab, e.memloc < INT_MAX)
      ∧ ∃ s2, buildSymtab t { s1 with symtab := [] } = some (t, s2)
          ∧ s2.location = s.location + 2 * (successfulDecls (nodes t)).length
          ∧ (∀ (k : Nat) (hk : k < (successfulDecls (nodes t)).length),
              st_lookup ((successfulDecls (nodes t))[k]).attr.name s2.symtab
                = ((s.location + (successfulDecls (nodes t)).length + k : Nat) : Int))
          ∧ (∀ e ∈ s2.symtab, e.memloc < INT_MAX)
          ∧ s2.location ≤ INT_MAX := by
  have key : ∀ (s : State), s.symtab = [] →
      ∃ s1, buildSymtab t s = some (t, s1)
        ∧ s1.location = s.location + (successfulDecls (nodes t)).length
        ∧ s1.symtab.map Entry.key
            = ((successfulDecls (nodes t)).enumFrom s.location).map
                (fun p => (p.2.attr.name, p.2.type, p.1))
        ∧ (∀ (k : Nat) (hk : k < (successfulDecls (nodes t)).length),
            st_lookup ((successfulDecls (nodes t))[k]).attr.name s1.symtab
              = ((s.location + k : Nat) : Int))
        ∧ ∀ e ∈ s1.symtab, e.memloc < s.location + (successfulDecls (nodes t)).length := by
    intro s h
    obtain ⟨s1, hb, hloc, hkey⟩ := buildSymtab_key_from t s h
    refine ⟨s1, hb, hloc, hkey, ?_, ?_⟩
    rotate_left
    · intro e he
      have h1 : e.key ∈ s1.symtab.map Entry.key := List.mem_map.mpr ⟨e, he, rfl⟩
      rw [hkey] at h1
      obtain ⟨p, hp, hpe⟩ := List.mem_map.mp h1
      have h2 := List.fst_lt_add_of_mem_enumFrom hp
      have h3 : e.memloc = p.1 := by
        have := congrArg (fun q : String × ExpType × Nat => q.2.2) hpe
        exact this.symm
      rw [h3]
      exact h2
    intro k hk
    have hlen : s1.symtab.length = (successfulDecls (nodes t)).length := by
      have := congrArg List.length hkey
      simpa using this
    have hk1 : k < s1.symtab.length := by omega
    have hnames : s1.symtab.map Entry.name
        = (successfulDecls (nodes t)).map (fun d => d.attr.name) := by
      rw [map_name_eq_map_key, hkey, List.map_map]
      have : (Prod.fst ∘ fun (p : Nat × NodeData) => (p.2.attr.name, p.2.type, p.1))
          = (fun d : NodeData => d.attr.name) ∘ Prod.snd := rfl
      rw [this, ← List.map_map, List.enumFrom_map_snd]
    have hnodup : (s1.symtab.map Entry.name).Nodup := by
      rw [hnames]
      exact (successfulFrom_nodup (nodes t) []).1
    have hget : (s1.symtab[k]).key
        = (((successfulDecls (nodes t))[k]).attr.name,
            ((successfulDecls (nodes t))[k]).type, s.location + k) := by
      have h1 := List.getElem_of_eq hkey (by simpa using hk1)
      simpa using h1
    have h2 := st_lookup_getElem s1.symtab k hk1 hnodup
    simp only [Entry.key, Prod.mk.injEq] at hget
    rw [← hget.1, h2, hget.2.2]
  obtain ⟨s1, hb, hloc, hkey, hlook, hslot⟩ := key s h
  refine ⟨s1, hb, hloc, hkey, hlook, ?_, ?_⟩
  · intro e he
    have := hslot e he
    omega
  obtain ⟨s2, hb2, hloc2, _, hlook2, hslot2⟩ := key { s1 with symtab := [] } rfl
  have hl : ({ s1 with symtab := [] } : State).location = s1.location := rfl
  refine ⟨s2, hb2, ?_, ?_, ?_, ?_⟩
  · rw [hloc2, hl, hloc]
    omega
  · intro k hk
    rw [hlook2 k hk, hl, hloc]
  · intro e he
    have := hslot2 e he
    rw [hl, hloc] at this
    omega
  · rw [hloc2, hl, hloc]
    omega

/-- Witness for C15 as amended: two runs on the single declaration of `x`; the
first run gives `x` slot 0, the second, from an empty table, slot 1. -/
theorem location_not_reset_witness :
    (State.initial false).location
        + 2 * (successfulDecls (nodes (leaf (sampleDecl 1 "x" ExpType.Integer)))).length
        ≤ INT_MAX
      ∧ ∃ s1 s2, buildSymtab (leaf (sampleDecl 1 "x" ExpType.Integer)) (State.initial false)
          = some (leaf (sampleDecl 1 "x" ExpType.Integer), s1)
        ∧ buildSymtab (leaf (sampleDecl 1 "x" ExpType.Integer)) { s1 with symtab := [] }
          = some (leaf (sampleDecl 1 "x" ExpType.Integer), s2)
        ∧ s1.location = 1 ∧ s2.location = 2 := by
  have hN : (State.initial false).location
      + 2 * (successfulDecls (nodes (leaf (sampleDecl 1 "x" ExpType.Integer)))).length
      ≤ INT_MAX := by decide
  obtain ⟨s1, h1, h2, _, _, _, s2, h5, h6, _⟩ :=
    location_not_reset (leaf (sampleDecl 1 "x" ExpType.Integer)) (State.initial false) rfl hN
  exact ⟨hN, s1, s2, h1, h5, h2, h6⟩

/-- Counterexample to C15: of two successive runs of `buildSymtab` on the single
declaration of `x`, each from an empty symbol table, the first gives `x` slot 0
and the second gives it slot 1, not 0 again. -/
theorem location_not_reset_counterexample :
    ∃ s1 s2, buildSymtab (leaf (sampleDecl 1 "x" ExpType.Integer)) (State.initial false)
        = some (leaf (sampleDecl 1 "x" ExpType.Integer), s1)
      ∧ buildSymtab (leaf (sampleDecl 1 "x" ExpType.Integer)) { s1 with symtab := [] }
        = some (leaf (sampleDecl 1 "x" ExpType.Integer), s2)
      ∧ st_lookup "x" s1.symtab = 0 ∧ st_lookup "x" s2.symtab = 1
      ∧ st_lookup "x" s2.symtab ≠ 0 := by
  refine ⟨_, _, rfl, rfl, rfl, rfl, ?_⟩
  decide

/-! ### No access through a missing child -/

theorem runCalls_prefix {σ : Type} (p q : Proc σ) (l1 l2 : List Call) (st st2 : TreeNode × σ)
    (h : runCalls p q (l1 ++ l2) st = some st2) :
    ∃ st1, runCalls p q l1 st = some st1 ∧ runCalls p q l2 st1 = some st2 := by
  rw [runCalls_append] at h
  cases h1 : runCalls p q l1 st with
  | none => rw [h1] at h; cases h
  | some st1 =>
    rw [h1] at h
    exact ⟨st1, rfl, h⟩

/-- C20 (no access through a missing child). On a tree in which every operator
node has `child[0]` and `child[1]`, every `if`, assignment and write node has
`child[0]` and every `repeat` node has `child[1]`, `typeCheck` returns from any
globals: no call of `checkNode` ends in the `none` branch of a missing child.
The pass is the sequence of calls of `schedule`; each of them is carried out on
a node that is there and returns; and the calls of `checkNode` go through the
paths of `postPositions`, a rearrangement of the paths of all the nodes of the
tree, so `checkNode` has been applied to every node. -/
theorem typeCheck_no_missing_child (t : TreeNode) (s : State)
    (h : wellFormed t = true) :
    ∃ t2 s2, typeCheck t s = some (t2, s2)
      ∧ runCalls nullProc checkNode (schedule t) (t, s) = some (t2, s2)
      ∧ (∀ (l1 l2 : List Call) (c : Call), schedule t = l1 ++ c :: l2 →
          ∃ st st1, runCalls nullProc checkNode l1 (t, s) = some st
            ∧ follow st.1 c.pos ≠ TreeNode.NULL
            ∧ callAt nullProc checkNode c st = some st1)
      ∧ (schedule t).filterMap Call.post? = postPositions t
      ∧ (postPositions t).Perm (positions t)
      ∧ ∀ p : List Link, p ∈ positions t ↔ follow t p ≠ TreeNode.NULL := by
  obtain ⟨⟨t2, s2⟩, ht⟩ := typeCheck_total t s h
  have hr : runCalls nullProc checkNode (schedule t) (t, s) = some (t2, s2) := by
    rw [← traverse_eq_runCalls]
    exact ht
  refine ⟨t2, s2, ht, hr, ?_, schedule_post t, postPositions_perm t,
    fun p => mem_positions_iff p t⟩
  intro l1 l2 c hs
  rw [hs] at hr
  obtain ⟨st, h1, h2⟩ := runCalls_prefix _ _ l1 (c :: l2) _ _ hr
  simp only [runCalls] at h2
  cases hc : callAt nullProc checkNode c st with
  | none => rw [hc] at h2; cases h2
  | some st1 =>
    refine ⟨st, st1, h1, ?_, hc⟩
    intro hn
    have hc1 := hc
    simp only [callAt, hn] at hc1
    cases hc1

/-- Witness for C20: the four-statement program of the scenario has all the
children that `checkNode` reads, and `typeCheck` returns on it. -/
theorem typeCheck_no_missing_child_witness :
    wellFormed scenario = true
      ∧ ∃ t2 s2, typeCheck scenario (State.initial false) = some (t2, s2) := by
  refine ⟨rfl, ?_⟩
  obtain ⟨t2, s2, h, _⟩ := typeCheck_no_missing_child scenario (State.initial false) rfl
  exact ⟨t2, s2, h⟩

/-! ### Use before declaration -/

theorem mem_successfulFrom_names (x : String) (l : List NodeData) :
    x ∈ (successfulFrom [] l).map (fun d => d.attr.name)
      ↔ ∃ e ∈ l, e.nodekind = NodeKind.DeclK ∧ e.attr.name = x := by
  have hf := successfulFrom_find x l [] (by simp)
  constructor
  · intro hx
    obtain ⟨d, hd, hn⟩ := List.mem_map.mp hx
    cases h : l.find? (fun d => decide (d.nodekind = NodeKind.DeclK ∧ d.attr.name = x)) with
    | none =>
      rw [h] at hf
      have := List.find?_eq_none.mp hf d hd
      simp [hn] at this
    | some e =>
      have hp := List.find?_some h
      have hm := List.mem_of_find?_eq_some h
      simp only [decide_eq_true_eq] at hp
      exact ⟨e, hm, hp⟩
  · rintro ⟨e, he, hk, hn⟩
    cases h : (successfulFrom [] l).find? (fun d => decide (d.attr.name = x)) with
    | none =>
      rw [h] at hf
      have := List.find?_eq_none.mp hf.symm e he
      simp [hk, hn] at this
    | some d =>
      have hp := List.find?_some h
      have hm := List.mem_of_find?_eq_some h
      simp only [decide_eq_true_eq] at hp
      exact List.mem_map.mpr ⟨d, hm, hp⟩

theorem foldl_insertStep_names (l : List NodeData) (s : State) (h : s.symtab = [])
    (x : String) :
    x ∈ (l.foldl (fun s d => insertStep d s) s).symtab.map Entry.name
      ↔ ∃ e ∈ l, e.nodekind = NodeKind.DeclK ∧ e.attr.name = x := by
  obtain ⟨hkey, _⟩ := foldl_insertStep_key l s [] (by intro x; simp [h])
  rw [map_name_eq_map_key, hkey, h]
  simp only [List.map_nil, List.nil_append, List.map_map]
  have : (Prod.fst ∘ fun (p : Nat × NodeData) => (p.2.attr.name, p.2.type, p.1))
      = (fun d : NodeData => d.attr.name) ∘ Prod.snd := rfl
  rw [this, ← List.map_map, List.enumFrom_map_snd]
  exact mem_successfulFrom_names x l

theorem insertStep_cases (d : NodeData) (s : State) :
    insertStep d s = s ∨ (∃ m, insertStep d s = symbolError d m s)
      ∨ ∃ tab loc, insertStep d s = { s with symtab := tab, location := loc } := by
  unfold insertStep
  simp only [insertNode]
  cases d.nodekind
  · cases d.kind.stmt
    · exact Or.inl rfl
    · exact Or.inl rfl
    · simp only; split_ifs
      · exact Or.inr (Or.inl ⟨_, rfl⟩)
      · exact Or.inr (Or.inr ⟨_, _, rfl⟩)
    · simp only; split_ifs
      · exact Or.inr (Or.inl ⟨_, rfl⟩)
      · exact Or.inr (Or.inr ⟨_, _, rfl⟩)
    · exact Or.inl rfl
  · cases d.kind.exp
    · exact Or.inl rfl
    · exact Or.inl rfl
    · simp only; split_ifs
      · exact Or.inr (Or.inl ⟨_, rfl⟩)
      · exact Or.inr (Or.inr ⟨_, _, rfl⟩)
  · simp only; split_ifs
    · exact Or.inr (Or.inl ⟨_, rfl⟩)
    · exact Or.inr (Or.inr ⟨_, _, rfl⟩)

theorem insertStep_listing (d : NodeData) (s : State) :
    ∃ out, (insertStep d s).listing = s.listing ++ out
      ∧ (insertStep d s).TraceAnalyze = s.TraceAnalyze
      ∧ ((insertStep d s).Error = true ↔ s.Error = true ∨ diagnostics out ≠ []) := by
  rcases insertStep_cases d s with h | ⟨m, h⟩ | ⟨tab, loc, h⟩
  · rw [h]
    exact ⟨[], by simp, rfl, by simp [diagnostics]⟩
  · rw [h]
    exact ⟨[_], rfl, rfl, by simp [diagnostics, symbolError]⟩
  · rw [h]
    exact ⟨[], by simp, rfl, by simp [diagnostics]⟩

theorem foldl_insertStep_listing (l : List NodeData) : ∀ (s : State),
    ∃ out, (l.foldl (fun s d => insertStep d s) s).listing = s.listing ++ out
      ∧ (l.foldl (fun s d => insertStep d s) s).TraceAnalyze = s.TraceAnalyze
      ∧ ((l.foldl (fun s d => insertStep d s) s).Error = true
          ↔ s.Error = true ∨ diagnostics out ≠ []) := by
  induction l with
  | nil => intro s; exact ⟨[], by simp, rfl, by simp [diagnostics]⟩
  | cons d rest ih =>
    intro s
    obtain ⟨o1, h1, h2, h3⟩ := insertStep_listing d s
    obtain ⟨o2, h4, h5, h6⟩ := ih (insertStep d s)
    refine ⟨o1 ++ o2, ?_, ?_, ?_⟩
    · simp only [List.foldl_cons, h4, h1, List.append_assoc]
    · simp only [List.foldl_cons, h5, h2]
    · simp only [List.foldl_cons, h6, h3, diagnostics, List.filter_append, ne_eq,
        List.append_eq_nil, not_and_or] at *
      tauto

theorem traceSymtab_listing (s : State) :
    ∃ out, (traceSymtab s).listing = s.listing ++ out ∧ diagnostics out = [] := by
  unfold traceSymtab
  split_ifs
  · exact ⟨[_, _], rfl, rfl⟩
  · exact ⟨[], by simp, rfl⟩

theorem insertStep_use (d : NodeData) (sb : State)
    (huse : (d.nodekind = NodeKind.StmtK ∧
              (d.kind.stmt = StmtKind.AssignK ∨ d.kind.stmt = StmtKind.ReadK))
            ∨ (d.nodekind = NodeKind.ExpK ∧ d.kind.exp = ExpKind.IdK)) :
    (d.attr.name ∉ sb.symtab.map Entry.name →
        (insertStep d sb).listing
          = sb.listing ++ [Output.symbolError d.lineno d.attr.name "not defined"])
      ∧ (d.attr.name ∈ sb.symtab.map Entry.name →
        (insertStep d sb).listing = sb.listing) := by
  constructor
  · intro hno
    have hl : st_lookup d.attr.name sb.symtab = -1 :=
      (st_lookup_eq_neg_one_iff _ _).mpr hno
    rcases huse with ⟨k1, k2 | k2⟩ | ⟨k1, k2⟩ <;>
      simp [insertStep, insertNode, k1, k2, hl, symbolError]
  · intro hyes
    have hl : st_lookup d.attr.name sb.symtab ≠ -1 :=
      fun h => (st_lookup_eq_neg_one_iff _ _).mp h hyes
    rcases huse with ⟨k1, k2 | k2⟩ | ⟨k1, k2⟩ <;>
      simp [insertStep, insertNode, k1, k2, hl]

/-- C18 (use before declaration). Let `d` be an assignment, read or identifier
node of the tree, `L1` the nodes before it in preorder and `L2` the nodes after
it. In the run of `buildSymtab` from the initial state, `insertNode` meets `d`
with the globals left by the nodes of `L1`, and the run ends with the globals
left by `L2` after that. If no declaration node of `L1` has the name of `d`,
`insertNode` writes at `d` exactly the "not defined" line for `d`, whatever
`L2` declares; if some declaration node of `L1` has the name, it writes nothing
at `d`. Everything written at `d` stays in `listing` until the end of the
run. -/
theorem use_before_declaration (t : TreeNode) (tr : Bool) (L1 L2 : List NodeData)
    (d : NodeData) (child : List TreeNode) (sibling : TreeNode)
    (hsplit : nodes t = L1 ++ d :: L2)
    (huse : (d.nodekind = NodeKind.StmtK ∧
              (d.kind.stmt = StmtKind.AssignK ∨ d.kind.stmt = StmtKind.ReadK))
            ∨ (d.nodekind = NodeKind.ExpK ∧ d.kind.exp = ExpKind.IdK)) :
    ∃ sd s1 later,
      insertNode d child sibling (L1.foldl (fun s d => insertStep d s) (State.initial tr))
        = some (d, sd)
      ∧ buildSymtab t (State.initial tr) = some (t, s1)
      ∧ s1 = traceSymtab (L2.foldl (fun s d => insertStep d s) sd)
      ∧ s1.listing = sd.listing ++ later
      ∧ ((¬ ∃ e ∈ L1, e.nodekind = NodeKind.DeclK ∧ e.attr.name = d.attr.name) →
          sd.listing = (L1.foldl (fun s d => insertStep d s) (State.initial tr)).listing
            ++ [Output.symbolError d.lineno d.attr.name "not defined"])
      ∧ ((∃ e ∈ L1, e.nodekind = NodeKind.DeclK ∧ e.attr.name = d.attr.name) →
          sd.listing
            = (L1.foldl (fun s d => insertStep d s) (State.initial tr)).listing) := by
  have hnames := foldl_insertStep_names L1 (State.initial tr) rfl d.attr.name
  obtain ⟨o2, h2, _, _⟩ := foldl_insertStep_listing L2
    (insertStep d (L1.foldl (fun s d => insertStep d s) (State.initial tr)))
  obtain ⟨o3, h3, _⟩ := traceSymtab_listing (L2.foldl (fun s d => insertStep d s)
    (insertStep d (L1.foldl (fun s d => insertStep d s) (State.initial tr))))
  refine ⟨_, _, o2 ++ o3, insertNode_eq d child sibling _, ?_, rfl, ?_, ?_, ?_⟩
  · rw [buildSymtab_eq, hsplit, List.foldl_append, List.foldl_cons]
  · rw [h3, h2, List.append_assoc]
  · intro hno
    exact (insertStep_use d _ huse).1 (fun h => hno (hnames.mp h))
  · intro hyes
    exact (insertStep_use d _ huse).2 (hnames.mpr hyes)

/-- Witness for C18: in the scenario the assignment to `y` comes after the two
declarations of `x`, and no declaration of `y` comes before it. -/
theorem use_before_declaration_witness :
    ∃ sd s1 later,
      insertNode (sampleStmt 3 StmtKind.AssignK "y") [] TreeNode.NULL
          ([sampleDecl 1 "x" ExpType.Integer, sampleDecl 2 "x" ExpType.Integer].foldl
            (fun s d => insertStep d s) (State.initial false))
        = some (sampleStmt 3 StmtKind.AssignK "y", sd)
      ∧ buildSymtab scenario (State.initial false) = some (scenario, s1)
      ∧ s1.listing = sd.listing ++ later
      ∧ sd.listing = [Output.symbolError 2 "x" "redefined",
          Output.symbolError 3 "y" "not defined"] := by
  obtain ⟨sd, s1, later, h1, h2, _, h4, h5, _⟩ :=
    use_before_declaration scenario false
      [sampleDecl 1 "x" ExpType.Integer, sampleDecl 2 "x" ExpType.Integer]
      [sampleOp 3 TokenType.PLUS, sampleId 3 "x", sampleConst 3 1 ExpType.Integer,
        sampleStmt 4 StmtKind.WriteK "", sampleId 4 "y"]
      (sampleStmt 3 StmtKind.AssignK "y") [] TreeNode.NULL rfl (Or.inl ⟨rfl, Or.inl rfl⟩)
  refine ⟨sd, s1, later, h1, h2, h4, ?_⟩
  rw [h5 (by decide)]
  rfl

/-! ### The flag `Error` -/

mutual
theorem traverse_rel {σ : Type} (R : σ → σ → Prop) (hrefl : ∀ s, R s s)
    (htrans : ∀ a b c, R a b → R b c → R a c) (p q : Proc σ)
    (hp : ∀ t child sibling s t1 s1, p t child sibling s = some (t1, s1) → R s s1)
    (hq : ∀ t child sibling s t1 s1, q t child sibling s = some (t1, s1) → R s s1) :
    ∀ (t r : TreeNode) (s s1 : σ), traverse p q t s = some (r, s1) → R s s1
  | .NULL, r, s, s1, h => by
    simp only [traverse, Option.some.injEq, Prod.mk.injEq] at h
    rw [← h.2]
    exact hrefl s
  | .node t child sibling, r, s, s1, h => by
    obtain ⟨t1, s2, child1, s3, t2, s4, sibling1, h1, h2, h3, h4, _⟩ :=
      (traverse_node_some _ _ _ _ _ _ _ _).mp h
    exact htrans _ _ _ (hp _ _ _ _ _ _ h1)
      (htrans _ _ _ (traverseChildren_rel R hrefl htrans p q hp hq child child1 s2 s3 h2)
        (htrans _ _ _ (hq _ _ _ _ _ _ h3)
          (traverse_rel R hrefl htrans p q hp hq sibling sibling1 s4 s1 h4)))
theorem traverseChildren_rel {σ : Type} (R : σ → σ → Prop) (hrefl : ∀ s, R s s)
    (htrans : ∀ a b c, R a b → R b c → R a c) (p q : Proc σ)
    (hp : ∀ t child sibling s t1 s1, p t child sibling s = some (t1, s1) → R s s1)
    (hq : ∀ t child sibling s t1 s1, q t child sibling s = some (t1, s1) → R s s1) :
    ∀ (child r : List TreeNode) (s s1 : σ),
      traverseChildren p q child s = some (r, s1) → R s s1
  | [], r, s, s1, h => by
    simp only [traverseChildren, Option.some.injEq, Prod.mk.injEq] at h
    rw [← h.2]
    exact hrefl s
  | c :: rest, r, s, s1, h => by
    obtain ⟨c1, s2, rest1, h1, h2, _⟩ := (traverseChildren_cons_some _ _ _ _ _ _ _).mp h
    exact htrans _ _ _ (traverse_rel R hrefl htrans p q hp hq c c1 s s2 h1)
      (traverseChildren_rel R hrefl htrans p q hp hq rest rest1 s2 s1 h2)
end

theorem diagnostics_append (a b : List Output) :
    diagnostics (a ++ b) = diagnostics a ++ diagnostics b := by
  simp [diagnostics]

theorem checkNode_cases (t : NodeData) (child : List TreeNode) (sibling : TreeNode)
    (s : State) (t1 : NodeData) (s1 : State)
    (h : checkNode t child sibling s = some (t1, s1)) :
    s1 = s ∨ ∃ d m, s1 = typeError d m s := by
  simp only [checkNode] at h
  repeat' split at h
  all_goals try simp only [Option.some.injEq, Prod.mk.injEq, reduceCtorEq] at h
  all_goals
    obtain ⟨_, h2⟩ := h
    subst h2
    first
      | exact Or.inl rfl
      | exact Or.inr ⟨_, _, rfl⟩

theorem checkNode_listing (t : NodeData) (child : List TreeNode) (sibling : TreeNode)
    (s : State) (t1 : NodeData) (s1 : State)
    (h : checkNode t child sibling s = some (t1, s1)) :
    ∃ out, s1.listing = s.listing ++ out ∧ diagnostics out = out
      ∧ (s1.Error = true ↔ s.Error = true ∨ diagnostics out ≠ []) := by
  rcases checkNode_cases t child sibling s t1 s1 h with h1 | ⟨d, m, h1⟩
  · rw [h1]
    exact ⟨[], by simp, rfl, by simp [diagnostics]⟩
  · rw [h1]
    exact ⟨[_], rfl, rfl, by simp [diagnostics, typeError]⟩

theorem typeCheck_listing (t t2 : TreeNode) (s s2 : State)
    (h : typeCheck t s = some (t2, s2)) :
    ∃ out, s2.listing = s.listing ++ out
      ∧ (s2.Error = true ↔ s.Error = true ∨ diagnostics out ≠ []) := by
  refine traverse_rel
    (fun s s2 : State => ∃ out, s2.listing = s.listing ++ out
      ∧ (s2.Error = true ↔ s.Error = true ∨ diagnostics out ≠ []))
    ?_ ?_ nullProc checkNode ?_ ?_ t t2 s s2 h
  · intro s
    exact ⟨[], by simp, by simp [diagnostics]⟩
  · rintro a b c ⟨o1, h1, h2⟩ ⟨o2, h3, h4⟩
    refine ⟨o1 ++ o2, by rw [h3, h1, List.append_assoc], ?_⟩
    rw [h4, h2, diagnostics_append]
    simp only [ne_eq, List.append_eq_nil, not_and_or]
    tauto
  · intro t child sibling s t1 s1 hn
    simp only [nullProc, Option.some.injEq, Prod.mk.injEq] at hn
    rw [← hn.2]
    exact ⟨[], by simp, by simp [diagnostics]⟩
  · intro t child sibling s t1 s1 hc
    obtain ⟨out, h1, _, h3⟩ := checkNode_listing t child sibling s t1 s1 hc
    exact ⟨out, h1, h3⟩

theorem buildSymtab_listing (t : TreeNode) (s : State) :
    ∃ s1 out, buildSymtab t s = some (t, s1) ∧ s1.listing = s.listing ++ out
      ∧ (s1.Error = true ↔ s.Error = true ∨ diagnostics out ≠ []) := by
  obtain ⟨o1, h1, _, h3⟩ := foldl_insertStep_listing (nodes t) s
  obtain ⟨o2, h4, h5⟩ := traceSymtab_listing
    ((nodes t).foldl (fun s d => insertStep d s) s)
  refine ⟨_, o1 ++ o2, buildSymtab_eq t s, by rw [h4, h1, List.append_assoc], ?_⟩
  rw [(traceSymtab_symtab _).2.2.1, h3, diagnostics_append, h5, List.append_nil]

/-- C12 (failed flag). `symbolError` and `typeError` both set `Error` to true.
For every tree and every globals at the start, `buildSymtab` returns,
`typeCheck` after it returns when the children read by `checkNode` are present,
and whenever it returns: what the two passes wrote is appended to `listing`,
and `Error` is true at the end exactly when it was true at the start or one of
the lines written is an error line. So from `Error` false the flag ends true if
and only if at least one error line was written, and a flag true at the start
is true at the end. -/
theorem error_flag (t : TreeNode) (s : State) :
    (∀ (d : NodeData) (m : String) (s0 : State),
        (symbolError d m s0).Error = true ∧ (typeError d m s0).Error = true)
    ∧ ∃ s1, buildSymtab t s = some (t, s1)
      ∧ (wellFormed t = true → ∃ t2 s2, typeCheck t s1 = some (t2, s2))
      ∧ ∀ t2 s2, typeCheck t s1 = some (t2, s2) →
          ∃ out, s2.listing = s.listing ++ out
            ∧ (s2.Error = true ↔ s.Error = true ∨ diagnostics out ≠ [])
            ∧ (s.Error = false → (s2.Error = true ↔ diagnostics out ≠ []))
            ∧ (s.Error = true → s2.Error = true) := by
  refine ⟨fun _ _ _ => ⟨rfl, rfl⟩, ?_⟩
  obtain ⟨s1, o1, hb, h1, h2⟩ := buildSymtab_listing t s
  refine ⟨s1, hb, ?_, ?_⟩
  · intro hwf
    obtain ⟨⟨t2, s2⟩, h⟩ := typeCheck_total t s1 hwf
    exact ⟨t2, s2, h⟩
  · intro t2 s2 ht
    obtain ⟨o2, h3, h4⟩ := typeCheck_listing t t2 s1 s2 ht
    have hiff : s2.Error = true ↔ s.Error = true ∨ diagnostics (o1 ++ o2) ≠ [] := by
      rw [h4, h2, diagnostics_append]
      simp only [ne_eq, List.append_eq_nil, not_and_or]
      tauto
    refine ⟨o1 ++ o2, by rw [h3, h1, List.append_assoc], hiff, ?_, ?_⟩
    · intro hf
      rw [hiff, hf]
      simp
    · intro ht
      exact hiff.mpr (Or.inl ht)

/-! ### Frame of the two passes -/

theorem onlyTypeChanged_refl (d : NodeData) : onlyTypeChanged d d = true := by
  simp [onlyTypeChanged]

theorem checkNode_onlyTypeChanged (t : NodeData) (child : List TreeNode)
    (sibling : TreeNode) (s : State) (t2 : NodeData) (s2 : State)
    (h : checkNode t child sibling s = some (t2, s2)) : onlyTypeChanged t t2 = true := by
  simp only [checkNode] at h
  repeat' split at h
  all_goals try simp only [Option.some.injEq, Prod.mk.injEq, reduceCtorEq] at h
  all_goals
    obtain ⟨h1, _⟩ := h
    subst h1
    simp_all [onlyTypeChanged]

mutual
theorem typeCheck_sameButTypes : ∀ (t t2 : TreeNode) (s s2 : State),
    traverse nullProc checkNode t s = some (t2, s2) → sameButTypes t t2 = true
  | .NULL, t2, s, s2, h => by
    simp only [traverse, Option.some.injEq, Prod.mk.injEq] at h
    rw [← h.1]
    rfl
  | .node t child sibling, t2, s, s2, h => by
    obtain ⟨t1, s1, child1, s3, t3, s4, sibling1, hp, hc, hq, hs, hr⟩ :=
      (traverse_node_some _ _ _ _ _ _ _ _).mp h
    simp only [nullProc, Option.some.injEq, Prod.mk.injEq] at hp
    obtain ⟨e1, e2⟩ := hp
    subst e1 e2 hr
    simp only [sameButTypes, Bool.and_eq_true]
    exact ⟨⟨checkNode_onlyTypeChanged _ _ _ _ _ _ hq,
      typeCheckChildren_sameButTypes child child1 s s3 hc⟩,
      typeCheck_sameButTypes sibling sibling1 s4 s2 hs⟩
theorem typeCheckChildren_sameButTypes : ∀ (child child1 : List TreeNode) (s s2 : State),
    traverseChildren nullProc checkNode child s = some (child1, s2) →
    sameButTypesList child child1 = true
  | [], child1, s, s2, h => by
    simp only [traverseChildren, Option.some.injEq, Prod.mk.injEq] at h
    rw [← h.1]
    rfl
  | c :: rest, child1, s, s2, h => by
    obtain ⟨c1, s1, rest1, hc, hr, he⟩ := (traverseChildren_cons_some _ _ _ _ _ _ _).mp h
    subst he
    simp only [sameButTypesList, Bool.and_eq_true]
    exact ⟨typeCheck_sameButTypes c c1 s s1 hc,
      typeCheckChildren_sameButTypes rest rest1 s1 s2 hr⟩
end

theorem sameButTypesList_getD : ∀ (child child2 : List TreeNode) (i : Nat),
    sameButTypesList child child2 = true →
    sameButTypes (child.getD i TreeNode.NULL) (child2.getD i TreeNode.NULL) = true
  | [], [], _, _ => by simp [sameButTypes]
  | [], _ :: _, _, h => by simp [sameButTypesList] at h
  | _ :: _, [], _, h => by simp [sameButTypesList] at h
  | c :: rest, c2 :: rest2, 0, h => by
    simp only [sameButTypesList, Bool.and_eq_true] at h
    simpa using h.1
  | c :: rest, c2 :: rest2, i + 1, h => by
    simp only [sameButTypesList, Bool.and_eq_true] at h
    have := sameButTypesList_getD rest rest2 i h.2
    simpa using this

theorem sameButTypes_follow (p : List Link) : ∀ (t t2 : TreeNode),
    sameButTypes t t2 = true → sameButTypes (follow t p) (follow t2 p) = true := by
  induction p with
  | nil => intro t t2 h; rw [follow_nil, follow_nil]; exact h
  | cons l p ih =>
    intro t t2 h
    cases t with
    | NULL =>
      cases t2 with
      | NULL => rfl
      | node d2 child2 sibling2 => simp [sameButTypes] at h
    | node d child sibling =>
      cases t2 with
      | NULL => simp [sameButTypes] at h
      | node d2 child2 sibling2 =>
        simp only [sameButTypes, Bool.and_eq_true] at h
        cases l with
        | child i =>
          simp only [follow]
          exact ih _ _ (sameButTypesList_getD child child2 i h.1.2)
        | sibling =>
          simp only [follow]
          exact ih _ _ h.2

mutual
theorem sameButTypes_nodes : ∀ (t t2 : TreeNode), sameButTypes t t2 = true →
    List.Forall₂ (fun d d2 => onlyTypeChanged d d2 = true) (nodesTree t) (nodesTree t2)
  | .NULL, .NULL, _ => by simp [nodesTree]
  | .NULL, .node _ _ _, h => by simp [sameButTypes] at h
  | .node _ _ _, .NULL, h => by simp [sameButTypes] at h
  | .node d child sibling, .node d2 child2 sibling2, h => by
    simp only [sameButTypes, Bool.and_eq_true] at h
    simp only [nodesTree]
    exact List.Forall₂.cons h.1.1
      (List.rel_append (sameButTypesList_nodes child child2 h.1.2)
        (sameButTypes_nodes sibling sibling2 h.2))
theorem sameButTypesList_nodes : ∀ (child child2 : List TreeNode),
    sameButTypesList child child2 = true →
    List.Forall₂ (fun d d2 => onlyTypeChanged d d2 = true) (nodesList child) (nodesList child2)
  | [], [], _ => by simp [nodesList]
  | [], _ :: _, h => by simp [sameButTypesList] at h
  | _ :: _, [], h => by simp [sameButTypesList] at h
  | c :: rest, c2 :: rest2, h => by
    simp only [sameButTypesList, Bool.and_eq_true] at h
    simp only [nodesList]
    exact List.rel_append (sameButTypes_nodes c c2 h.1) (sameButTypesList_nodes rest rest2 h.2)
end

/-- C16 (frame of the two passes). For every tree and every globals,
`buildSymtab` returns the tree it was given, no field of any node changed.
`typeCheck` returns when the children read by `checkNode` are present, and
whenever it returns the tree it gives has the same nodes, children and sibling
links as the tree it was given, at every path, and each node has the same line
number, node kind, kind, attribute and, unless it is an operator or identifier
expression node, the same type: constants, statements and declarations keep
their type. -/
theorem typeCheck_frame (t : TreeNode) (s : State) :
    (∃ s1, buildSymtab t s = some (t, s1))
    ∧ (wellFormed t = true → ∃ t2 s2, typeCheck t s = some (t2, s2))
    ∧ ∀ t2 s2, typeCheck t s = some (t2, s2) →
        sameButTypes t t2 = true
        ∧ (∀ p : List Link, sameButTypes (follow t p) (follow t2 p) = true)
        ∧ (∀ p : List Link, follow t p = TreeNode.NULL ↔ follow t2 p = TreeNode.NULL)
        ∧ List.Forall₂
            (fun d d2 => d2.lineno = d.lineno ∧ d2.nodekind = d.nodekind ∧ d2.kind = d.kind
              ∧ d2.attr = d.attr
              ∧ (¬ (d.nodekind = NodeKind.ExpK
                    ∧ (d.kind.exp = ExpKind.OpK ∨ d.kind.exp = ExpKind.IdK)) →
                  d2 = d))
            (nodes t) (nodes t2) := by
  refine ⟨⟨_, buildSymtab_eq t s⟩, ?_, ?_⟩
  · intro hwf
    obtain ⟨⟨t2, s2⟩, h⟩ := typeCheck_total t s hwf
    exact ⟨t2, s2, h⟩
  · intro t2 s2 h
    have hs := typeCheck_sameButTypes t t2 s s2 h
    refine ⟨hs, fun p => sameButTypes_follow p t t2 hs, ?_, ?_⟩
    · intro p
      have := sameButTypes_follow p t t2 hs
      cases h1 : follow t p <;> cases h2 : follow t2 p <;> rw [h1, h2] at this <;>
        simp [sameButTypes] at this ⊢
    · rw [nodes_eq_nodesTree, nodes_eq_nodesTree]
      refine List.Forall₂.imp ?_ (sameButTypes_nodes t t2 hs)
      intro d d2 hd
      simp only [onlyTypeChanged, decide_eq_true_eq] at hd
      obtain ⟨h1, h2, h3, h4, h5⟩ := hd
      refine ⟨h1, h2, h3, h4, ?_⟩
      intro hn
      rcases h5 with h5 | h5
      · cases d; cases d2; simp_all
      · exact absurd h5 hn

/-! ### Running the analysis again on the annotated tree -/

theorem map_nt_eq_map_key (tab : List Entry) :
    tab.map (fun e => (e.name, e.type))
      = (tab.map Entry.key).map (fun k => (k.1, k.2.1)) := by
  simp [Entry.key, Function.comp_def]

theorem map_name_eq_map_nt (tab : List Entry) :
    tab.map Entry.name = (tab.map (fun e => (e.name, e.type))).map Prod.fst := by
  simp [Function.comp_def]

theorem st_findExpType_congr (x : String) : ∀ (tab tab2 : List Entry),
    tab.map (fun e => (e.name, e.type)) = tab2.map (fun e => (e.name, e.type)) →
    st_findExpType x tab = st_findExpType x tab2
  | [], [], _ => rfl
  | [], _ :: _, h => by simp at h
  | _ :: _, [], h => by simp at h
  | e :: es, e2 :: es2, h => by
    simp only [List.map_cons, List.cons.injEq, Prod.mk.injEq] at h
    obtain ⟨⟨h1, h2⟩, h3⟩ := h
    simp only [st_findExpType, h1, h2, st_findExpType_congr x es es2 h3]

theorem insertStep_eq (d : NodeData) (s : State) :
    insertStep d s =
      if isUse d = true then
        if st_lookup d.attr.name s.symtab = -1 then symbolError d "not defined" s
        else { s with symtab := st_insert d.attr.name d.lineno 0 ExpType.Void s.symtab }
      else if d.nodekind = NodeKind.DeclK then
        if st_lookup d.attr.name s.symtab ≠ -1 then symbolError d "redefined" s
        else { s with
          symtab := st_insert d.attr.name d.lineno s.location d.type s.symtab,
          location := s.location + 1 }
      else s := by
  unfold insertStep isUse
  simp only [insertNode]
  cases d.nodekind
  · cases d.kind.stmt
    · simp
    · simp
    · simp; split_ifs <;> rfl
    · simp; split_ifs <;> rfl
    · simp
  · cases d.kind.exp
    · simp
    · simp
    · simp; split_ifs <;> rfl
  · simp; split_ifs <;> rfl

theorem insertStep_congr (d d2 : NodeData) (s s2 : State)
    (hd : onlyTypeChanged d d2 = true)
    (hs : s.symtab.map (fun e => (e.name, e.type))
      = s2.symtab.map (fun e => (e.name, e.type))) :
    ∃ out, (insertStep d s).listing = s.listing ++ out
      ∧ (insertStep d2 s2).listing = s2.listing ++ out
      ∧ (insertStep d s).symtab.map (fun e => (e.name, e.type))
          = (insertStep d2 s2).symtab.map (fun e => (e.name, e.type)) := by
  simp only [onlyTypeChanged, decide_eq_true_eq] at hd
  obtain ⟨h1, h2, h3, h4, h5⟩ := hd
  have hnames : s.symtab.map Entry.name = s2.symtab.map Entry.name := by
    rw [map_name_eq_map_nt, map_name_eq_map_nt, hs]
  have huse : isUse d2 = isUse d := by simp only [isUse, h2, h3]
  have hty : d.nodekind = NodeKind.DeclK → d2.type = d.type := by
    intro hk
    rcases h5 with h5 | h5
    · exact h5
    · rw [hk] at h5
      exact absurd h5.1 (by decide)
  rw [insertStep_eq d s, insertStep_eq d2 s2, huse, h1, h2, h4]
  by_cases hx : d.attr.name ∈ s.symtab.map Entry.name
  · have hx2 : d.attr.name ∈ s2.symtab.map Entry.name := hnames ▸ hx
    have hl : st_lookup d.attr.name s.symtab ≠ -1 := fun h =>
      (st_lookup_eq_neg_one_iff _ _).mp h hx
    have hl2 : st_lookup d.attr.name s2.symtab ≠ -1 := fun h =>
      (st_lookup_eq_neg_one_iff _ _).mp h hx2
    have hi : ∀ (l : Int) (loc : Nat) (ty : ExpType),
        (st_insert d.attr.name l loc ty s.symtab).map (fun e => (e.name, e.type))
          = s.symtab.map (fun e => (e.name, e.type)) := by
      intro l loc ty
      rw [map_nt_eq_map_key, st_insert_key_present _ _ _ _ _ hx, ← map_nt_eq_map_key]
    have hi2 : ∀ (l : Int) (loc : Nat) (ty : ExpType),
        (st_insert d.attr.name l loc ty s2.symtab).map (fun e => (e.name, e.type))
          = s2.symtab.map (fun e => (e.name, e.type)) := by
      intro l loc ty
      rw [map_nt_eq_map_key, st_insert_key_present _ _ _ _ _ hx2, ← map_nt_eq_map_key]
    by_cases hu : isUse d = true
    · rw [if_pos hu, if_pos hu, if_neg hl, if_neg hl2]
      exact ⟨[], (List.append_nil _).symm, (List.append_nil _).symm, by rw [hi, hi2, hs]⟩
    · rw [if_neg hu, if_neg hu]
      by_cases hk : d.nodekind = NodeKind.DeclK
      · rw [if_pos hk, if_pos hk, if_pos hl, if_pos hl2]
        refine ⟨[Output.symbolError d.lineno d.attr.name "redefined"], rfl, ?_, hs⟩
        simp only [symbolError, h1, h4]
      · rw [if_neg hk, if_neg hk]
        exact ⟨[], (List.append_nil _).symm, (List.append_nil _).symm, hs⟩
  · have hx2 : d.attr.name ∉ s2.symtab.map Entry.name := hnames ▸ hx
    have hl : st_lookup d.attr.name s.symtab = -1 := (st_lookup_eq_neg_one_iff _ _).mpr hx
    have hl2 : st_lookup d.attr.name s2.symtab = -1 :=
      (st_lookup_eq_neg_one_iff _ _).mpr hx2
    have hi : ∀ (l : Int) (loc : Nat) (ty : ExpType),
        (st_insert d.attr.name l loc ty s.symtab).map (fun e => (e.name, e.type))
          = s.symtab.map (fun e => (e.name, e.type)) ++ [(d.attr.name, ty)] := by
      intro l loc ty
      rw [map_nt_eq_map_key, st_insert_key_absent _ _ _ _ _ hx, List.map_append,
        ← map_nt_eq_map_key]
      rfl
    have hi2 : ∀ (l : Int) (loc : Nat) (ty : ExpType),
        (st_insert d.attr.name l loc ty s2.symtab).map (fun e => (e.name, e.type))
          = s2.symtab.map (fun e => (e.name, e.type)) ++ [(d.attr.name, ty)] := by
      intro l loc ty
      rw [map_nt_eq_map_key, st_insert_key_absent _ _ _ _ _ hx2, List.map_append,
        ← map_nt_eq_map_key]
      rfl
    by_cases hu : isUse d = true
    · rw [if_pos hu, if_pos hu, if_pos hl, if_pos hl2]
      refine ⟨[Output.symbolError d.lineno d.attr.name "not defined"], rfl, ?_, hs⟩
      simp only [symbolError, h1, h4]
    · rw [if_neg hu, if_neg hu]
      by_cases hk : d.nodekind = NodeKind.DeclK
      · rw [if_pos hk, if_pos hk, if_neg (not_not.mpr hl), if_neg (not_not.mpr hl2)]
        exact ⟨[], (List.append_nil _).symm, (List.append_nil _).symm,
          by rw [hi, hi2, hs, hty hk]⟩
      · rw [if_neg hk, if_neg hk]
        exact ⟨[], (List.append_nil _).symm, (List.append_nil _).symm, hs⟩

theorem foldl_insertStep_congr (l l2 : List NodeData)
    (hl : List.Forall₂ (fun d d2 => onlyTypeChanged d d2 = true) l l2) :
    ∀ (s s2 : State),
      s.symtab.map (fun e => (e.name, e.type)) = s2.symtab.map (fun e => (e.name, e.type)) →
      ∃ out, (l.foldl (fun s d => insertStep d s) s).listing = s.listing ++ out
        ∧ (l2.foldl (fun s d => insertStep d s) s2).listing = s2.listing ++ out
        ∧ (l.foldl (fun s d => insertStep d s) s).symtab.map (fun e => (e.name, e.type))
            = (l2.foldl (fun s d => insertStep d s) s2).symtab.map
                (fun e => (e.name, e.type)) := by
  induction hl with
  | nil => intro s s2 hs; exact ⟨[], by simp, by simp, hs⟩
  | cons hd _ ih =>
    intro s s2 hs
    obtain ⟨o1, a1, a2, a3⟩ := insertStep_congr _ _ s s2 hd hs
    obtain ⟨o2, b1, b2, b3⟩ := ih _ _ a3
    refine ⟨o1 ++ o2, ?_, ?_, b3⟩
    · simp only [List.foldl_cons, b1, a1, List.append_assoc]
    · simp only [List.foldl_cons, b2, a2, List.append_assoc]

theorem checkNode_again (t : NodeData) (child : List TreeNode) (sibling sibling2 : TreeNode)
    (s : State) (t3 : NodeData) (s4 : State)
    (h : checkNode t child sibling s = some (t3, s4)) :
    ∃ out, s4.listing = s.listing ++ out
      ∧ ∀ s2 : State, (∀ x, st_findExpType x s2.symtab = st_findExpType x s.symtab) →
          ∃ s5, checkNode t3 child sibling2 s2 = some (t3, s5)
            ∧ s5.listing = s2.listing ++ out ∧ s5.symtab = s2.symtab := by
  cases hk : t.nodekind with
  | StmtK =>
    simp only [checkNode, hk] at h
    cases hs : t.kind.stmt <;> simp only [hs] at h
    · -- IfK
      cases hc : childAt child 0 with
      | none => simp [hc] at h
      | some c =>
        simp only [hc] at h
        split_ifs at h with hb <;> simp only [Option.some.injEq, Prod.mk.injEq] at h <;>
          obtain ⟨h1, h2⟩ := h <;> subst h1 h2
        · exact ⟨[_], rfl, fun s2 _ => ⟨typeError c "if test is not Boolean" s2,
            by simp only [checkNode, hk, hs, hc, if_pos hb], rfl, rfl⟩⟩
        · exact ⟨[], (List.append_nil _).symm, fun s2 _ => ⟨s2,
            by simp only [checkNode, hk, hs, hc, if_neg hb], (List.append_nil _).symm, rfl⟩⟩
    · -- RepeatK
      cases hc : childAt child 1 with
      | none => simp [hc] at h
      | some c =>
        simp only [hc] at h
        split_ifs at h with hb <;> simp only [Option.some.injEq, Prod.mk.injEq] at h <;>
          obtain ⟨h1, h2⟩ := h <;> subst h1 h2
        · exact ⟨[_], rfl, fun s2 _ => ⟨typeError c "repeat test is not Boolean" s2,
            by simp only [checkNode, hk, hs, hc, if_pos hb], rfl, rfl⟩⟩
        · exact ⟨[], (List.append_nil _).symm, fun s2 _ => ⟨s2,
            by simp only [checkNode, hk, hs, hc, if_neg hb], (List.append_nil _).symm, rfl⟩⟩
    · -- AssignK
      cases hc : childAt child 0 with
      | none => simp [hc] at h
      | some c =>
        simp only [hc] at h
        split_ifs at h with hb <;> simp only [Option.some.injEq, Prod.mk.injEq] at h <;>
          obtain ⟨h1, h2⟩ := h <;> subst h1 h2
        · exact ⟨[_], rfl, fun s2 hf => ⟨typeError c "assignment of different type" s2,
            by simp only [checkNode, hk, hs, hc, hf, if_pos hb], rfl, rfl⟩⟩
        · exact ⟨[], (List.append_nil _).symm, fun s2 hf => ⟨s2,
            by simp only [checkNode, hk, hs, hc, hf, if_neg hb], (List.append_nil _).symm,
            rfl⟩⟩
    · -- ReadK
      split_ifs at h with hb <;> simp only [Option.some.injEq, Prod.mk.injEq] at h <;>
        obtain ⟨h1, h2⟩ := h <;> subst h1 h2
      · exact ⟨[_], rfl, fun s2 hf => ⟨typeError t "read of non-integer type" s2,
          by simp only [checkNode, hk, hs, hf, if_pos hb], rfl, rfl⟩⟩
      · exact ⟨[], (List.append_nil _).symm, fun s2 hf => ⟨s2,
          by simp only [checkNode, hk, hs, hf, if_neg hb], (List.append_nil _).symm, rfl⟩⟩
    · -- WriteK
      cases hc : childAt child 0 with
      | none => simp [hc] at h
      | some c =>
        simp only [hc] at h
        split_ifs at h with hb <;> simp only [Option.some.injEq, Prod.mk.injEq] at h <;>
          obtain ⟨h1, h2⟩ := h <;> subst h1 h2
        · exact ⟨[_], rfl, fun s2 _ =>
            ⟨typeError c "write of non-integer and non-char type" s2,
            by simp only [checkNode, hk, hs, hc, if_pos hb], rfl, rfl⟩⟩
        · exact ⟨[], (List.append_nil _).symm, fun s2 _ => ⟨s2,
            by simp only [checkNode, hk, hs, hc, if_neg hb], (List.append_nil _).symm, rfl⟩⟩
  | ExpK =>
    cases he : t.kind.exp with
    | OpK =>
      cases h0 : childAt child 0 with
      | none => simp [checkNode, hk, he, h0] at h
      | some c0 =>
        cases h1 : childAt child 1 with
        | none => simp [checkNode, hk, he, h0, h1] at h
        | some c1 =>
          rw [checkNode_op t child sibling s c0 c1 hk he h0 h1] at h
          simp only [Option.some.injEq, Prod.mk.injEq] at h
          obtain ⟨e1, e2⟩ := h
          subst e1 e2
          refine ⟨(if c0.type ≠ c1.type then
              [Output.typeError t.lineno "Op applied to different data type"]
            else if c0.type ≠ ExpType.Integer ∧ c0.type ≠ ExpType.Char then
              [Output.typeError t.lineno "Op applied to invalid type"]
            else []), ?_, ?_⟩
          · split_ifs <;> simp [typeError]
          · intro s2 _
            refine ⟨(if c0.type ≠ c1.type then
                typeError t "Op applied to different data type" s2
              else if c0.type ≠ ExpType.Integer ∧ c0.type ≠ ExpType.Char then
                typeError t "Op applied to invalid type" s2
              else s2), ?_, ?_, ?_⟩
            · exact checkNode_op _ child sibling2 s2 c0 c1 hk he h0 h1
            · split_ifs <;> simp [typeError]
            · split_ifs <;> rfl
    | ConstK =>
      simp only [checkNode, hk, he, Option.some.injEq, Prod.mk.injEq] at h
      obtain ⟨e1, e2⟩ := h
      subst e1 e2
      exact ⟨[], (List.append_nil _).symm, fun s2 _ => ⟨s2,
        by simp only [checkNode, hk, he], (List.append_nil _).symm, rfl⟩⟩
    | IdK =>
      simp only [checkNode, hk, he, Option.some.injEq, Prod.mk.injEq] at h
      obtain ⟨e1, e2⟩ := h
      subst e1 e2
      exact ⟨[], (List.append_nil _).symm, fun s2 hf => ⟨s2,
        by simp only [checkNode, hk, he, hf], (List.append_nil _).symm, rfl⟩⟩
  | DeclK =>
    simp only [checkNode, hk, Option.some.injEq, Prod.mk.injEq] at h
    obtain ⟨e1, e2⟩ := h
    subst e1 e2
    exact ⟨[], (List.append_nil _).symm, fun s2 _ => ⟨s2,
      by simp only [checkNode, hk], (List.append_nil _).symm, rfl⟩⟩

mutual
theorem typeCheck_again : ∀ (t t2 : TreeNode) (s s2 : State),
    traverse nullProc checkNode t s = some (t2, s2) →
    ∃ out, s2.listing = s.listing ++ out
      ∧ ∀ s3 : State, (∀ x, st_findExpType x s3.symtab = st_findExpType x s.symtab) →
          ∃ s4, traverse nullProc checkNode t2 s3 = some (t2, s4)
            ∧ s4.listing = s3.listing ++ out ∧ s4.symtab = s3.symtab
  | .NULL, t2, s, s2, h => by
    simp only [traverse, Option.some.injEq, Prod.mk.injEq] at h
    obtain ⟨e1, e2⟩ := h
    subst e1 e2
    exact ⟨[], (List.append_nil _).symm, fun s3 _ => ⟨s3, by simp only [traverse],
      (List.append_nil _).symm, rfl⟩⟩
  | .node t child sibling, t2, s, s2, h => by
    obtain ⟨t1, s1, child1, s5, t3, s6, sibling1, hp, hc, hq, hs, hr⟩ :=
      (traverse_node_some _ _ _ _ _ _ _ _).mp h
    simp only [nullProc, Option.some.injEq, Prod.mk.injEq] at hp
    obtain ⟨e1, e2⟩ := hp
    subst e1 e2 hr
    obtain ⟨oc, c1, c2⟩ := typeCheckChildren_again child child1 s s5 hc
    obtain ⟨oq, q1, q2⟩ := checkNode_again t child1 sibling sibling1 s5 t3 s6 hq
    obtain ⟨os, r1, r2⟩ := typeCheck_again sibling sibling1 s6 s2 hs
    have hsym5 : s5.symtab = s.symtab := (typeCheckChildren_ids child child1 s s5 hc).1
    have hsym6 : s6.symtab = s5.symtab := (checkNode_frame _ _ _ _ _ _ hq).1
    refine ⟨oc ++ (oq ++ os), by rw [r1, q1, c1, List.append_assoc, List.append_assoc], ?_⟩
    intro s3 hf
    obtain ⟨s7, d1, d2, d3⟩ := c2 s3 hf
    obtain ⟨s8, f1, f2, f3⟩ := q2 s7 (fun x => by rw [d3, hsym5]; exact hf x)
    obtain ⟨s9, g1, g2, g3⟩ := r2 s8 (fun x => by rw [f3, d3, hsym6, hsym5]; exact hf x)
    refine ⟨s9, (traverse_node_some _ _ _ _ _ _ _ _).mpr
      ⟨t3, s3, child1, s7, t3, s8, sibling1, rfl, d1, f1, g1, rfl⟩, ?_, ?_⟩
    · rw [g2, f2, d2, List.append_assoc, List.append_assoc]
    · rw [g3, f3, d3]
theorem typeCheckChildren_again : ∀ (child child1 : List TreeNode) (s s2 : State),
    traverseChildren nullProc checkNode child s = some (child1, s2) →
    ∃ out, s2.listing = s.listing ++ out
      ∧ ∀ s3 : State, (∀ x, st_findExpType x s3.symtab = st_findExpType x s.symtab) →
          ∃ s4, traverseChildren nullProc checkNode child1 s3 = some (child1, s4)
            ∧ s4.listing = s3.listing ++ out ∧ s4.symtab = s3.symtab
  | [], child1, s, s2, h => by
    simp only [traverseChildren, Option.some.injEq, Prod.mk.injEq] at h
    obtain ⟨e1, e2⟩ := h
    subst e1 e2
    exact ⟨[], (List.append_nil _).symm, fun s3 _ => ⟨s3, by simp only [traverseChildren],
      (List.append_nil _).symm, rfl⟩⟩
  | c :: rest, child1, s, s2, h => by
    obtain ⟨c1, s1, rest1, hc, hr, he⟩ := (traverseChildren_cons_some _ _ _ _ _ _ _).mp h
    subst he
    obtain ⟨o1, a1, a2⟩ := typeCheck_again c c1 s s1 hc
    obtain ⟨o2, b1, b2⟩ := typeCheckChildren_again rest rest1 s1 s2 hr
    have hsym : s1.symtab = s.symtab := (typeCheck_ids c c1 s s1 hc).1
    refine ⟨o1 ++ o2, by rw [b1, a1, List.append_assoc], ?_⟩
    intro s3 hf
    obtain ⟨s4, d1, d2, d3⟩ := a2 s3 hf
    obtain ⟨s5, f1, f2, f3⟩ := b2 s4 (fun x => by rw [d3, hsym]; exact hf x)
    refine ⟨s5, (traverseChildren_cons_some _ _ _ _ _ _ _).mpr ⟨c1, s4, rest1, d1, f1, rfl⟩,
      ?_, ?_⟩
    · rw [f2, d2, List.append_assoc]
    · rw [f3, d3]
end

/-- C14 (idempotent re-analysis). Take any two globals with an empty symbol
table, one for each run. The first run on a tree, `buildSymtab` then
`typeCheck`, returns when the children read by `checkNode` are present; and
whenever it returns an annotated tree, the second run on that annotated tree
returns too, gives back the annotated tree unchanged, every type as the first
run set it, and writes the same error lines in the same order as the first
run. -/
theorem reanalysis_idempotent (t : TreeNode) (s r : State)
    (hs : s.symtab = []) (hr : r.symtab = []) :
    ∃ s1, buildSymtab t s = some (t, s1)
      ∧ (wellFormed t = true → ∃ t2 s2, typeCheck t s1 = some (t2, s2))
      ∧ ∀ t2 s2, typeCheck t s1 = some (t2, s2) →
          ∃ out1 out2 r1 r2, s2.listing = s.listing ++ out1
            ∧ buildSymtab t2 r = some (t2, r1)
            ∧ typeCheck t2 r1 = some (t2, r2)
            ∧ r2.listing = r.listing ++ out2
            ∧ diagnostics out2 = diagnostics out1 := by
  refine ⟨_, buildSymtab_eq t s, ?_, ?_⟩
  · intro hwf
    obtain ⟨⟨t2, s2⟩, h⟩ := typeCheck_total t _ hwf
    exact ⟨t2, s2, h⟩
  · intro t2 s2 h
    have hsame := typeCheck_sameButTypes t t2 _ s2 h
    have hnodes := sameButTypes_nodes t t2 hsame
    rw [← nodes_eq_nodesTree, ← nodes_eq_nodesTree] at hnodes
    obtain ⟨ob, b1, b2, b3⟩ := foldl_insertStep_congr (nodes t) (nodes t2) hnodes s r
      (by rw [hs, hr])
    obtain ⟨ot, t1, t3⟩ := typeCheck_again t t2 _ s2 h
    obtain ⟨x1, y1, z1⟩ := traceSymtab_listing ((nodes t).foldl (fun s d => insertStep d s) s)
    obtain ⟨x2, y2, z2⟩ := traceSymtab_listing ((nodes t2).foldl (fun s d => insertStep d s) r)
    have hagree : ∀ x, st_findExpType x
        (traceSymtab ((nodes t2).foldl (fun s d => insertStep d s) r)).symtab
        = st_findExpType x (traceSymtab ((nodes t).foldl (fun s d => insertStep d s) s)).symtab := by
      intro x
      rw [(traceSymtab_symtab _).1, (traceSymtab_symtab _).1]
      exact (st_findExpType_congr x _ _ b3).symm
    obtain ⟨r2, u1, u2, _⟩ := t3 _ hagree
    refine ⟨ob ++ x1 ++ ot, ob ++ x2 ++ ot, _, r2, ?_, buildSymtab_eq t2 r, u1, ?_, ?_⟩
    · rw [t1, y1, b1, List.append_assoc, List.append_assoc, List.append_assoc]
    · rw [u2, y2, b2, List.append_assoc, List.append_assoc, List.append_assoc]
    · simp only [diagnostics_append, z1, z2]

/-- Witness for C14: the scenario analysed twice, each time from the initial
state. -/
theorem reanalysis_idempotent_witness :
    ∃ s1 t2 s2 r1 r2, buildSymtab scenario (State.initial false) = some (scenario, s1)
      ∧ typeCheck scenario s1 = some (t2, s2)
      ∧ buildSymtab t2 (State.initial false) = some (t2, r1)
      ∧ typeCheck t2 r1 = some (t2, r2)
      ∧ diagnostics r2.listing = diagnostics s2.listing := by
  obtain ⟨s1, h1, h2, h3⟩ :=
    reanalysis_idempotent scenario (State.initial false) (State.initial false) rfl rfl
  obtain ⟨t2, s2, ht⟩ := h2 rfl
  obtain ⟨o1, o2, r1, r2, a1, a2, a3, a4, a5⟩ := h3 t2 s2 ht
  refine ⟨s1, t2, s2, r1, r2, h1, ht, a2, a3, ?_⟩
  rw [a4, a1, diagnostics_append, diagnostics_append, a5]

/-! ### A run without error lines -/

theorem checkNode_operands (t : NodeData) (child : List TreeNode) (sibling sibling2 : TreeNode)
    (s : State) (t3 : NodeData) (s4 : State)
    (h : checkNode t child sibling s = some (t3, s4)) :
    ∃ out, s4.listing = s.listing ++ out
      ∧ (diagnostics out = [] → operandsAgree (TreeNode.node t3 child sibling2) = true) := by
  by_cases hop : t.nodekind = NodeKind.ExpK ∧ t.kind.exp = ExpKind.OpK
  · obtain ⟨hk, he⟩ := hop
    cases h0 : childAt child 0 with
    | none => simp [checkNode, hk, he, h0] at h
    | some c0 =>
      cases h1 : childAt child 1 with
      | none => simp [checkNode, hk, he, h0, h1] at h
      | some c1 =>
        rw [checkNode_op t child sibling s c0 c1 hk he h0 h1] at h
        simp only [Option.some.injEq, Prod.mk.injEq] at h
        obtain ⟨e1, e2⟩ := h
        subst e1 e2
        refine ⟨(if c0.type ≠ c1.type then
            [Output.typeError t.lineno "Op applied to different data type"]
          else if c0.type ≠ ExpType.Integer ∧ c0.type ≠ ExpType.Char then
            [Output.typeError t.lineno "Op applied to invalid type"]
          else []), ?_, ?_⟩
        · split_ifs <;> simp [typeError]
        · intro hd
          by_cases hne : c0.type = c1.type
          · by_cases hv : c0.type = ExpType.Integer ∨ c0.type = ExpType.Char
            · simp only [operandsAgree, hk, he, and_self, if_true, h0, h1,
                decide_eq_true_eq]
              refine ⟨hne, hv, ?_⟩
              split_ifs
              · exact Or.inl rfl
              · exact Or.inr rfl
            · have hv1 : c0.type ≠ ExpType.Integer ∧ c0.type ≠ ExpType.Char :=
                ⟨fun h => hv (Or.inl h), fun h => hv (Or.inr h)⟩
              rw [if_neg (not_not.mpr hne), if_pos hv1] at hd
              simp [diagnostics] at hd
          · rw [if_pos hne] at hd
            simp [diagnostics] at hd
  · obtain ⟨out, h1, _⟩ := checkNode_listing t child sibling s t3 s4 h
    refine ⟨out, h1, fun _ => ?_⟩
    have hf := checkNode_frame t child sibling s t3 s4 h
    have hop3 : ¬ (t3.nodekind = NodeKind.ExpK ∧ t3.kind.exp = ExpKind.OpK) := by
      rw [hf.2.2.2.2.1, hf.2.2.2.2.2.1]
      exact hop
    simp only [operandsAgree, hop3, if_false]

mutual
theorem typeCheck_operands : ∀ (t t2 : TreeNode) (s s2 : State),
    traverse nullProc checkNode t s = some (t2, s2) →
    ∃ out, s2.listing = s.listing ++ out
      ∧ (diagnostics out = [] → ∀ n ∈ preorder t2, operandsAgree n = true)
  | .NULL, t2, s, s2, h => by
    simp only [traverse, Option.some.injEq, Prod.mk.injEq] at h
    obtain ⟨e1, e2⟩ := h
    subst e1 e2
    exact ⟨[], (List.append_nil _).symm, fun _ n hn => by simp [preorder] at hn⟩
  | .node t child sibling, t2, s, s2, h => by
    obtain ⟨t1, s1, child1, s5, t3, s6, sibling1, hp, hc, hq, hs, hr⟩ :=
      (traverse_node_some _ _ _ _ _ _ _ _).mp h
    simp only [nullProc, Option.some.injEq, Prod.mk.injEq] at hp
    obtain ⟨e1, e2⟩ := hp
    subst e1 e2 hr
    obtain ⟨oc, c1, c2⟩ := typeCheckChildren_operands child child1 s s5 hc
    obtain ⟨oq, q1, q2⟩ := checkNode_operands t child1 sibling sibling1 s5 t3 s6 hq
    obtain ⟨os, r1, r2⟩ := typeCheck_operands sibling sibling1 s6 s2 hs
    refine ⟨oc ++ (oq ++ os), by rw [r1, q1, c1, List.append_assoc, List.append_assoc], ?_⟩
    intro hd n hn
    simp only [diagnostics_append, List.append_eq_nil] at hd
    simp only [preorder, List.mem_cons, List.mem_append] at hn
    rcases hn with hn | hn | hn
    · rw [hn]
      exact q2 hd.2.1
    · exact c2 hd.1 n hn
    · exact r2 hd.2.2 n hn
theorem typeCheckChildren_operands : ∀ (child child1 : List TreeNode) (s s2 : State),
    traverseChildren nullProc checkNode child s = some (child1, s2) →
    ∃ out, s2.listing = s.listing ++ out
      ∧ (diagnostics out = [] → ∀ n ∈ preorderList child1, operandsAgree n = true)
  | [], child1, s, s2, h => by
    simp only [traverseChildren, Option.some.injEq, Prod.mk.injEq] at h
    obtain ⟨e1, e2⟩ := h
    subst e1 e2
    exact ⟨[], (List.append_nil _).symm, fun _ n hn => by simp [preorderList] at hn⟩
  | c :: rest, child1, s, s2, h => by
    obtain ⟨c1, s1, rest1, hc, hr, he⟩ := (traverseChildren_cons_some _ _ _ _ _ _ _).mp h
    subst he
    obtain ⟨o1, a1, a2⟩ := typeCheck_operands c c1 s s1 hc
    obtain ⟨o2, b1, b2⟩ := typeCheckChildren_operands rest rest1 s1 s2 hr
    refine ⟨o1 ++ o2, by rw [b1, a1, List.append_assoc], ?_⟩
    intro hd n hn
    simp only [diagnostics_append, List.append_eq_nil] at hd
    simp only [preorderList, List.mem_append] at hn
    rcases hn with hn | hn
    · exact a2 hd.1 n hn
    · exact b2 hd.2 n hn
end

theorem no_undefined_use (l : List NodeData) (s : State) (hs : s.symtab = [])
    (out : List Output)
    (hout : (l.foldl (fun s d => insertStep d s) s).listing = s.listing ++ out)
    (hd : diagnostics out = []) :
    ∀ d ∈ l, isUse d = true →
      ∃ e ∈ l, e.nodekind = NodeKind.DeclK ∧ e.attr.name = d.attr.name := by
  intro d hmem huse
  obtain ⟨L1, L2, hsplit⟩ := List.append_of_mem hmem
  by_contra hno
  have hno1 : d.attr.name ∉ (L1.foldl (fun s d => insertStep d s) s).symtab.map Entry.name := by
    intro hin
    obtain ⟨e, he, hk, hn⟩ := (foldl_insertStep_names L1 s hs d.attr.name).mp hin
    exact hno ⟨e, by rw [hsplit]; exact List.mem_append_left _ he, hk, hn⟩
  have huse1 : (d.nodekind = NodeKind.StmtK ∧
        (d.kind.stmt = StmtKind.AssignK ∨ d.kind.stmt = StmtKind.ReadK))
      ∨ (d.nodekind = NodeKind.ExpK ∧ d.kind.exp = ExpKind.IdK) := by
    simpa [isUse] using huse
  have h1 := (insertStep_use d _ huse1).1 hno1
  obtain ⟨o0, a0, _, _⟩ := foldl_insertStep_listing L1 s
  obtain ⟨o2, a2, _, _⟩ := foldl_insertStep_listing L2
    (insertStep d (L1.foldl (fun s d => insertStep d s) s))
  rw [hsplit, List.foldl_append, List.foldl_cons, a2, h1, a0, List.append_assoc,
    List.append_assoc] at hout
  have hout1 := List.append_cancel_left hout
  rw [← hout1] at hd
  simp [diagnostics] at hd

theorem forall₂_mem_right {α β : Type} (R : α → β → Prop) (l : List α) (l2 : List β)
    (h : List.Forall₂ R l l2) : ∀ b ∈ l2, ∃ a ∈ l, R a b := by
  induction h with
  | nil => intro b hb; simp at hb
  | cons hab _ ih =>
    intro b hb
    rcases List.mem_cons.mp hb with hb | hb
    · subst hb
      exact ⟨_, List.mem_cons_self _ _, hab⟩
    · obtain ⟨a, ha, hr⟩ := ih b hb
      exact ⟨a, List.mem_cons_of_mem _ ha, hr⟩

theorem st_findExpType_declared (t : TreeNode) (tr : Bool) (s1 : State)
    (hb : buildSymtab t (State.initial tr) = some (t, s1)) (x : String) :
    st_findExpType x s1.symtab
      = match (nodes t).find?
            (fun n => decide (n.nodekind = NodeKind.DeclK ∧ n.attr.name = x)) with
        | some first => first.type
        | none => ExpType.Void := by
  obtain ⟨s0, hb0, _, hkey⟩ := buildSymtab_key t tr
  rw [hb] at hb0
  simp only [Option.some.injEq, Prod.mk.injEq, true_and] at hb0
  subst hb0
  have hpairs : s1.symtab.map (fun e => (e.name, e.type))
      = (successfulDecls (nodes t)).map (fun d => (d.attr.name, d.type)) := by
    rw [map_nt_eq_map_key, hkey, List.map_map]
    have : ((fun (p : String × ExpType × Nat) => (p.1, p.2.1)) ∘
          fun (p : Nat × NodeData) => (p.2.attr.name, p.2.type, p.1))
        = (fun d : NodeData => (d.attr.name, d.type)) ∘ Prod.snd := rfl
    rw [this, ← List.map_map, List.enum_map_snd]
  rw [st_findExpType_of_map x s1.symtab _ hpairs, successfulDecls,
    successfulFrom_find x (nodes t) [] (by simp)]

theorem mem_nodes_iff (t : TreeNode) (d : NodeData) :
    d ∈ nodes t ↔ ∃ child sibling, TreeNode.node d child sibling ∈ preorder t := by
  unfold nodes
  rw [List.mem_filterMap]
  constructor
  · rintro ⟨n, hn, hd⟩
    cases n with
    | NULL => simp [TreeNode.deref] at hd
    | node d1 child sibling =>
      simp only [TreeNode.deref, Option.some.injEq] at hd
      subst hd
      exact ⟨child, sibling, hn⟩
  · rintro ⟨child, sibling, hn⟩
    exact ⟨_, hn, rfl⟩

/-- C13 (types after a clean run). Take a tree in which the children read by
`checkNode` are present, every declaration node has a type other than `Void`
and every constant node has a type other than `Void`. `buildSymtab` from the
initial state and `typeCheck` after it both return, and if no error line was
written then, in the resulting tree, every expression node has type `Integer`,
`Char` or `Boolean`, and every operator node has operands `child[0]` and
`child[1]` of one and the same type, which is `Integer` or `Char`. -/
theorem clean_run_types (t : TreeNode) (tr : Bool) (hwf : wellFormed t = true)
    (hdecl : ∀ d ∈ nodes t, d.nodekind = NodeKind.DeclK → d.type ≠ ExpType.Void)
    (hconst : ∀ d ∈ nodes t, d.nodekind = NodeKind.ExpK → d.kind.exp = ExpKind.ConstK →
      d.type ≠ ExpType.Void) :
    ∃ s1 t2 s2, buildSymtab t (State.initial tr) = some (t, s1)
      ∧ typeCheck t s1 = some (t2, s2)
      ∧ (diagnostics s2.listing = [] →
          (∀ d ∈ nodes t2, d.nodekind = NodeKind.ExpK →
            d.type = ExpType.Integer ∨ d.type = ExpType.Char ∨ d.type = ExpType.Boolean)
          ∧ ∀ (d : NodeData) (child : List TreeNode) (sibling : TreeNode),
              TreeNode.node d child sibling ∈ preorder t2 →
              d.nodekind = NodeKind.ExpK → d.kind.exp = ExpKind.OpK →
              ∃ c0 c1, childAt child 0 = some c0 ∧ childAt child 1 = some c1
                ∧ c0.type = c1.type
                ∧ (c0.type = ExpType.Integer ∨ c0.type = ExpType.Char)) := by
  have hb := buildSymtab_eq t (State.initial tr)
  obtain ⟨⟨t2, s2⟩, ht⟩ := typeCheck_total t
    (traceSymtab ((nodes t).foldl (fun s d => insertStep d s) (State.initial tr))) hwf
  refine ⟨_, t2, s2, hb, ht, ?_⟩
  intro hclean
  -- what the two passes wrote
  obtain ⟨ob, b1, _, _⟩ := foldl_insertStep_listing (nodes t) (State.initial tr)
  obtain ⟨ox, x1, x2⟩ := traceSymtab_listing
    ((nodes t).foldl (fun s d => insertStep d s) (State.initial tr))
  obtain ⟨ot, t1, t3⟩ := typeCheck_operands t t2 _ s2 ht
  rw [t1, x1, b1, diagnostics_append, diagnostics_append, diagnostics_append] at hclean
  simp only [List.append_eq_nil] at hclean
  obtain ⟨⟨⟨_, hob⟩, _⟩, hot⟩ := hclean
  have hops := t3 hot
  have huses := no_undefined_use (nodes t) (State.initial tr) rfl ob b1 hob
  have hrel := sameButTypes_nodes t t2 (typeCheck_sameButTypes t t2 _ s2 ht)
  rw [← nodes_eq_nodesTree, ← nodes_eq_nodesTree] at hrel
  have hids := (typeCheck_ids t t2 _ s2 ht).2
  -- the operator nodes
  have hop : ∀ (d : NodeData) (child : List TreeNode) (sibling : TreeNode),
      TreeNode.node d child sibling ∈ preorder t2 →
      d.nodekind = NodeKind.ExpK → d.kind.exp = ExpKind.OpK →
      ∃ c0 c1, childAt child 0 = some c0 ∧ childAt child 1 = some c1
        ∧ c0.type = c1.type
        ∧ (c0.type = ExpType.Integer ∨ c0.type = ExpType.Char)
        ∧ (d.type = ExpType.Boolean ∨ d.type = c0.type) := by
    intro d child sibling hn hk he
    have := hops _ hn
    simp only [operandsAgree, hk, he, and_self, if_true] at this
    cases h0 : childAt child 0 with
    | none => simp [h0] at this
    | some c0 =>
      cases h1 : childAt child 1 with
      | none => simp [h0, h1] at this
      | some c1 =>
        simp only [h0, h1, decide_eq_true_eq] at this
        exact ⟨c0, c1, rfl, rfl, this⟩
  refine ⟨?_, fun d child sibling hn hk he => ?_⟩
  · intro d2 hd2 hk
    have hnv : d2.type ≠ ExpType.Void := by
      obtain ⟨d, hd, hr⟩ := forall₂_mem_right _ _ _ hrel d2 hd2
      simp only [onlyTypeChanged, decide_eq_true_eq] at hr
      obtain ⟨_, r2, r3, r4, r5⟩ := hr
      cases he : d2.kind.exp with
      | OpK =>
        obtain ⟨child, sibling, hn⟩ := (mem_nodes_iff t2 d2).mp hd2
        obtain ⟨c0, c1, _, _, _, hv, hty⟩ := hop d2 child sibling hn hk he
        intro hvoid
        rcases hty with hty | hty
        · rw [hty] at hvoid; cases hvoid
        · rw [hty] at hvoid
          rcases hv with hv | hv <;> rw [hv] at hvoid <;> cases hvoid
      | ConstK =>
        have hkd : d.nodekind = NodeKind.ExpK := by rw [← r2]; exact hk
        have hed : d.kind.exp = ExpKind.ConstK := by rw [← r3]; exact he
        rcases r5 with r5 | r5
        · rw [r5]
          exact hconst d hd hkd hed
        · rw [hed] at r5
          rcases r5.2 with h | h <;> cases h
      | IdK =>
        have hkd : d.nodekind = NodeKind.ExpK := by rw [← r2]; exact hk
        have hed : d.kind.exp = ExpKind.IdK := by rw [← r3]; exact he
        have huse : isUse d = true := by simp [isUse, hkd, hed]
        obtain ⟨e, he1, he2, he3⟩ := huses d hd huse
        rw [nodes_eq_nodesTree] at hd2
        rw [hids d2 hd2 hk he, st_findExpType_declared t tr _ hb, r4]
        cases hf : (nodes t).find?
            (fun n => decide (n.nodekind = NodeKind.DeclK ∧ n.attr.name = d.attr.name)) with
        | none =>
          have := List.find?_eq_none.mp hf e he1
          simp [he2, he3] at this
        | some first =>
          have hp := List.find?_some hf
          simp only [decide_eq_true_eq] at hp
          exact hdecl first (List.mem_of_find?_eq_some hf) hp.1
    cases hty : d2.type with
    | Void => exact absurd hty hnv
    | Integer => exact Or.inl rfl
    | Boolean => exact Or.inr (Or.inr rfl)
    | Char => exact Or.inr (Or.inl rfl)
  · obtain ⟨c0, c1, h0, h1, h2, h3, _⟩ := hop d child sibling hn hk he
    exact ⟨c0, c1, h0, h1, h2, h3⟩

/-- Witness for C13: the program `declare x: Integer; x := x + 1; write x;`
has its children, an `Integer` declaration and an `Integer` constant; the run
writes no error line and types the identifiers and the sum `Integer`. -/
theorem clean_run_types_witness :
    wellFormed cleanProgram = true
      ∧ ∃ s1 t2 s2, buildSymtab cleanProgram (State.initial false) = some (cleanProgram, s1)
        ∧ typeCheck cleanProgram s1 = some (t2, s2)
        ∧ diagnostics s2.listing = []
        ∧ (nodes t2).map (fun d => d.type)
            = [ExpType.Integer, ExpType.Void, ExpType.Integer, ExpType.Integer,
               ExpType.Integer, ExpType.Void, ExpType.Integer]
        ∧ ∀ d ∈ nodes t2, d.nodekind = NodeKind.ExpK →
            d.type = ExpType.Integer ∨ d.type = ExpType.Char ∨ d.type = ExpType.Boolean := by
  refine ⟨rfl, ?_⟩
  obtain ⟨s1, t2, s2, h1, h2, h3⟩ :=
    clean_run_types cleanProgram false rfl (by decide) (by decide)
  have e1 : buildSymtab cleanProgram (State.initial false)
      = some (cleanProgram, ⟨1, [⟨"x", ExpType.Integer, 0, [1, 2, 2, 3]⟩], [], false, false⟩) :=
    rfl
  rw [e1] at h1
  simp only [Option.some.injEq, Prod.mk.injEq, true_and] at h1
  subst h1
  have e2 : ∃ r, typeCheck cleanProgram
        ⟨1, [⟨"x", ExpType.Integer, 0, [1, 2, 2, 3]⟩], [], false, false⟩
      = some (r, ⟨1, [⟨"x", ExpType.Integer, 0, [1, 2, 2, 3]⟩], [], false, false⟩)
      ∧ (nodes r).map (fun d => d.type)
          = [ExpType.Integer, ExpType.Void, ExpType.Integer, ExpType.Integer,
             ExpType.Integer, ExpType.Void, ExpType.Integer] := ⟨_, rfl, rfl⟩
  obtain ⟨r, e3, e4⟩ := e2
  rw [e3] at h2
  simp only [Option.some.injEq, Prod.mk.injEq] at h2
  obtain ⟨h4, h5⟩ := h2
  subst h4 h5
  exact ⟨_, _, _, e1, e3, rfl, e4, (h3 rfl).1⟩

end TINY
